import Mathlib

/-! # neo4j-cdc-sync: the change-event translation engine

A shallow embedding of `cdc_tool/main.go`: the four pattern builders
(`nodePattern`, `labelPattern`, `relPattern`, `attribPattern`), the three query
composers (`buildCreateQuery`, `buildUpdateQuery`, `buildDeleteQuery`) with the
`text/template` constants they execute, `applyChange` and the record loop of
`queryChanges`.

Conventions of the embedding.

* A Go value of type `any` coming out of the driver is a `Value`.
* A Go `map[string]any` is a `GoMap`: the list of its entries, in the order in
  which the runtime iterates the map on this run.  A map that the code builds
  itself is iterated in insertion order.  The definitions `nodePatternWith`,
  `relPatternWith`, `attribPatternWith` and `build…QueryWith` take the iteration
  order as a parameter instead, for the claims that speak about it.
* A function that can panic (a failed type assertion, a comparison of
  uncomparable values, `template.Must`) returns an `Option`; `none` is the panic.
* A Go `error` result is an `Option String`; `none` is the nil error.
-/

namespace CdcSync

/-! ## Values and maps -/

/-- The dynamic values carried by a CDC record. -/
inductive Value where
  | null
  | bool (b : Bool)
  | int (i : Int)
  | str (s : String)
  | list (xs : List Value)
  | map (kvs : List (String × Value))

/-- A Go `map[string]any`, as its entries in iteration order. -/
abbrev GoMap := List (String × Value)

/-- The map index expression `m[k]` with the comma-ok result. -/
def mapGet : GoMap → String → Option Value
  | [], _ => none
  | (k, v) :: rest, key => if k = key then some v else mapGet rest key

/-- The map assignment `m[k] = v`. -/
def mapSet : GoMap → String → Value → GoMap
  | [], key, val => [(key, val)]
  | (k, v) :: rest, key, val =>
    if k = key then (k, val) :: rest else (k, v) :: mapSet rest key val

/-- The library function `maps.Copy(dst, src)`. -/
def mapsCopy : GoMap → GoMap → GoMap
  | dst, [] => dst
  | dst, (k, v) :: rest => mapsCopy (mapSet dst k v) rest

/-- The type assertion `x.(map[string]any)` on the result of a map index. -/
def asMap : Option Value → Option GoMap
  | some (Value.map kvs) => some kvs
  | _ => none

/-- The type assertion `x.(string)` on the result of a map index. -/
def asString : Option Value → Option String
  | some (Value.str s) => some s
  | _ => none

/-- The type assertion `x.([]any)` on the result of a map index. -/
def asList : Option Value → Option (List Value)
  | some (Value.list xs) => some xs
  | _ => none

/-- The comparison `a == b` of two interface values; `none` is the runtime
panic on two values of one uncomparable dynamic type. -/
def goEq : Value → Value → Option Bool
  | Value.null, Value.null => some true
  | Value.bool a, Value.bool b => some (decide (a = b))
  | Value.int a, Value.int b => some (decide (a = b))
  | Value.str a, Value.str b => some (decide (a = b))
  | Value.list _, Value.list _ => none
  | Value.map _, Value.map _ => none
  | _, _ => some false

/-- The library function `strconv.Itoa` on a loop counter. -/
def itoa (n : Nat) : String := Nat.repr n

/-- The library function `strings.Join`. -/
def stringsJoin (parts : List String) (sep : String) : String :=
  sep.intercalate parts

/-! ## Pattern builders -/

/-- The first loop of `nodePattern`: union the buckets, collect the labels. -/
def gatherKeys : GoMap → GoMap → String → Option (GoMap × String)
  | [], attributes, labelString => some (attributes, labelString)
  | (label, attribs) :: rest, attributes, labelString =>
    match attribs with
    | Value.map a => gatherKeys rest (mapsCopy attributes a) (labelString ++ ":" ++ label)
    | _ => none

/-- The second loop of `nodePattern`: one `k: $param` pair and one binding per
attribute. -/
def mergePairs (paramTemplate : String) :
    GoMap → List String → GoMap → Nat → List String × GoMap
  | [], attributePairs, parameters, _ => (attributePairs, parameters)
  | (k, v) :: rest, attributePairs, parameters, cnt =>
    mergePairs paramTemplate rest
      (attributePairs ++ [k ++ ": $" ++ (paramTemplate ++ itoa cnt)])
      (mapSet parameters (paramTemplate ++ itoa cnt) v) (cnt + 1)

/-- The function `nodePattern`. -/
def nodePattern (event : GoMap) (nodeVar : String) : Option (String × GoMap) :=
  match asMap (mapGet event "keys") with
  | none => none
  | some keys =>
    match gatherKeys keys [] "" with
    | none => none
    | some (attributes, labelString) =>
      let paramTemplate := nodeVar ++ "_merge_value_"
      let (attributePairs, parameters) := mergePairs paramTemplate attributes [] [] 0
      let attributeString :=
        if attributePairs.length > 0 then "\x7b" ++ stringsJoin attributePairs ", " ++ "\x7d" else ""
      some ("(" ++ nodeVar ++ labelString ++ " " ++ attributeString ++ ")", parameters)

/-- The loop of `labelPattern`. -/
def labelLoop : List Value → String → Option String
  | [], labelString => some labelString
  | label :: rest, labelString =>
    match label with
    | Value.str l => labelLoop rest (labelString ++ ":" ++ l)
    | _ => none

/-- The function `labelPattern`; its second argument is never read. -/
def labelPattern (state : GoMap) (_varName : String) : Option String :=
  match asList (mapGet state "labels") with
  | none => none
  | some labels => labelLoop labels ""

/-- The loop of `relPattern`. -/
def relLoop (attrTemplate : String) : GoMap → String → GoMap → Nat → String × GoMap
  | [], attrs, params, _ => (attrs, params)
  | (k, v) :: rest, attrs, params, cnt =>
    relLoop attrTemplate rest (attrs ++ (k ++ ": " ++ (attrTemplate ++ itoa cnt)))
      (mapSet params (attrTemplate ++ itoa cnt) v) (cnt + 1)

/-- The function `relPattern`. -/
def relPattern (event : GoMap) (startVar varName endVar : String) :
    Option (String × GoMap) :=
  match asMap (mapGet event "key") with
  | none => none
  | some key =>
    let (attrs, params) := relLoop (varName ++ "_rel_attr_") key "" [] 0
    let attrs := if attrs ≠ "" then "\x7b" ++ attrs ++ "\x7d" else attrs
    match asString (mapGet event "type") with
    | none => none
    | some ty =>
      some ("(" ++ startVar ++ ")-[" ++ varName ++ ":" ++ ty ++ " " ++ attrs ++ "]->("
        ++ endVar ++ ")", params)

/-- The loop of `attribPattern`. -/
def attribLoop (varName paramTemplate : String) (existingProperties : GoMap) :
    GoMap → List String → GoMap → Nat → Option (List String × GoMap)
  | [], attrStrings, attrParams, _ => some (attrStrings, attrParams)
  | (k, newVal) :: rest, attrStrings, attrParams, cnt =>
    let emit := attribLoop varName paramTemplate existingProperties rest
      (attrStrings ++ [varName ++ "." ++ k ++ "=$" ++ (paramTemplate ++ itoa cnt)])
      (mapSet attrParams (paramTemplate ++ itoa cnt) newVal) (cnt + 1)
    match mapGet existingProperties k with
    | none => emit
    | some oldVal =>
      match goEq oldVal newVal with
      | none => none
      | some true =>
        attribLoop varName paramTemplate existingProperties rest attrStrings attrParams cnt
      | some false => emit

/-- The properties of `state["before"]` that `attribPattern` compares against. -/
def existingOf (state : GoMap) : Option GoMap :=
  match mapGet state "before" with
  | some (Value.map v) => asMap (mapGet v "properties")
  | _ => some []

/-- The function `attribPattern`. -/
def attribPattern (state : GoMap) (varName : String) : Option (String × GoMap) :=
  match asMap (mapGet state "after") with
  | none => none
  | some after =>
    match existingOf state with
    | none => none
    | some existingProperties =>
      match asMap (mapGet after "properties") with
      | none => none
      | some props =>
        match attribLoop varName (varName ++ "_value_") existingProperties props [] [] 0 with
        | none => none
        | some (attrStrings, attrParams) => some (stringsJoin attrStrings ", ", attrParams)

/-! ## The `text/template` fragment used by the composers

The templates of `main.go` use three constructs: literal text, the field action
`{{.name}}` and the block `{{with .name}}…{{end}}`.  They are executed against a
`map[string]string` under the default option `missingkey=default`. -/

/-- A lexical item of a template source. -/
inductive Tok where
  | text (s : String)
  | action (cs : List Char)

/-- A node that may stand inside a `with` block. -/
inductive Leaf where
  | text (s : String)
  | field (name : String)

/-- A node of a parsed template. -/
inductive TNode where
  | leaf (l : Leaf)
  | withField (name : String) (body : List Leaf)

/-- What an action between `{{` and `}}` is. -/
inductive ActionKind where
  | field (name : String)
  | withStart (name : String)
  | blockEnd
  | unsupported

/-- Emit the pending literal text, if there is any. -/
def emitText (acc : List Char) (rest : List Tok) : List Tok :=
  if acc.isEmpty then rest else Tok.text (String.mk acc) :: rest

/-- Split a template source at the delimiters `{{` and `}}`; `none` is the parse
error of an unclosed action. -/
def lexTemplate : Bool → List Char → List Char → Option (List Tok)
  | false, [], acc => some (emitText acc [])
  | true, [], _ => none
  | inAction, [c], acc => lexTemplate inAction [] (acc ++ [c])
  | inAction, c :: d :: rest, acc =>
    if !inAction && c = '\x7b' && d = '\x7b' then
      (lexTemplate true rest []).map (emitText acc)
    else if inAction && c = '\x7d' && d = '\x7d' then
      (lexTemplate false rest []).map (fun toks => Tok.action acc :: toks)
    else lexTemplate inAction (d :: rest) (acc ++ [c])

/-- Classify the text of an action. -/
def classify (cs : List Char) : ActionKind :=
  if cs = "end".toList then ActionKind.blockEnd
  else if "with .".toList.isPrefixOf cs then ActionKind.withStart (String.mk (cs.drop 6))
  else if ".".toList.isPrefixOf cs then ActionKind.field (String.mk (cs.drop 1))
  else ActionKind.unsupported

/-- Build the node list; the second argument is the `with` block being read. -/
def buildNodes : List Tok → Option (String × List Leaf) → Option (List TNode)
  | [], none => some []
  | [], some _ => none
  | Tok.text s :: rest, none => (buildNodes rest none).map (fun ns => TNode.leaf (Leaf.text s) :: ns)
  | Tok.text s :: rest, some (n, body) => buildNodes rest (some (n, body ++ [Leaf.text s]))
  | Tok.action cs :: rest, none =>
    match classify cs with
    | ActionKind.field name =>
      (buildNodes rest none).map (fun ns => TNode.leaf (Leaf.field name) :: ns)
    | ActionKind.withStart name => buildNodes rest (some (name, []))
    | _ => none
  | Tok.action cs :: rest, some (n, body) =>
    match classify cs with
    | ActionKind.field name => buildNodes rest (some (n, body ++ [Leaf.field name]))
    | ActionKind.blockEnd =>
      (buildNodes rest none).map (fun ns => TNode.withField n body :: ns)
    | _ => none

/-- The call `template.New(name).Parse(src)`; `none` is a parse error. -/
def parseTemplate (src : String) : Option (List TNode) :=
  match lexTemplate false src.toList [] with
  | none => none
  | some toks => buildNodes toks none

/-- The value of dot during execution: the data map, or a string inside `with`. -/
inductive Dot where
  | data (m : List (String × String))
  | str (s : String)

/-- The index expression on the `map[string]string` given to `Execute`. -/
def strGet : List (String × String) → String → Option String
  | [], _ => none
  | (k, v) :: rest, key => if k = key then some v else strGet rest key

/-- Evaluate `.name` against dot.  On a map a missing key gives the invalid
value (`none`); on a string the field cannot be evaluated, an execution error,
kept here as its message without the position that `Execute` puts before it. -/
def evalField : Dot → String → Except String (Option String)
  | Dot.data m, name => Except.ok (strGet m name)
  | Dot.str _, name => Except.error ("can't evaluate field " ++ name ++ " in type string")

/-- Print the value of an action; the invalid value prints as `<no value>`. -/
def printValue : Option String → String
  | some s => s
  | none => "<no value>"

/-- Execute one leaf node. -/
def execLeaf (dot : Dot) : Leaf → Except String String
  | Leaf.text s => Except.ok s
  | Leaf.field name =>
    match evalField dot name with
    | Except.error e => Except.error e
    | Except.ok v => Except.ok (printValue v)

/-- Execute the body of a `with` block, writing after `out`. -/
def execLeaves (dot : Dot) : List Leaf → String → Except String String
  | [], out => Except.ok out
  | l :: rest, out =>
    match execLeaf dot l with
    | Except.error e => Except.error e
    | Except.ok s => execLeaves dot rest (out ++ s)

/-- Execute a node list against the data map, writing after `out`. -/
def execNodes (m : List (String × String)) : List TNode → String → Except String String
  | [], out => Except.ok out
  | TNode.leaf l :: rest, out =>
    match execLeaf (Dot.data m) l with
    | Except.error e => Except.error e
    | Except.ok s => execNodes m rest (out ++ s)
  | TNode.withField name body :: rest, out =>
    match evalField (Dot.data m) name with
    | Except.error e => Except.error e
    | Except.ok none => execNodes m rest out
    | Except.ok (some s) =>
      if s = "" then execNodes m rest out
      else
        match execLeaves (Dot.str s) body out with
        | Except.error e => Except.error e
        | Except.ok out2 => execNodes m rest out2

/-- The expression `template.Must(template.New(name).Parse(src))` followed by
`t.Execute(&tmp, data)`: `none` is the panic of `Must`, `Except.error` the error of
`Execute`, `Except.ok` the content of the buffer. -/
def executeTemplate (src : String) (data : List (String × String)) :
    Option (Except String String) :=
  match parseTemplate src with
  | none => none
  | some nodes => some (execNodes data nodes "")

/-! ## Query composers -/

/-- The triple `(string, map[string]any, error)` returned by a composer. -/
structure QueryResult where
  cypher : String
  params : GoMap
  err : Option String

/-- The comparison `event[key] == "lit"` of an interface value with a string
constant. -/
def anyEqStr : Option Value → String → Bool
  | some (Value.str s), lit => decide (s = lit)
  | _, _ => false

/-- What a composer returns after `t.Execute`. -/
def afterExecute (params : GoMap) : Except String String → QueryResult
  | Except.error e => ⟨"", [], some e⟩
  | Except.ok text => ⟨text, params, none⟩

/-- The constant `deleteNodeCypher`:
    MATCH {{.pattern}}
    DETACH DELETE {{.varName}}
with a final newline. -/
def deleteNodeCypher : String :=
  "MATCH \x7b\x7b.pattern\x7d\x7d\nDETACH DELETE \x7b\x7b.varName\x7d\x7d\n"

/-- The constant `deleteRelCypher`:
    MATCH {{.start}}
    MATCH {{.end}}
    MATCH {{.rel}}
    DELETE {{.relVar}}
with a final newline. -/
def deleteRelCypher : String :=
  "MATCH \x7b\x7b.start\x7d\x7d\nMATCH \x7b\x7b.end\x7d\x7d\nMATCH \x7b\x7b.rel\x7d\x7d\nDELETE \x7b\x7b.relVar\x7d\x7d\n"

/-- The constant `updateRelCypher`:
    MATCH {{.start}}
    MATCH {{.end}}
    MATCH {{.rel}}
    SET {{.assignmentPattern}}
without a final newline. -/
def updateRelCypher : String :=
  "MATCH \x7b\x7b.start\x7d\x7d\nMATCH \x7b\x7b.end\x7d\x7d\nMATCH \x7b\x7b.rel\x7d\x7d\nSET \x7b\x7b.assignmentPattern\x7d\x7d"

/-- The constant `updateNodeCypher`:
    MATCH {{.matchPattern}}
    SET {{.attributePattern}}
    {{with .labelPattern}}SET {{.labelPattern}}{{end}}
without a final newline. -/
def updateNodeCypher : String :=
  "MATCH \x7b\x7b.matchPattern\x7d\x7d\nSET \x7b\x7b.attributePattern\x7d\x7d\n\x7b\x7bwith .labelPattern\x7d\x7dSET \x7b\x7b.labelPattern\x7d\x7d\x7b\x7bend\x7d\x7d"

/-- The constant `createNodeCypher`, which starts and ends with a newline:
    CREATE {{.nodePattern}}
    SET {{.nVar}}{{.labels}}
    SET {{.attributes}}
-/
def createNodeCypher : String :=
  "\nCREATE \x7b\x7b.nodePattern\x7d\x7d\nSET \x7b\x7b.nVar\x7d\x7d\x7b\x7b.labels\x7d\x7d\nSET \x7b\x7b.attributes\x7d\x7d\n"

/-- The constant `createRelCypher`, which starts and ends with a newline and
whose first `MATCH` line ends in a blank:
    MATCH {{.source}}
    MATCH {{.target}}
    MERGE {{.relPattern}}
    SET {{.attributes}}
-/
def createRelCypher : String :=
  "\nMATCH \x7b\x7b.source\x7d\x7d \nMATCH \x7b\x7b.target\x7d\x7d\nMERGE \x7b\x7b.relPattern\x7d\x7d\nSET \x7b\x7b.attributes\x7d\x7d\n"

/-- The function `buildDeleteQuery`. -/
def buildDeleteQuery (event : GoMap) : Option QueryResult :=
  if anyEqStr (mapGet event "eventType") "r" then do
    let startBlock ← asMap (mapGet event "start")
    let (startCypher, startParams) ← nodePattern startBlock "start"
    let endBlock ← asMap (mapGet event "end")
    let (endCypher, endParams) ← nodePattern endBlock "end"
    let (relCypher, relKeyParams) ← relPattern event "start" "rel" "end"
    let startParams := mapsCopy startParams endParams
    let startParams := mapsCopy startParams relKeyParams
    let written ← executeTemplate deleteRelCypher
      [("start", startCypher), ("end", endCypher), ("rel", relCypher), ("relVar", "rel")]
    pure (afterExecute startParams written)
  else if anyEqStr (mapGet event "eventType") "n" then do
    let (matchCypher, matchParams) ← nodePattern event "n"
    let written ← executeTemplate deleteNodeCypher
      [("pattern", matchCypher), ("varName", "n")]
    pure (afterExecute matchParams written)
  else pure ⟨"", [], none⟩

/-- The function `buildUpdateQuery`. -/
def buildUpdateQuery (event : GoMap) : Option QueryResult :=
  if anyEqStr (mapGet event "eventType") "r" then do
    let startBlock ← asMap (mapGet event "start")
    let (startCypher, startParams) ← nodePattern startBlock "start"
    let endBlock ← asMap (mapGet event "end")
    let (endCypher, endParams) ← nodePattern endBlock "end"
    let (relCypher, relKeyParams) ← relPattern event "start" "rel" "end"
    let state ← asMap (mapGet event "state")
    let (attrs, relParams) ← attribPattern state "rel"
    let startParams := mapsCopy startParams endParams
    let startParams := mapsCopy startParams relKeyParams
    let startParams := mapsCopy startParams relParams
    let written ← executeTemplate updateRelCypher
      [("start", startCypher), ("end", endCypher), ("rel", relCypher),
        ("assignmentPattern", attrs)]
    pure (afterExecute startParams written)
  else if anyEqStr (mapGet event "eventType") "n" then do
    let state ← asMap (mapGet event "state")
    let after ← asMap (mapGet state "after")
    let (matchCypher, matchParams) ← nodePattern event "n"
    let labelString ← labelPattern after "n"
    let (attribString, attribParams) ← attribPattern state "n"
    let matchParams := mapsCopy matchParams attribParams
    let written ← executeTemplate updateNodeCypher
      [("matchPattern", matchCypher), ("assignmentPattern", attribString),
        ("labelPattern", labelString)]
    pure (afterExecute matchParams written)
  else pure ⟨"", [], none⟩

/-- The function `buildCreateQuery`. -/
def buildCreateQuery (event : GoMap) : Option QueryResult :=
  if anyEqStr (mapGet event "eventType") "r" then do
    let startBlock ← asMap (mapGet event "start")
    let (startCypher, startParams) ← nodePattern startBlock "start"
    let endBlock ← asMap (mapGet event "end")
    let (endCypher, endParams) ← nodePattern endBlock "end"
    let (relCypher, relKeyParams) ← relPattern event "start" "rel" "end"
    let state ← asMap (mapGet event "state")
    let (relAttr, relParams) ← attribPattern state "rel"
    let startParams := mapsCopy startParams endParams
    let startParams := mapsCopy startParams relKeyParams
    let startParams := mapsCopy startParams relParams
    let written ← executeTemplate createRelCypher
      [("source", startCypher), ("target", endCypher), ("relPattern", relCypher),
        ("rVar", "rel"), ("attributes", relAttr)]
    pure (afterExecute startParams written)
  else if anyEqStr (mapGet event "eventType") "n" then do
    let state ← asMap (mapGet event "state")
    let after ← asMap (mapGet state "after")
    let (matchCypher, matchParams) ← nodePattern event "n"
    let labelString ← labelPattern after "n"
    let (attribString, attribParams) ← attribPattern state "n"
    let attribParams := mapsCopy attribParams matchParams
    let written ← executeTemplate createNodeCypher
      [("nodePattern", matchCypher), ("nVar", "n"), ("labels", labelString),
        ("attributes", attribString)]
    pure (afterExecute attribParams written)
  else pure ⟨"", [], none⟩

/-! ## Applying a record and the poll cycle

The sink is an abstract state `σ` with a statement runner
`run : σ → Stmt → σ × Option String`, the call `tx.Run` and its error.  A write
transaction whose work function returns an error is rolled back: the sink keeps
the state it had before the transaction.  Retries and commit failures of the
driver are outside the embedding, and so is the error of `json.Marshal`, which
does not arise on a `Value`. -/

/-- A statement handed to `tx.Run`. -/
structure Stmt where
  cypher : String
  params : GoMap

/-- The constant `storeChangeIdentifierCypher`. -/
def storeChangeIdentifierCypher : String :=
  "\nMERGE (c:ChangeIdentifier)\nSET c.value = $identifier\n"

/-- The statement run by `storeChangeIdentifier`. -/
def storeChangeIdentifierStmt (identifier : String) : Stmt :=
  ⟨storeChangeIdentifierCypher, [("identifier", Value.str identifier)]⟩

/-- What `applyChange` leaves behind: the sink state, the statements handed to
`tx.Run` in order, and the returned error. -/
structure ApplyOutcome (σ : Type) where
  sink : σ
  stmts : List Stmt
  err : Option String

/-- The `panic(err)` after a composer call in `applyChange`. -/
def mustBuild : Option QueryResult → Option (String × GoMap)
  | none => none
  | some r =>
    match r.err with
    | some _ => none
    | none => some (r.cypher, r.params)

/-- The `switch event["operation"].(string)` of `applyChange`; the zero values of
`cypher` and `params` stay when no case matches. -/
def composeFor (operation : String) (event : GoMap) : Option (String × GoMap) :=
  if operation = "c" then mustBuild (buildCreateQuery event)
  else if operation = "u" then mustBuild (buildUpdateQuery event)
  else if operation = "d" then mustBuild (buildDeleteQuery event)
  else some ("", [])

/-- The write transaction of `applyChange`: the composed statement, then the
cursor mirror. -/
def executeWrite {σ : Type} (run : σ → Stmt → σ × Option String) (sink : σ)
    (cypher : String) (params : GoMap) (changeId : String) : ApplyOutcome σ :=
  match run sink ⟨cypher, params⟩ with
  | (_, some e) => ⟨sink, [⟨cypher, params⟩], some e⟩
  | (sink1, none) =>
    match run sink1 (storeChangeIdentifierStmt changeId) with
    | (_, some e) => ⟨sink, [⟨cypher, params⟩, storeChangeIdentifierStmt changeId], some e⟩
    | (sink2, none) => ⟨sink2, [⟨cypher, params⟩, storeChangeIdentifierStmt changeId], none⟩

/-- The method `applyChange` on a record given as the map `asMap(record)`. -/
def applyChange {σ : Type} (run : σ → Stmt → σ × Option String) (sink : σ)
    (record : GoMap) : Option (ApplyOutcome σ) :=
  match asMap (mapGet record "event") with
  | none => none
  | some event =>
    match asString (mapGet record "id") with
    | none => some ⟨sink, [], some "No change identifier in change event."⟩
    | some changeId =>
      match asString (mapGet event "operation") with
      | none => none
      | some operation =>
        match composeFor operation event with
        | none => none
        | some (cypher, params) =>
          if cypher ≠ "" then some (executeWrite run sink cypher params changeId)
          else some ⟨sink, [], none⟩

/-- What a poll cycle leaves behind: the sink state, the in-memory cursor, the
records handed to `applyChange` in order, each with the error it returned, and
the error of the cycle. -/
structure CycleOutcome (σ : Type) where
  sink : σ
  cursor : String
  applied : List (GoMap × Option String)
  err : Option String

/-- The record loop of `queryChanges`; `cursor` is the cell behind `s.from()` and
`s.setFrom`. -/
def processRecords {σ : Type} (run : σ → Stmt → σ × Option String) :
    List GoMap → σ → String → List (GoMap × Option String) → Option (CycleOutcome σ)
  | [], sink, cursor, applied => some ⟨sink, cursor, applied, none⟩
  | record :: rest, sink, cursor, applied =>
    match applyChange run sink record with
    | none => none
    | some out =>
      match out.err with
      | some e =>
        some ⟨out.sink, cursor, applied ++ [(record, some e)],
          some ("error processing record: " ++ e)⟩
      | none =>
        match asString (mapGet record "id") with
        | none =>
          some ⟨out.sink, cursor, applied ++ [(record, none)],
            some "missing or invalid id value returned"⟩
        | some id => processRecords run rest out.sink id (applied ++ [(record, none)])

/-- The method `queryChanges`: `query` is the source procedure `cdc.query` at the
configured selectors, as a function of `from`. -/
def queryChanges {σ : Type} (run : σ → Stmt → σ × Option String)
    (query : String → Except String (List GoMap)) (sink : σ) (cursor : String) :
    Option (CycleOutcome σ) :=
  match query cursor with
  | Except.error e => some ⟨sink, cursor, [], some ("unable to query/process changes: " ++ e)⟩
  | Except.ok records =>
    match processRecords run records sink cursor [] with
    | none => none
    | some out =>
      match out.err with
      | none => some out
      | some e => some ⟨out.sink, out.cursor, out.applied,
          some ("unable to query/process changes: " ++ e)⟩

/-- The records for which `applyChange` succeeded, in the words of the claim
about the poll cycle: apply the records in list order, each on the sink left by
the one before.  The result is the sink after the last of them when every
`applyChange` returned a nil error, and `none` as soon as one of them returns an
error or panics. -/
def applyAll {σ : Type} (run : σ → Stmt → σ × Option String) : List GoMap → σ → Option σ
  | [], sink => some sink
  | record :: rest, sink =>
    match applyChange run sink record with
    | none => none
    | some out =>
      match out.err with
      | some _ => none
      | none => applyAll run rest out.sink

/-! ## Well-formed events

The shapes of the data model, as decidable predicates on the dynamic value. -/

/-- The value is a map. -/
def isMapV : Value → Bool
  | Value.map _ => true
  | _ => false

/-- The value is a string. -/
def isStrV : Value → Bool
  | Value.str _ => true
  | _ => false

/-- A keys-bearing block: `keys` is a map from label to a map of key properties. -/
def wfKeys (block : GoMap) : Bool :=
  match mapGet block "keys" with
  | some (Value.map keys) => keys.all (fun p => isMapV p.2)
  | _ => false

/-- One side of a state block carries `labels`, a sequence of strings. -/
def wfLabels (side : GoMap) : Bool :=
  match mapGet side "labels" with
  | some (Value.list labels) => labels.all isStrV
  | _ => false

/-- The new value of a property can be compared with its old value: the two are
not containers of one kind.  Every scalar value is comparable. -/
def comparable (existingProperties : GoMap) (p : String × Value) : Bool :=
  match mapGet existingProperties p.1 with
  | none => true
  | some oldVal => (goEq oldVal p.2).isSome

/-- A state block: `after` is a map carrying a `properties` map; `before` is
absent, null, or a map carrying a `properties` map; and every property of `after`
is comparable with its value in `before`. -/
def wfState (state : GoMap) : Bool :=
  match mapGet state "after", existingOf state with
  | some (Value.map after), some existingProperties =>
    match mapGet after "properties" with
    | some (Value.map props) => props.all (comparable existingProperties)
    | _ => false
  | _, _ => false

/-- A node event with a state block whose `after` side carries labels: the shape
of a node create or update event. -/
def wfNodeChange (event : GoMap) : Bool :=
  anyEqStr (mapGet event "eventType") "n" && wfKeys event &&
  match mapGet event "state" with
  | some (Value.map state) =>
    wfState state &&
    match mapGet state "after" with
    | some (Value.map after) => wfLabels after
    | _ => false
  | _ => false

/-- The endpoints, type and key of a relationship event. -/
def wfRel (event : GoMap) : Bool :=
  (match mapGet event "start" with
    | some (Value.map block) => wfKeys block
    | _ => false) &&
  (match mapGet event "end" with
    | some (Value.map block) => wfKeys block
    | _ => false) &&
  isMapV ((mapGet event "key").getD Value.null) &&
  isStrV ((mapGet event "type").getD Value.null)

/-- A relationship event with a state block: the shape of a relationship create
or update event. -/
def wfRelChange (event : GoMap) : Bool :=
  anyEqStr (mapGet event "eventType") "r" && wfRel event &&
  match mapGet event "state" with
  | some (Value.map state) => wfState state
  | _ => false

/-- The keys bound in a map, in iteration order. -/
def keysOf (m : GoMap) : List String := m.map Prod.fst

/-- The attribute diff of a state block is empty: every property of `after` is
held by `before` with an equal value. -/
def diffEmpty (state : GoMap) : Bool :=
  match mapGet state "after", existingOf state with
  | some (Value.map after), some existingProperties =>
    match mapGet after "properties" with
    | some (Value.map props) =>
      props.all (fun p =>
        match mapGet existingProperties p.1 with
        | none => false
        | some oldVal => goEq oldVal p.2 == some true)
    | _ => false
  | _, _ => false

/-- The lines of a query: the text split at every newline. -/
def splitLines : List Char → List Char → List String
  | [], cur => [String.mk cur]
  | c :: rest, cur =>
    if c = '\n' then String.mk cur :: splitLines rest [] else splitLines rest (cur ++ [c])

/-- The lines of a query. -/
def linesOf (s : String) : List String := splitLines s.toList []

/-! ## The scenarios of the specification -/

/-- The event of scenario S1: create node. -/
def s1Event : GoMap :=
  [("operation", Value.str "c"), ("eventType", Value.str "n"),
   ("keys", Value.map [("Car", Value.map [("id", Value.str "A")])]),
   ("state", Value.map [("after", Value.map
      [("labels", Value.list [Value.str "Car", Value.str "Unique"]),
       ("properties", Value.map [("color", Value.str "red")])])])]

/-- The event of scenario S2: update node, no property change, new label. -/
def s2Event : GoMap :=
  [("operation", Value.str "u"), ("eventType", Value.str "n"),
   ("keys", Value.map [("Car", Value.map [("id", Value.str "A")])]),
   ("state", Value.map
      [("before", Value.map [("properties", Value.map [("color", Value.str "red")])]),
       ("after", Value.map
          [("labels", Value.list [Value.str "Car", Value.str "Classic"]),
           ("properties", Value.map [("color", Value.str "red")])])])]

/-- The event of scenario S3: update relationship properties. -/
def s3Event : GoMap :=
  [("operation", Value.str "u"), ("eventType", Value.str "r"), ("type", Value.str "OWNS"),
   ("key", Value.map [("since", Value.int 2020)]),
   ("start", Value.map [("keys", Value.map [("Car", Value.map [("id", Value.str "A")])])]),
   ("end", Value.map [("keys", Value.map [("Person", Value.map [("id", Value.str "P")])])]),
   ("state", Value.map
      [("before", Value.map [("properties", Value.map [("note", Value.str "x")])]),
       ("after", Value.map [("properties", Value.map [("note", Value.str "y")])])])]

/-- The event of scenario S4: delete node. -/
def s4Event : GoMap :=
  [("operation", Value.str "d"), ("eventType", Value.str "n"),
   ("keys", Value.map [("Car", Value.map [("id", Value.str "A")])])]

/-- A node update that changes `color` and carries no labels on `after`. -/
def recolourEvent : GoMap :=
  [("operation", Value.str "u"), ("eventType", Value.str "n"),
   ("keys", Value.map [("Car", Value.map [("id", Value.str "A")])]),
   ("state", Value.map
      [("before", Value.map [("properties", Value.map [("color", Value.str "red")])]),
       ("after", Value.map
          [("labels", Value.list []),
           ("properties", Value.map [("color", Value.str "blue")])])])]

/-- A relationship update whose `after` properties equal its `before` properties. -/
def relUnchangedEvent : GoMap :=
  [("operation", Value.str "u"), ("eventType", Value.str "r"), ("type", Value.str "OWNS"),
   ("key", Value.map [("since", Value.int 2020)]),
   ("start", Value.map [("keys", Value.map [("Car", Value.map [("id", Value.str "A")])])]),
   ("end", Value.map [("keys", Value.map [("Person", Value.map [("id", Value.str "P")])])]),
   ("state", Value.map
      [("before", Value.map [("properties", Value.map [("note", Value.str "x")])]),
       ("after", Value.map [("properties", Value.map [("note", Value.str "x")])])])]

/-- A relationship create without properties. -/
def relCreateEvent : GoMap :=
  [("operation", Value.str "c"), ("eventType", Value.str "r"), ("type", Value.str "OWNS"),
   ("key", Value.map []),
   ("start", Value.map [("keys", Value.map [("Car", Value.map [("id", Value.str "A")])])]),
   ("end", Value.map [("keys", Value.map [("Person", Value.map [("id", Value.str "P")])])]),
   ("state", Value.map [("after", Value.map [("properties", Value.map [])])])]

/-- A node create without properties. -/
def bareCreateEvent : GoMap :=
  [("operation", Value.str "c"), ("eventType", Value.str "n"),
   ("keys", Value.map [("Car", Value.map [("id", Value.str "A")])]),
   ("state", Value.map [("after", Value.map
      [("labels", Value.list [Value.str "Car"]), ("properties", Value.map [])])])]

/-- An event of a type that is neither a node nor a relationship. -/
def strayTypeEvent : GoMap :=
  [("operation", Value.str "c"), ("eventType", Value.str "x")]

/-- An event of an operation that is none of create, update, delete. -/
def strayOperationEvent : GoMap :=
  [("operation", Value.str "x"), ("eventType", Value.str "n"),
   ("keys", Value.map [("Car", Value.map [("id", Value.str "A")])])]

/-- The record that carries `event` under the change identifier `id`. -/
def recordOf (id : String) (event : GoMap) : GoMap :=
  [("id", Value.str id), ("event", Value.map event)]

/-- A sink on which every statement succeeds; its state counts the statements. -/
def countingSink : Nat → Stmt → Nat × Option String :=
  fun n _ => (n + 1, none)

/-- A sink that refuses every statement. -/
def refusingSink : Nat → Stmt → Nat × Option String :=
  fun n _ => (n, some "refused")


/-- A sink that accepts two statements and refuses every later one; its state
counts the accepted statements. -/
def tiringSink : Nat → Stmt → Nat × Option String :=
  fun n _ => if n < 2 then (n + 1, none) else (n, some "refused")

/-! ## The iteration order as a parameter

Go does not fix the order in which `range` visits a map.  In the definitions
below `order m` is the order in which the runtime visits the map `m`, any
permutation of its entries; with `order = id` they are the definitions above.
The loop inside `maps.Copy` is left in list order: what it builds does not
depend, as a map, on the order in which it reads its source. -/

/-- The function `nodePattern`, visiting `event["keys"]` and `attributes` in the
order given by `order`. -/
def nodePatternWith (order : GoMap → GoMap) (event : GoMap) (nodeVar : String) :
    Option (String × GoMap) :=
  match asMap (mapGet event "keys") with
  | none => none
  | some keys =>
    match gatherKeys (order keys) [] "" with
    | none => none
    | some (attributes, labelString) =>
      let paramTemplate := nodeVar ++ "_merge_value_"
      let (attributePairs, parameters) := mergePairs paramTemplate (order attributes) [] [] 0
      let attributeString :=
        if attributePairs.length > 0 then "\x7b" ++ stringsJoin attributePairs ", " ++ "\x7d" else ""
      some ("(" ++ nodeVar ++ labelString ++ " " ++ attributeString ++ ")", parameters)

/-- The function `relPattern`, visiting `event["key"]` in the order given by
`order`. -/
def relPatternWith (order : GoMap → GoMap) (event : GoMap) (startVar varName endVar : String) :
    Option (String × GoMap) :=
  match asMap (mapGet event "key") with
  | none => none
  | some key =>
    let (attrs, params) := relLoop (varName ++ "_rel_attr_") (order key) "" [] 0
    let attrs := if attrs ≠ "" then "\x7b" ++ attrs ++ "\x7d" else attrs
    match asString (mapGet event "type") with
    | none => none
    | some ty =>
      some ("(" ++ startVar ++ ")-[" ++ varName ++ ":" ++ ty ++ " " ++ attrs ++ "]->("
        ++ endVar ++ ")", params)

/-- The function `attribPattern`, visiting `after["properties"]` in the order
given by `order`. -/
def attribPatternWith (order : GoMap → GoMap) (state : GoMap) (varName : String) :
    Option (String × GoMap) :=
  match asMap (mapGet state "after") with
  | none => none
  | some after =>
    match existingOf state with
    | none => none
    | some existingProperties =>
      match asMap (mapGet after "properties") with
      | none => none
      | some props =>
        match attribLoop varName (varName ++ "_value_") existingProperties (order props)
          [] [] 0 with
        | none => none
        | some (attrStrings, attrParams) => some (stringsJoin attrStrings ", ", attrParams)

/-- The function `buildDeleteQuery` over `nodePatternWith` and `relPatternWith`. -/
def buildDeleteQueryWith (order : GoMap → GoMap) (event : GoMap) : Option QueryResult :=
  if anyEqStr (mapGet event "eventType") "r" then do
    let startBlock ← asMap (mapGet event "start")
    let (startCypher, startParams) ← nodePatternWith order startBlock "start"
    let endBlock ← asMap (mapGet event "end")
    let (endCypher, endParams) ← nodePatternWith order endBlock "end"
    let (relCypher, relKeyParams) ← relPatternWith order event "start" "rel" "end"
    let startParams := mapsCopy startParams endParams
    let startParams := mapsCopy startParams relKeyParams
    let written ← executeTemplate deleteRelCypher
      [("start", startCypher), ("end", endCypher), ("rel", relCypher), ("relVar", "rel")]
    pure (afterExecute startParams written)
  else if anyEqStr (mapGet event "eventType") "n" then do
    let (matchCypher, matchParams) ← nodePatternWith order event "n"
    let written ← executeTemplate deleteNodeCypher
      [("pattern", matchCypher), ("varName", "n")]
    pure (afterExecute matchParams written)
  else pure ⟨"", [], none⟩

/-- The function `buildUpdateQuery` over the pattern builders with an order. -/
def buildUpdateQueryWith (order : GoMap → GoMap) (event : GoMap) : Option QueryResult :=
  if anyEqStr (mapGet event "eventType") "r" then do
    let startBlock ← asMap (mapGet event "start")
    let (startCypher, startParams) ← nodePatternWith order startBlock "start"
    let endBlock ← asMap (mapGet event "end")
    let (endCypher, endParams) ← nodePatternWith order endBlock "end"
    let (relCypher, relKeyParams) ← relPatternWith order event "start" "rel" "end"
    let state ← asMap (mapGet event "state")
    let (attrs, relParams) ← attribPatternWith order state "rel"
    let startParams := mapsCopy startParams endParams
    let startParams := mapsCopy startParams relKeyParams
    let startParams := mapsCopy startParams relParams
    let written ← executeTemplate updateRelCypher
      [("start", startCypher), ("end", endCypher), ("rel", relCypher),
        ("assignmentPattern", attrs)]
    pure (afterExecute startParams written)
  else if anyEqStr (mapGet event "eventType") "n" then do
    let state ← asMap (mapGet event "state")
    let after ← asMap (mapGet state "after")
    let (matchCypher, matchParams) ← nodePatternWith order event "n"
    let labelString ← labelPattern after "n"
    let (attribString, attribParams) ← attribPatternWith order state "n"
    let matchParams := mapsCopy matchParams attribParams
    let written ← executeTemplate updateNodeCypher
      [("matchPattern", matchCypher), ("assignmentPattern", attribString),
        ("labelPattern", labelString)]
    pure (afterExecute matchParams written)
  else pure ⟨"", [], none⟩

/-- The function `buildCreateQuery` over the pattern builders with an order. -/
def buildCreateQueryWith (order : GoMap → GoMap) (event : GoMap) : Option QueryResult :=
  if anyEqStr (mapGet event "eventType") "r" then do
    let startBlock ← asMap (mapGet event "start")
    let (startCypher, startParams) ← nodePatternWith order startBlock "start"
    let endBlock ← asMap (mapGet event "end")
    let (endCypher, endParams) ← nodePatternWith order endBlock "end"
    let (relCypher, relKeyParams) ← relPatternWith order event "start" "rel" "end"
    let state ← asMap (mapGet event "state")
    let (relAttr, relParams) ← attribPatternWith order state "rel"
    let startParams := mapsCopy startParams endParams
    let startParams := mapsCopy startParams relKeyParams
    let startParams := mapsCopy startParams relParams
    let written ← executeTemplate createRelCypher
      [("source", startCypher), ("target", endCypher), ("relPattern", relCypher),
        ("rVar", "rel"), ("attributes", relAttr)]
    pure (afterExecute startParams written)
  else if anyEqStr (mapGet event "eventType") "n" then do
    let state ← asMap (mapGet event "state")
    let after ← asMap (mapGet state "after")
    let (matchCypher, matchParams) ← nodePatternWith order event "n"
    let labelString ← labelPattern after "n"
    let (attribString, attribParams) ← attribPatternWith order state "n"
    let attribParams := mapsCopy attribParams matchParams
    let written ← executeTemplate createNodeCypher
      [("nodePattern", matchCypher), ("nVar", "n"), ("labels", labelString),
        ("attributes", attribString)]
    pure (afterExecute attribParams written)
  else pure ⟨"", [], none⟩

/-! ## What the specification says the builders return -/

/-- The label text `:L1:L2…` of a sequence of labels. -/
def labelText (labels : List String) : String :=
  labels.foldl (fun text label => text ++ ":" ++ label) ""

/-- The bindings `template0 ↦ v0, template1 ↦ v1, …` of the values of a sequence
of entries, numbered from `i`. -/
def bindingsFrom (template : String) : Nat → GoMap → GoMap
  | _, [] => []
  | i, (_, v) :: rest => (template ++ itoa i, v) :: bindingsFrom template (i + 1) rest

/-- The pairs `k: $template0, …` of a node pattern, numbered from `i`. -/
def pairsFrom (template : String) : Nat → GoMap → List String
  | _, [] => []
  | i, (k, _) :: rest => (k ++ ": $" ++ (template ++ itoa i)) :: pairsFrom template (i + 1) rest

/-- The assignments `v.k=$v_value_0, …` of an attribute pattern, numbered from
`i`. -/
def assignmentsFrom (varName : String) : Nat → GoMap → List String
  | _, [] => []
  | i, (k, _) :: rest =>
    (varName ++ "." ++ k ++ "=$" ++ (varName ++ "_value_" ++ itoa i)) ::
      assignmentsFrom varName (i + 1) rest

/-- The value is not a list and not a map. -/
def isScalar : Value → Bool
  | Value.list _ => false
  | Value.map _ => false
  | _ => true

/-- A property of `after` is part of the diff: its key is absent from `before`,
or its value there is not equal to the new one. -/
def changed (existingProperties : GoMap) (p : String × Value) : Bool :=
  match mapGet existingProperties p.1 with
  | none => true
  | some oldVal => goEq oldVal p.2 != some true

/-- The value that the union of the buckets binds to a property name: the one of
the last bucket that holds the name. -/
def lastBinding (key : String) : List (String × Value) → Option Value
  | [] => none
  | (_, bucket) :: rest =>
    match lastBinding key rest with
    | some v => some v
    | none =>
      match bucket with
      | Value.map b => mapGet b key
      | _ => none

/-- Every label bucket is a map with distinct property names. -/
def distinctBuckets (keys : GoMap) : Bool :=
  keys.all (fun p =>
    match p.2 with
    | Value.map b => decide (keysOf b).Nodup
    | _ => false)

/-- The property block of a node pattern: the pairs joined by `, ` in braces, or
nothing when there is no pair. -/
def propertyBlock (pairs : List String) : String :=
  if pairs.length > 0 then "\x7b" ++ stringsJoin pairs ", " ++ "\x7d" else ""

/-- Two listings of one label bucket: the same label, and the same properties
listed in two orders. -/
def sameBucket (p q : String × Value) : Prop :=
  p.1 = q.1 ∧ ∃ b c, p.2 = Value.map b ∧ q.2 = Value.map c ∧ b.Perm c

/-- The label buckets agree on every property name that two of them hold. -/
def bucketsAgree (keys : GoMap) : Prop :=
  ∀ l₁ b₁ l₂ b₂ k v₁ v₂, (l₁, Value.map b₁) ∈ keys → (l₂, Value.map b₂) ∈ keys →
    mapGet b₁ k = some v₁ → mapGet b₂ k = some v₂ → v₁ = v₂

/-! ## Maps with a single iteration order -/

/-- The keys block of `block`, if it has one, holds at most one label bucket, and
that bucket at most one key property. -/
def smallKeys (block : GoMap) : Bool :=
  match asMap (mapGet block "keys") with
  | none => true
  | some keys =>
    decide (keys.length ≤ 1) &&
    keys.all (fun p =>
      match p.2 with
      | Value.map b => decide (b.length ≤ 1)
      | _ => true)

/-- The block under a key of the event, if it is a map, satisfies `smallKeys`. -/
def smallBlock (v : Option Value) : Bool :=
  match asMap v with
  | none => true
  | some block => smallKeys block

/-- The relationship key of `event`, if it has one, holds at most one property. -/
def smallRelKey (event : GoMap) : Bool :=
  match asMap (mapGet event "key") with
  | none => true
  | some key => decide (key.length ≤ 1)

/-- The `after` side of `state`, if it carries properties, carries at most one. -/
def smallState (state : GoMap) : Bool :=
  match asMap (mapGet state "after") with
  | none => true
  | some after =>
    match asMap (mapGet after "properties") with
    | none => true
    | some props => decide (props.length ≤ 1)

/-- Every map of `event` that a composer iterates holds at most one entry: the
label buckets of the keys blocks, the key properties, the relationship key and
`after.properties`. -/
def smallEvent (event : GoMap) : Bool :=
  smallKeys event && smallBlock (mapGet event "start") && smallBlock (mapGet event "end") &&
  smallRelKey event &&
  match asMap (mapGet event "state") with
  | none => true
  | some state => smallState state

/-! ## Bootstrap -/

/-- The function `queryChangeID` on the result of `neo4j.ExecuteQuery`: an error,
or the returned records.  `GetRecordValue[string]` fails on a missing key and on
a value that is not a string; on a null value it returns the empty string with
`isNil` set and a nil error, and `queryChangeID` does not read `isNil`.  The
message of the driver after the prefix is left out. -/
def queryChangeID (result : Except String (List GoMap)) : Except String String :=
  match result with
  | Except.error e => Except.error ("unable to query change identifier: " ++ e)
  | Except.ok records =>
    match records with
    | [record] =>
      match mapGet record "id" with
      | some (Value.str id) => Except.ok id
      | some Value.null => Except.ok ""
      | _ => Except.error "unable to extract id"
    | _ => Except.error ("expected one record, but got " ++ itoa records.length)

/-- What `Start` leaves behind: the cursor cell, the returned error, and whether
the polling goroutine was started. -/
structure StartOutcome where
  cursor : String
  err : Option String
  started : Bool

/-- The method `Start` up to the launch of the goroutine: `current` is what the
source answers to `CALL cdc.current()`, `cursor` the cell set by
`NewCDCService` from the configured start cursor. -/
def Start (current : Except String (List GoMap)) (cursor : String) : StartOutcome :=
  if cursor = "" then
    match queryChangeID current with
    | Except.error e => ⟨cursor, some e, false⟩
    | Except.ok id => ⟨id, none, true⟩
  else ⟨cursor, none, true⟩

/-- The first cycle of the goroutine of `Start`, run when its timer fires: the
call `queryChanges` on the cursor cell; `none` when no goroutine was started. -/
def firstPoll {σ : Type} (run : σ → Stmt → σ × Option String)
    (query : String → Except String (List GoMap)) (sink : σ) (out : StartOutcome) :
    Option (Option (CycleOutcome σ)) :=
  if out.started then some (queryChanges run query sink out.cursor) else none

/-- A record of the S1 create under the id `x1`. -/
def s1Record : GoMap := recordOf "x1" s1Event

/-- A record of the S1 create that carries no `id` field. -/
def idlessRecord : GoMap := [("event", Value.map s1Event)]

/-- A record of the S1 create whose `id` is a number. -/
def numericIdRecord : GoMap := [("id", Value.int 7), ("event", Value.map s1Event)]

/-- The state block of a node update that leaves a list property `tags` as it
was and changes `color`. -/
def listPropertyState : GoMap :=
  [("before", Value.map [("properties", Value.map
      [("tags", Value.list [Value.str "a"]), ("color", Value.str "red")])]),
   ("after", Value.map
      [("labels", Value.list [Value.str "Car"]),
       ("properties", Value.map
          [("tags", Value.list [Value.str "a"]), ("color", Value.str "blue")])])]

/-- A node update whose state block is `listPropertyState`. -/
def listPropertyEvent : GoMap :=
  [("operation", Value.str "u"), ("eventType", Value.str "n"),
   ("keys", Value.map [("Car", Value.map [("id", Value.str "A")])]),
   ("state", Value.map listPropertyState)]

/-- A state block that keeps `color`, changes `doors`, adds `year`, and whose
`before` alone holds `owner`. -/
def mixedDiffState : GoMap :=
  [("before", Value.map [("properties", Value.map
      [("color", Value.str "red"), ("doors", Value.int 3), ("owner", Value.str "P")])]),
   ("after", Value.map [("properties", Value.map
      [("color", Value.str "red"), ("doors", Value.int 5), ("year", Value.int 1999)])])]

/-- A keys block whose two label buckets both hold the property `id`, with
different values, and one of which holds `vin`. -/
def sharedKeyBlock : GoMap :=
  [("keys", Value.map
    [("Car", Value.map [("id", Value.str "A"), ("vin", Value.str "V")]),
     ("Unique", Value.map [("id", Value.str "B")])])]

/-- A keys block whose two label buckets both hold the property `id` with the
same value. -/
def agreeingKeys : GoMap :=
  [("Car", Value.map [("id", Value.str "A"), ("vin", Value.str "V")]),
   ("Unique", Value.map [("id", Value.str "A")])]

/-- The keys block `agreeingKeys` with the properties of `Car` listed in the
other order. -/
def agreeingKeysRelisted : GoMap :=
  [("Car", Value.map [("vin", Value.str "V"), ("id", Value.str "A")]),
   ("Unique", Value.map [("id", Value.str "A")])]

/-- A node delete whose keys block is `sharedKeyBlock`. -/
def sharedKeyDelete : GoMap :=
  [("operation", Value.str "d"), ("eventType", Value.str "n"),
   ("keys", Value.map
    [("Car", Value.map [("id", Value.str "A"), ("vin", Value.str "V")]),
     ("Unique", Value.map [("id", Value.str "B")])])]

/-! ## The templates, executed -/

theorem empty_append (s : String) : "" ++ s = s := by
  apply String.ext
  simp [String.data_append]

theorem exec_createNodeCypher (a b c d : String) :
    executeTemplate createNodeCypher
      [("nodePattern", a), ("nVar", b), ("labels", c), ("attributes", d)] =
    some (Except.ok ("\nCREATE " ++ a ++ "\nSET " ++ b ++ c ++ "\nSET " ++ d ++ "\n")) := by
  have hp : parseTemplate createNodeCypher = some
      [TNode.leaf (Leaf.text "\nCREATE "), TNode.leaf (Leaf.field "nodePattern"),
       TNode.leaf (Leaf.text "\nSET "), TNode.leaf (Leaf.field "nVar"),
       TNode.leaf (Leaf.field "labels"), TNode.leaf (Leaf.text "\nSET "),
       TNode.leaf (Leaf.field "attributes"), TNode.leaf (Leaf.text "\n")] := by rfl
  simp [executeTemplate, hp, execNodes, execLeaf, evalField, strGet, printValue, empty_append]

theorem exec_createRelCypher (a b c d e : String) :
    executeTemplate createRelCypher
      [("source", a), ("target", b), ("relPattern", c), ("rVar", d), ("attributes", e)] =
    some (Except.ok ("\nMATCH " ++ a ++ " \nMATCH " ++ b ++ "\nMERGE " ++ c ++ "\nSET " ++ e
      ++ "\n")) := by
  have hp : parseTemplate createRelCypher = some
      [TNode.leaf (Leaf.text "\nMATCH "), TNode.leaf (Leaf.field "source"),
       TNode.leaf (Leaf.text " \nMATCH "), TNode.leaf (Leaf.field "target"),
       TNode.leaf (Leaf.text "\nMERGE "), TNode.leaf (Leaf.field "relPattern"),
       TNode.leaf (Leaf.text "\nSET "), TNode.leaf (Leaf.field "attributes"),
       TNode.leaf (Leaf.text "\n")] := by rfl
  simp [executeTemplate, hp, execNodes, execLeaf, evalField, strGet, printValue, empty_append]

theorem exec_updateRelCypher (a b c d : String) :
    executeTemplate updateRelCypher
      [("start", a), ("end", b), ("rel", c), ("assignmentPattern", d)] =
    some (Except.ok ("MATCH " ++ a ++ "\nMATCH " ++ b ++ "\nMATCH " ++ c ++ "\nSET " ++ d)) := by
  have hp : parseTemplate updateRelCypher = some
      [TNode.leaf (Leaf.text "MATCH "), TNode.leaf (Leaf.field "start"),
       TNode.leaf (Leaf.text "\nMATCH "), TNode.leaf (Leaf.field "end"),
       TNode.leaf (Leaf.text "\nMATCH "), TNode.leaf (Leaf.field "rel"),
       TNode.leaf (Leaf.text "\nSET "), TNode.leaf (Leaf.field "assignmentPattern")] := by rfl
  simp [executeTemplate, hp, execNodes, execLeaf, evalField, strGet, printValue, empty_append]

theorem exec_updateNodeCypher (a b c : String) :
    executeTemplate updateNodeCypher
      [("matchPattern", a), ("assignmentPattern", b), ("labelPattern", c)] =
    some (if c = "" then Except.ok ("MATCH " ++ a ++ "\nSET <no value>\n")
      else Except.error "can't evaluate field labelPattern in type string") := by
  have hp : parseTemplate updateNodeCypher = some
      [TNode.leaf (Leaf.text "MATCH "), TNode.leaf (Leaf.field "matchPattern"),
       TNode.leaf (Leaf.text "\nSET "), TNode.leaf (Leaf.field "attributePattern"),
       TNode.leaf (Leaf.text "\n"),
       TNode.withField "labelPattern" [Leaf.text "SET ", Leaf.field "labelPattern"]] := by rfl
  by_cases hc : c = ""
  · simp [executeTemplate, hp, execNodes, execLeaf, evalField, strGet, printValue,
      empty_append, hc, String.append_assoc]
  · simp [executeTemplate, hp, execNodes, execLeaf, execLeaves, evalField, strGet, printValue,
      empty_append, hc]

theorem exec_deleteNodeCypher (a b : String) :
    executeTemplate deleteNodeCypher [("pattern", a), ("varName", b)] =
    some (Except.ok ("MATCH " ++ a ++ "\nDETACH DELETE " ++ b ++ "\n")) := by
  have hp : parseTemplate deleteNodeCypher = some
      [TNode.leaf (Leaf.text "MATCH "), TNode.leaf (Leaf.field "pattern"),
       TNode.leaf (Leaf.text "\nDETACH DELETE "), TNode.leaf (Leaf.field "varName"),
       TNode.leaf (Leaf.text "\n")] := by rfl
  simp [executeTemplate, hp, execNodes, execLeaf, evalField, strGet, printValue, empty_append]

theorem exec_deleteRelCypher (a b c d : String) :
    executeTemplate deleteRelCypher
      [("start", a), ("end", b), ("rel", c), ("relVar", d)] =
    some (Except.ok ("MATCH " ++ a ++ "\nMATCH " ++ b ++ "\nMATCH " ++ c ++ "\nDELETE " ++ d
      ++ "\n")) := by
  have hp : parseTemplate deleteRelCypher = some
      [TNode.leaf (Leaf.text "MATCH "), TNode.leaf (Leaf.field "start"),
       TNode.leaf (Leaf.text "\nMATCH "), TNode.leaf (Leaf.field "end"),
       TNode.leaf (Leaf.text "\nMATCH "), TNode.leaf (Leaf.field "rel"),
       TNode.leaf (Leaf.text "\nDELETE "), TNode.leaf (Leaf.field "relVar"),
       TNode.leaf (Leaf.text "\n")] := by rfl
  simp [executeTemplate, hp, execNodes, execLeaf, evalField, strGet, printValue, empty_append]


/-! ## Maps -/

theorem mapGet_mapSet (m : GoMap) (k : String) (v : Value) (key : String) :
    mapGet (mapSet m k v) key = if k = key then some v else mapGet m key := by
  induction m with
  | nil => simp [mapSet, mapGet]
  | cons p rest ih =>
    obtain ⟨k0, v0⟩ := p
    by_cases h : k0 = k
    · subst h
      by_cases h2 : k0 = key <;> simp [mapSet, mapGet, h2]
    · by_cases h2 : k0 = key
      · subst h2
        have h3 : ¬ k = k0 := fun e => h e.symm
        simp [mapSet, mapGet, h, h3]
      · simp [mapSet, mapGet, h, h2, ih]

theorem keysOf_mapSet (m : GoMap) (k : String) (v : Value) :
    keysOf (mapSet m k v) = if k ∈ keysOf m then keysOf m else keysOf m ++ [k] := by
  induction m with
  | nil => simp [mapSet, keysOf]
  | cons p rest ih =>
    obtain ⟨k0, v0⟩ := p
    by_cases h : k0 = k
    · subst h
      simp [mapSet, keysOf]
    · have h3 : ¬ k = k0 := fun e => h e.symm
      simp only [keysOf] at ih
      by_cases h4 : k ∈ List.map Prod.fst rest
      · simp [mapSet, keysOf, h, h3, ih, h4]
      · simp [mapSet, keysOf, h, h3, ih, h4]

theorem nodup_mapSet (m : GoMap) (k : String) (v : Value) (h : (keysOf m).Nodup) :
    (keysOf (mapSet m k v)).Nodup := by
  rw [keysOf_mapSet]
  by_cases hk : k ∈ keysOf m
  · simp [hk, h]
  · simp only [hk, if_false]
    exact List.Nodup.append h (List.nodup_singleton k) (by simpa using hk)

theorem mapGet_none_of_not_mem (m : GoMap) (k : String) (h : k ∉ keysOf m) :
    mapGet m k = none := by
  induction m with
  | nil => rfl
  | cons p rest ih =>
    obtain ⟨k0, v0⟩ := p
    simp only [keysOf, List.map_cons, List.mem_cons, not_or] at h
    have h1 : ¬ k0 = k := fun e => h.1 e.symm
    simp [mapGet, h1]
    exact ih h.2

theorem mapGet_mapsCopy (src : GoMap) (h : (keysOf src).Nodup) (dst : GoMap) (key : String) :
    mapGet (mapsCopy dst src) key = (mapGet src key).orElse (fun _ => mapGet dst key) := by
  induction src generalizing dst with
  | nil => simp [mapsCopy, mapGet]
  | cons p rest ih =>
    obtain ⟨k0, v0⟩ := p
    simp only [keysOf, List.map_cons, List.nodup_cons] at h
    rw [mapsCopy, ih h.2, mapGet_mapSet]
    by_cases h1 : k0 = key
    · subst h1
      have := mapGet_none_of_not_mem rest k0 h.1
      simp [mapGet, this]
    · simp [mapGet, h1]


/-! ## The pattern builders return on well-formed input -/

theorem gatherKeys_total (keys : GoMap) (h : keys.all (fun p => isMapV p.2) = true)
    (attributes : GoMap) (labelString : String) :
    ∃ r, gatherKeys keys attributes labelString = some r := by
  induction keys generalizing attributes labelString with
  | nil => exact ⟨_, rfl⟩
  | cons p rest ih =>
    obtain ⟨label, attribs⟩ := p
    simp only [List.all_cons, Bool.and_eq_true] at h
    obtain ⟨h1, h2⟩ := h
    cases attribs <;> simp [isMapV] at h1
    simp only [gatherKeys]
    exact ih h2 _ _

theorem nodup_mergePairs (paramTemplate : String) (attributes : GoMap)
    (attributePairs : List String) (parameters : GoMap) (cnt : Nat)
    (h : (keysOf parameters).Nodup) :
    (keysOf (mergePairs paramTemplate attributes attributePairs parameters cnt).2).Nodup := by
  induction attributes generalizing attributePairs parameters cnt with
  | nil => simpa [mergePairs] using h
  | cons p rest ih =>
    obtain ⟨k, v⟩ := p
    simp only [mergePairs]
    exact ih _ _ _ (nodup_mapSet _ _ _ h)

theorem nodePattern_total (block : GoMap) (nodeVar : String) (h : wfKeys block = true) :
    ∃ cypher params, nodePattern block nodeVar = some (cypher, params) ∧
      (keysOf params).Nodup := by
  unfold wfKeys at h
  cases hk : mapGet block "keys" with
  | none => simp [hk] at h
  | some v =>
    cases v <;> simp [hk] at h
    rename_i keys
    obtain ⟨⟨attributes, labelString⟩, hg⟩ :=
      gatherKeys_total keys (by simpa using h) [] ""
    have hn := nodup_mergePairs (nodeVar ++ "_merge_value_") attributes [] [] 0
      (by simp [keysOf])
    cases hm : mergePairs (nodeVar ++ "_merge_value_") attributes [] [] 0 with
    | mk pairs params =>
      rw [hm] at hn
      simp only [nodePattern, hk, asMap, hg, hm]
      exact ⟨_, _, rfl, hn⟩

theorem labelLoop_total (labels : List Value) (h : labels.all isStrV = true)
    (labelString : String) : ∃ r, labelLoop labels labelString = some r := by
  induction labels generalizing labelString with
  | nil => exact ⟨_, rfl⟩
  | cons l rest ih =>
    simp only [List.all_cons, Bool.and_eq_true] at h
    obtain ⟨h1, h2⟩ := h
    cases l <;> simp [isStrV] at h1
    simp only [labelLoop]
    exact ih h2 _

theorem labelPattern_total (side : GoMap) (varName : String) (h : wfLabels side = true) :
    ∃ r, labelPattern side varName = some r := by
  unfold wfLabels at h
  cases hk : mapGet side "labels" with
  | none => simp [hk] at h
  | some v =>
    cases v <;> simp [hk] at h
    rename_i labels
    obtain ⟨r, hr⟩ := labelLoop_total labels (by simpa using h) ""
    exact ⟨r, by simp [labelPattern, hk, asList, hr]⟩

theorem nodup_relLoop (attrTemplate : String) (key : GoMap) (attrs : String)
    (params : GoMap) (cnt : Nat) (h : (keysOf params).Nodup) :
    (keysOf (relLoop attrTemplate key attrs params cnt).2).Nodup := by
  induction key generalizing attrs params cnt with
  | nil => simpa [relLoop] using h
  | cons p rest ih =>
    obtain ⟨k, v⟩ := p
    simp only [relLoop]
    exact ih _ _ _ (nodup_mapSet _ _ _ h)

theorem relPattern_total (event : GoMap) (startVar varName endVar : String)
    (hKey : isMapV ((mapGet event "key").getD Value.null) = true)
    (hType : isStrV ((mapGet event "type").getD Value.null) = true) :
    ∃ cypher params, relPattern event startVar varName endVar = some (cypher, params) ∧
      (keysOf params).Nodup := by
  cases hk : mapGet event "key" with
  | none => simp [hk, isMapV] at hKey
  | some kv =>
    cases kv <;> simp [hk, isMapV] at hKey
    rename_i key
    cases ht : mapGet event "type" with
    | none => simp [ht, isStrV] at hType
    | some tv =>
      cases tv <;> simp [ht, isStrV] at hType
      rename_i ty
      have hn := nodup_relLoop (varName ++ "_rel_attr_") key "" [] 0 (by simp [keysOf])
      cases hm : relLoop (varName ++ "_rel_attr_") key "" [] 0 with
      | mk attrs params =>
        rw [hm] at hn
        simp only [relPattern, hk, ht, asMap, asString, hm]
        exact ⟨_, _, rfl, hn⟩

theorem attribLoop_total (varName paramTemplate : String) (existingProperties props : GoMap)
    (h : props.all (comparable existingProperties) = true)
    (attrStrings : List String) (attrParams : GoMap) (cnt : Nat)
    (hn : (keysOf attrParams).Nodup) :
    ∃ strs params, attribLoop varName paramTemplate existingProperties props attrStrings
        attrParams cnt = some (strs, params) ∧ (keysOf params).Nodup := by
  induction props generalizing attrStrings attrParams cnt with
  | nil => exact ⟨_, _, rfl, hn⟩
  | cons p rest ih =>
    obtain ⟨k, newVal⟩ := p
    simp only [List.all_cons, Bool.and_eq_true] at h
    obtain ⟨hc, hrest⟩ := h
    simp only [attribLoop]
    cases hg : mapGet existingProperties k with
    | none => exact ih hrest _ _ _ (nodup_mapSet _ _ _ hn)
    | some oldVal =>
      simp only [comparable, hg] at hc
      cases he : goEq oldVal newVal with
      | none => simp [he] at hc
      | some b =>
        cases b
        · simp only [he]
          exact ih hrest _ _ _ (nodup_mapSet _ _ _ hn)
        · simp only [he]
          exact ih hrest _ _ _ hn

theorem attribPattern_total (state : GoMap) (varName : String) (h : wfState state = true) :
    ∃ attrs params, attribPattern state varName = some (attrs, params) ∧
      (keysOf params).Nodup := by
  unfold wfState at h
  cases ha : mapGet state "after" with
  | none => simp [ha] at h
  | some av =>
    cases av <;> simp [ha] at h
    rename_i after
    cases hex : existingOf state with
    | none => simp [hex] at h
    | some existingProperties =>
      cases hp : mapGet after "properties" with
      | none => simp [hex, hp] at h
      | some pv =>
        cases pv <;> simp [hex, hp] at h
        rename_i props
        obtain ⟨strs, params, hl, hn⟩ := attribLoop_total varName (varName ++ "_value_")
          existingProperties props (by simpa using h) [] [] 0 (by simp [keysOf])
        simp only [attribPattern, ha, asMap, hex, hp, hl]
        exact ⟨_, _, rfl, hn⟩


/-! ## The composers on well-formed events -/

theorem anyEqStr_n_not_r (v : Option Value) (h : anyEqStr v "n" = true) :
    anyEqStr v "r" = false := by
  cases v with
  | none => simp [anyEqStr] at h
  | some x =>
    cases x <;> simp [anyEqStr] at h
    subst h
    simp [anyEqStr]

theorem wfNodeChange_elim (event : GoMap) (h : wfNodeChange event = true) :
    anyEqStr (mapGet event "eventType") "n" = true ∧ wfKeys event = true ∧
    ∃ state after, mapGet event "state" = some (Value.map state) ∧ wfState state = true ∧
      mapGet state "after" = some (Value.map after) ∧ wfLabels after = true := by
  unfold wfNodeChange at h
  simp only [Bool.and_eq_true] at h
  obtain ⟨⟨h1, h2⟩, h3⟩ := h
  refine ⟨h1, h2, ?_⟩
  cases hs : mapGet event "state" with
  | none => simp [hs] at h3
  | some sv =>
    cases sv <;> simp [hs] at h3
    rename_i state
    obtain ⟨h4, h5⟩ := h3
    cases ha : mapGet state "after" with
    | none => simp [ha] at h5
    | some av =>
      cases av <;> simp [ha] at h5
      rename_i after
      exact ⟨state, after, rfl, h4, ha, h5⟩

theorem wfRel_elim (event : GoMap) (h : wfRel event = true) :
    ∃ startBlock endBlock, mapGet event "start" = some (Value.map startBlock) ∧
      wfKeys startBlock = true ∧ mapGet event "end" = some (Value.map endBlock) ∧
      wfKeys endBlock = true ∧ isMapV ((mapGet event "key").getD Value.null) = true ∧
      isStrV ((mapGet event "type").getD Value.null) = true := by
  unfold wfRel at h
  simp only [Bool.and_eq_true] at h
  obtain ⟨⟨⟨h1, h2⟩, h3⟩, h4⟩ := h
  cases hs : mapGet event "start" with
  | none => simp [hs] at h1
  | some sv =>
    cases sv <;> simp [hs] at h1
    rename_i startBlock
    cases he : mapGet event "end" with
    | none => simp [he] at h2
    | some ev =>
      cases ev <;> simp [he] at h2
      rename_i endBlock
      exact ⟨startBlock, endBlock, rfl, h1, rfl, h2, h3, h4⟩

theorem wfRelChange_elim (event : GoMap) (h : wfRelChange event = true) :
    anyEqStr (mapGet event "eventType") "r" = true ∧ wfRel event = true ∧
    ∃ state, mapGet event "state" = some (Value.map state) ∧ wfState state = true := by
  unfold wfRelChange at h
  simp only [Bool.and_eq_true] at h
  obtain ⟨⟨h1, h2⟩, h3⟩ := h
  refine ⟨h1, h2, ?_⟩
  cases hs : mapGet event "state" with
  | none => simp [hs] at h3
  | some sv =>
    cases sv <;> simp [hs] at h3
    exact ⟨_, rfl, h3⟩

theorem buildCreateQuery_node_eq (event : GoMap) (h : wfNodeChange event = true) :
    ∃ state after np mp lp ap app,
      mapGet event "state" = some (Value.map state) ∧
      mapGet state "after" = some (Value.map after) ∧
      nodePattern event "n" = some (np, mp) ∧ (keysOf mp).Nodup ∧
      labelPattern after "n" = some lp ∧
      attribPattern state "n" = some (ap, app) ∧ (keysOf app).Nodup ∧
      buildCreateQuery event = some
        ⟨"\nCREATE " ++ np ++ "\nSET n" ++ lp ++ "\nSET " ++ ap ++ "\n", mapsCopy app mp, none⟩ := by
  obtain ⟨hn, hk, state, after, hs, hws, ha, hl⟩ := wfNodeChange_elim event h
  obtain ⟨np, mp, hnp, hmp⟩ := nodePattern_total event "n" hk
  obtain ⟨lp, hlp⟩ := labelPattern_total after "n" hl
  obtain ⟨ap, app, hap, happ⟩ := attribPattern_total state "n" hws
  refine ⟨state, after, np, mp, lp, ap, app, hs, ha, hnp, hmp, hlp, hap, happ, ?_⟩
  have e : ∀ x : String, "\nSET " ++ ("n" ++ x) = "\nSET n" ++ x := fun x => by
    rw [← String.append_assoc]
    rfl
  simp [buildCreateQuery, hn, anyEqStr_n_not_r _ hn, hs, ha, asMap, hnp, hlp, hap,
    exec_createNodeCypher, afterExecute, String.append_assoc, e]

theorem buildUpdateQuery_node_eq (event : GoMap) (h : wfNodeChange event = true) :
    ∃ state after np mp lp ap app,
      mapGet event "state" = some (Value.map state) ∧
      mapGet state "after" = some (Value.map after) ∧
      nodePattern event "n" = some (np, mp) ∧ (keysOf mp).Nodup ∧
      labelPattern after "n" = some lp ∧
      attribPattern state "n" = some (ap, app) ∧ (keysOf app).Nodup ∧
      buildUpdateQuery event = some
        (if lp = "" then ⟨"MATCH " ++ np ++ "\nSET <no value>\n", mapsCopy mp app, none⟩
         else ⟨"", [], some "can't evaluate field labelPattern in type string"⟩) := by
  obtain ⟨hn, hk, state, after, hs, hws, ha, hl⟩ := wfNodeChange_elim event h
  obtain ⟨np, mp, hnp, hmp⟩ := nodePattern_total event "n" hk
  obtain ⟨lp, hlp⟩ := labelPattern_total after "n" hl
  obtain ⟨ap, app, hap, happ⟩ := attribPattern_total state "n" hws
  refine ⟨state, after, np, mp, lp, ap, app, hs, ha, hnp, hmp, hlp, hap, happ, ?_⟩
  by_cases hc : lp = "" <;>
    simp [buildUpdateQuery, hn, anyEqStr_n_not_r _ hn, hs, ha, asMap, hnp, hlp, hap,
      exec_updateNodeCypher, afterExecute, hc]

theorem buildDeleteQuery_node_eq (event : GoMap)
    (hn : anyEqStr (mapGet event "eventType") "n" = true) (hk : wfKeys event = true) :
    ∃ np mp, nodePattern event "n" = some (np, mp) ∧
      buildDeleteQuery event = some ⟨"MATCH " ++ np ++ "\nDETACH DELETE n\n", mp, none⟩ := by
  obtain ⟨np, mp, hnp, _⟩ := nodePattern_total event "n" hk
  refine ⟨np, mp, hnp, ?_⟩
  simp [buildDeleteQuery, hn, anyEqStr_n_not_r _ hn, hnp, exec_deleteNodeCypher, afterExecute,
    String.append_assoc]

theorem buildUpdateQuery_rel_eq (event : GoMap) (h : wfRelChange event = true) :
    ∃ startBlock endBlock state sc sp ec ep rc rp ac ap,
      mapGet event "start" = some (Value.map startBlock) ∧
      mapGet event "end" = some (Value.map endBlock) ∧
      mapGet event "state" = some (Value.map state) ∧
      nodePattern startBlock "start" = some (sc, sp) ∧
      nodePattern endBlock "end" = some (ec, ep) ∧ (keysOf ep).Nodup ∧
      relPattern event "start" "rel" "end" = some (rc, rp) ∧ (keysOf rp).Nodup ∧
      attribPattern state "rel" = some (ac, ap) ∧ (keysOf ap).Nodup ∧
      buildUpdateQuery event = some
        ⟨"MATCH " ++ sc ++ "\nMATCH " ++ ec ++ "\nMATCH " ++ rc ++ "\nSET " ++ ac,
          mapsCopy (mapsCopy (mapsCopy sp ep) rp) ap, none⟩ := by
  obtain ⟨hr, hw, state, hs, hws⟩ := wfRelChange_elim event h
  obtain ⟨startBlock, endBlock, hsb, hsk, heb, hek, hkey, hty⟩ := wfRel_elim event hw
  obtain ⟨sc, sp, hsp, _⟩ := nodePattern_total startBlock "start" hsk
  obtain ⟨ec, ep, hep, hepn⟩ := nodePattern_total endBlock "end" hek
  obtain ⟨rc, rp, hrp, hrpn⟩ := relPattern_total event "start" "rel" "end" hkey hty
  obtain ⟨ac, ap, hap, hapn⟩ := attribPattern_total state "rel" hws
  refine ⟨startBlock, endBlock, state, sc, sp, ec, ep, rc, rp, ac, ap, hsb, heb, hs, hsp, hep,
    hepn, hrp, hrpn, hap, hapn, ?_⟩
  simp [buildUpdateQuery, hr, hsb, heb, hs, asMap, hsp, hep, hrp, hap, exec_updateRelCypher,
    afterExecute]

theorem buildCreateQuery_rel_eq (event : GoMap) (h : wfRelChange event = true) :
    ∃ startBlock endBlock state sc sp ec ep rc rp ac ap,
      mapGet event "start" = some (Value.map startBlock) ∧
      mapGet event "end" = some (Value.map endBlock) ∧
      mapGet event "state" = some (Value.map state) ∧
      nodePattern startBlock "start" = some (sc, sp) ∧
      nodePattern endBlock "end" = some (ec, ep) ∧ (keysOf ep).Nodup ∧
      relPattern event "start" "rel" "end" = some (rc, rp) ∧ (keysOf rp).Nodup ∧
      attribPattern state "rel" = some (ac, ap) ∧ (keysOf ap).Nodup ∧
      buildCreateQuery event = some
        ⟨"\nMATCH " ++ sc ++ " \nMATCH " ++ ec ++ "\nMERGE " ++ rc ++ "\nSET " ++ ac ++ "\n",
          mapsCopy (mapsCopy (mapsCopy sp ep) rp) ap, none⟩ := by
  obtain ⟨hr, hw, state, hs, hws⟩ := wfRelChange_elim event h
  obtain ⟨startBlock, endBlock, hsb, hsk, heb, hek, hkey, hty⟩ := wfRel_elim event hw
  obtain ⟨sc, sp, hsp, _⟩ := nodePattern_total startBlock "start" hsk
  obtain ⟨ec, ep, hep, hepn⟩ := nodePattern_total endBlock "end" hek
  obtain ⟨rc, rp, hrp, hrpn⟩ := relPattern_total event "start" "rel" "end" hkey hty
  obtain ⟨ac, ap, hap, hapn⟩ := attribPattern_total state "rel" hws
  refine ⟨startBlock, endBlock, state, sc, sp, ec, ep, rc, rp, ac, ap, hsb, heb, hs, hsp, hep,
    hepn, hrp, hrpn, hap, hapn, ?_⟩
  simp [buildCreateQuery, hr, hsb, heb, hs, asMap, hsp, hep, hrp, hap, exec_createRelCypher,
    afterExecute]


/-! ## Empty diffs, non-empty queries, and the write transaction -/

theorem attribLoop_unchanged (varName paramTemplate : String) (existingProperties props : GoMap)
    (h : props.all (fun p =>
        match mapGet existingProperties p.1 with
        | none => false
        | some oldVal => goEq oldVal p.2 == some true) = true)
    (attrStrings : List String) (attrParams : GoMap) (cnt : Nat) :
    attribLoop varName paramTemplate existingProperties props attrStrings attrParams cnt =
      some (attrStrings, attrParams) := by
  induction props with
  | nil => rfl
  | cons p rest ih =>
    obtain ⟨k, newVal⟩ := p
    simp only [List.all_cons, Bool.and_eq_true] at h
    obtain ⟨h1, h2⟩ := h
    cases hg : mapGet existingProperties k with
    | none => simp [hg] at h1
    | some oldVal =>
      simp only [hg, beq_iff_eq] at h1
      simp only [attribLoop, hg, h1]
      exact ih h2

theorem attribPattern_diffEmpty (state : GoMap) (varName : String)
    (h : diffEmpty state = true) : attribPattern state varName = some ("", []) := by
  unfold diffEmpty at h
  cases ha : mapGet state "after" with
  | none => simp [ha] at h
  | some av =>
    cases av <;> simp [ha] at h
    rename_i after
    cases hex : existingOf state with
    | none => simp [hex] at h
    | some existingProperties =>
      cases hp : mapGet after "properties" with
      | none => simp [hex, hp] at h
      | some pv =>
        cases pv <;> simp [hex, hp] at h
        rename_i props
        have hl := attribLoop_unchanged varName (varName ++ "_value_") existingProperties props
          (by simpa using h) [] [] 0
        simp only [attribPattern, ha, asMap, hex, hp, hl]
        rfl

theorem match_ne_empty (x : String) : "MATCH " ++ x ≠ "" := by
  intro h
  have h2 := congrArg String.length h
  simp only [String.length_append] at h2
  have h3 : "MATCH ".length = 6 := by decide
  have h4 : "".length = 0 := by decide
  omega

theorem executeWrite_head {σ : Type} (run : σ → Stmt → σ × Option String) (sink : σ)
    (cypher : String) (params : GoMap) (changeId : String) :
    (executeWrite run sink cypher params changeId).stmts.head? = some ⟨cypher, params⟩ := by
  unfold executeWrite
  rcases h1 : run sink ⟨cypher, params⟩ with ⟨sink1, e1⟩
  cases e1 with
  | some e => rfl
  | none =>
    rcases h2 : run sink1 (storeChangeIdentifierStmt changeId) with ⟨sink2, e2⟩
    cases e2 <;> simp [h2]

theorem applyChange_of_compose {σ : Type} (run : σ → Stmt → σ × Option String) (sink : σ)
    (record event : GoMap) (id operation cypher : String) (params : GoMap)
    (he : mapGet record "event" = some (Value.map event))
    (hi : mapGet record "id" = some (Value.str id))
    (ho : mapGet event "operation" = some (Value.str operation))
    (hc : composeFor operation event = some (cypher, params)) :
    applyChange run sink record =
      some (if cypher ≠ "" then executeWrite run sink cypher params id else ⟨sink, [], none⟩) := by
  by_cases hq : cypher = "" <;> simp [applyChange, he, hi, ho, hc, asMap, asString, hq]


/-! ## Claims -/

/-- C1: on every well-formed node create event `buildCreateQuery` returns a nil
error, the query made of the three lines `CREATE ` + node pattern, `SET n` + label
pattern of `state.after` and `SET ` + attribute pattern (after the newline the
template starts with, each line closed by a newline), and the attribute-diff map
with the node-pattern map copied into it, which binds every name of either map.
On the event of scenario S1 the query and the bindings are the expected ones. -/
theorem buildCreateQuery_node_create :
    (∀ event : GoMap, wfNodeChange event = true →
      ∃ state after np mp lp ap app,
        mapGet event "state" = some (Value.map state) ∧
        mapGet state "after" = some (Value.map after) ∧
        nodePattern event "n" = some (np, mp) ∧
        labelPattern after "n" = some lp ∧
        attribPattern state "n" = some (ap, app) ∧
        buildCreateQuery event = some
          ⟨"\nCREATE " ++ np ++ "\nSET n" ++ lp ++ "\nSET " ++ ap ++ "\n", mapsCopy app mp, none⟩ ∧
        ∀ key, mapGet (mapsCopy app mp) key =
          (mapGet mp key).orElse (fun _ => mapGet app key)) ∧
    buildCreateQuery s1Event = some
      ⟨"\nCREATE (n:Car \x7bid: $n_merge_value_0\x7d)\nSET n:Car:Unique\nSET n.color=$n_value_0\n",
        [("n_value_0", Value.str "red"), ("n_merge_value_0", Value.str "A")], none⟩ ∧
    linesOf "\nCREATE (n:Car \x7bid: $n_merge_value_0\x7d)\nSET n:Car:Unique\nSET n.color=$n_value_0\n" =
      ["", "CREATE (n:Car \x7bid: $n_merge_value_0\x7d)", "SET n:Car:Unique",
        "SET n.color=$n_value_0", ""] := by
  refine ⟨?_, by rfl, by decide⟩
  intro event h
  obtain ⟨state, after, np, mp, lp, ap, app, hs, ha, hnp, hmp, hlp, hap, _, hq⟩ :=
    buildCreateQuery_node_eq event h
  exact ⟨state, after, np, mp, lp, ap, app, hs, ha, hnp, hlp, hap, hq,
    fun key => mapGet_mapsCopy mp hmp app key⟩

/-- The event of scenario S1 is a well-formed node create event, and the first part
of C1 holds of it. -/
theorem buildCreateQuery_node_create_witness :
    wfNodeChange s1Event = true ∧
    ∃ state after np mp lp ap app,
      mapGet s1Event "state" = some (Value.map state) ∧
      mapGet state "after" = some (Value.map after) ∧
      nodePattern s1Event "n" = some (np, mp) ∧
      labelPattern after "n" = some lp ∧
      attribPattern state "n" = some (ap, app) ∧
      buildCreateQuery s1Event = some
        ⟨"\nCREATE " ++ np ++ "\nSET n" ++ lp ++ "\nSET " ++ ap ++ "\n", mapsCopy app mp, none⟩ ∧
      ∀ key, mapGet (mapsCopy app mp) key =
        (mapGet mp key).orElse (fun _ => mapGet app key) :=
  ⟨by decide, buildCreateQuery_node_create.1 s1Event (by decide)⟩

/-- C2: on the event of scenario S2, an update with unchanged properties and the
labels `Car`, `Classic` on `after`, `buildUpdateQuery` returns the empty query, a
nil parameter map and the execution error of the template: inside
`with .labelPattern` the dot is the label string, on which the field
`.labelPattern` cannot be evaluated.  The three fragments themselves are built. -/
theorem buildUpdateQuery_s2_fails :
    nodePattern s2Event "n" =
      some ("(n:Car \x7bid: $n_merge_value_0\x7d)", [("n_merge_value_0", Value.str "A")]) ∧
    attribPattern
      [("before", Value.map [("properties", Value.map [("color", Value.str "red")])]),
       ("after", Value.map
          [("labels", Value.list [Value.str "Car", Value.str "Classic"]),
           ("properties", Value.map [("color", Value.str "red")])])] "n" = some ("", []) ∧
    labelPattern
      [("labels", Value.list [Value.str "Car", Value.str "Classic"]),
       ("properties", Value.map [("color", Value.str "red")])] "n" = some ":Car:Classic" ∧
    buildUpdateQuery s2Event =
      some ⟨"", [], some "can't evaluate field labelPattern in type string"⟩ := by
  exact ⟨by rfl, by rfl, by rfl, by rfl⟩

/-- C3: on every well-formed node update event the query of `buildUpdateQuery`
never carries the assignment list of `attribPattern`: when the label pattern of
`after` is empty the query is the `MATCH` line followed by `SET <no value>`, and
otherwise the call returns the execution error of C2.  The template reads the
field `attributePattern`, the data map holds the assignment list under
`assignmentPattern`.  On a node update that changes `color` and carries no label
on `after`, `attribPattern` returns `n.color=$n_value_0` and binds `n_value_0`,
which the returned query does not reference. -/
theorem buildUpdateQuery_node_no_value :
    (∀ event : GoMap, wfNodeChange event = true →
      ∃ state after np mp lp ap app,
        mapGet event "state" = some (Value.map state) ∧
        mapGet state "after" = some (Value.map after) ∧
        nodePattern event "n" = some (np, mp) ∧
        labelPattern after "n" = some lp ∧
        attribPattern state "n" = some (ap, app) ∧
        buildUpdateQuery event = some
          (if lp = "" then ⟨"MATCH " ++ np ++ "\nSET <no value>\n", mapsCopy mp app, none⟩
           else ⟨"", [], some "can't evaluate field labelPattern in type string"⟩)) ∧
    attribPattern
      [("before", Value.map [("properties", Value.map [("color", Value.str "red")])]),
       ("after", Value.map
          [("labels", Value.list []),
           ("properties", Value.map [("color", Value.str "blue")])])] "n" =
      some ("n.color=$n_value_0", [("n_value_0", Value.str "blue")]) ∧
    buildUpdateQuery recolourEvent = some
      ⟨"MATCH (n:Car \x7bid: $n_merge_value_0\x7d)\nSET <no value>\n",
        [("n_merge_value_0", Value.str "A"), ("n_value_0", Value.str "blue")], none⟩ ∧
    linesOf "MATCH (n:Car \x7bid: $n_merge_value_0\x7d)\nSET <no value>\n" =
      ["MATCH (n:Car \x7bid: $n_merge_value_0\x7d)", "SET <no value>", ""] := by
  refine ⟨?_, by rfl, by rfl, by decide⟩
  intro event h
  obtain ⟨state, after, np, mp, lp, ap, app, hs, ha, hnp, _, hlp, hap, _, hq⟩ :=
    buildUpdateQuery_node_eq event h
  exact ⟨state, after, np, mp, lp, ap, app, hs, ha, hnp, hlp, hap, hq⟩

/-- The recolouring update is a well-formed node update event, and the first part
of C3 holds of it. -/
theorem buildUpdateQuery_node_no_value_witness :
    wfNodeChange recolourEvent = true ∧
    ∃ state after np mp lp ap app,
      mapGet recolourEvent "state" = some (Value.map state) ∧
      mapGet state "after" = some (Value.map after) ∧
      nodePattern recolourEvent "n" = some (np, mp) ∧
      labelPattern after "n" = some lp ∧
      attribPattern state "n" = some (ap, app) ∧
      buildUpdateQuery recolourEvent = some
        (if lp = "" then ⟨"MATCH " ++ np ++ "\nSET <no value>\n", mapsCopy mp app, none⟩
         else ⟨"", [], some "can't evaluate field labelPattern in type string"⟩) :=
  ⟨by decide, buildUpdateQuery_node_no_value.1 recolourEvent (by decide)⟩

/-- C4, the claim as stated fails: on a relationship update whose `after`
properties equal its `before` properties the attribute diff is empty, yet
`buildUpdateQuery` returns a nil error with a query of four lines, the last
being `SET ` with nothing after it, and `applyChange` runs the write transaction
with that statement and the cursor mirror. -/
theorem buildUpdateQuery_rel_unchanged_not_noop :
    diffEmpty
      [("before", Value.map [("properties", Value.map [("note", Value.str "x")])]),
       ("after", Value.map [("properties", Value.map [("note", Value.str "x")])])] = true ∧
    buildUpdateQuery relUnchangedEvent = some
      ⟨"MATCH (start:Car \x7bid: $start_merge_value_0\x7d)\nMATCH (end:Person \x7bid: $end_merge_value_0\x7d)\nMATCH (start)-[rel:OWNS \x7bsince: rel_rel_attr_0\x7d]->(end)\nSET ",
        [("start_merge_value_0", Value.str "A"), ("end_merge_value_0", Value.str "P"),
          ("rel_rel_attr_0", Value.int 2020)], none⟩ ∧
    (applyChange countingSink 0 (recordOf "x5" relUnchangedEvent)).map
        (fun out => (out.sink, out.stmts.map (fun s => s.cypher), out.err)) =
      some (2,
        ["MATCH (start:Car \x7bid: $start_merge_value_0\x7d)\nMATCH (end:Person \x7bid: $end_merge_value_0\x7d)\nMATCH (start)-[rel:OWNS \x7bsince: rel_rel_attr_0\x7d]->(end)\nSET ",
          "\nMERGE (c:ChangeIdentifier)\nSET c.value = $identifier\n"], none) := by
  exact ⟨by decide, by rfl, by rfl⟩

/-- C4, amended: on every well-formed relationship update event whose attribute
diff is empty, `attribPattern` returns the empty assignment list and
`buildUpdateQuery` returns a nil error with the three `MATCH` lines followed by
`SET ` and nothing after it, a query that is not empty; `applyChange` on a record
with a string id that carries the event runs the write transaction, whose first
statement is that query. -/
theorem buildUpdateQuery_rel_unchanged :
    ∀ event state : GoMap, wfRelChange event = true →
      mapGet event "state" = some (Value.map state) → diffEmpty state = true →
      ∃ startBlock endBlock sc sp ec ep rc rp,
        mapGet event "start" = some (Value.map startBlock) ∧
        mapGet event "end" = some (Value.map endBlock) ∧
        nodePattern startBlock "start" = some (sc, sp) ∧
        nodePattern endBlock "end" = some (ec, ep) ∧
        relPattern event "start" "rel" "end" = some (rc, rp) ∧
        attribPattern state "rel" = some ("", []) ∧
        buildUpdateQuery event = some
          ⟨"MATCH " ++ sc ++ "\nMATCH " ++ ec ++ "\nMATCH " ++ rc ++ "\nSET ",
            mapsCopy (mapsCopy sp ep) rp, none⟩ ∧
        "MATCH " ++ sc ++ "\nMATCH " ++ ec ++ "\nMATCH " ++ rc ++ "\nSET " ≠ "" ∧
        ∀ (σ : Type) (run : σ → Stmt → σ × Option String) (sink : σ) (record : GoMap)
          (id : String),
          mapGet record "event" = some (Value.map event) →
          mapGet record "id" = some (Value.str id) →
          mapGet event "operation" = some (Value.str "u") →
          applyChange run sink record = some (executeWrite run sink
            ("MATCH " ++ sc ++ "\nMATCH " ++ ec ++ "\nMATCH " ++ rc ++ "\nSET ")
            (mapsCopy (mapsCopy sp ep) rp) id) ∧
          (executeWrite run sink
            ("MATCH " ++ sc ++ "\nMATCH " ++ ec ++ "\nMATCH " ++ rc ++ "\nSET ")
            (mapsCopy (mapsCopy sp ep) rp) id).stmts.head? = some
              ⟨"MATCH " ++ sc ++ "\nMATCH " ++ ec ++ "\nMATCH " ++ rc ++ "\nSET ",
                mapsCopy (mapsCopy sp ep) rp⟩ := by
  intro event state h hs hd
  obtain ⟨startBlock, endBlock, state2, sc, sp, ec, ep, rc, rp, ac, ap, hsb, heb, hs2, hsp,
    hep, _, hrp, _, hap, _, hq⟩ := buildUpdateQuery_rel_eq event h
  have hst : state2 = state := by
    rw [hs] at hs2
    injection hs2 with h1
    injection h1 with h2
    exact h2.symm
  subst hst
  have hz := attribPattern_diffEmpty state2 "rel" hd
  rw [hz] at hap
  injection hap with h1
  injection h1 with hac hap2
  subst hac
  subst hap2
  have hq2 : buildUpdateQuery event = some
      ⟨"MATCH " ++ sc ++ "\nMATCH " ++ ec ++ "\nMATCH " ++ rc ++ "\nSET ",
        mapsCopy (mapsCopy sp ep) rp, none⟩ := by
    rw [hq]
    simp [mapsCopy, String.append_assoc]
  have hne : "MATCH " ++ sc ++ "\nMATCH " ++ ec ++ "\nMATCH " ++ rc ++ "\nSET " ≠ "" := by
    simp only [String.append_assoc]
    exact match_ne_empty _
  refine ⟨startBlock, endBlock, sc, sp, ec, ep, rc, rp, hsb, heb, hsp, hep, hrp, hz, hq2, hne, ?_⟩
  intro σ run sink record id he hi ho
  have hc : composeFor "u" event = some
      ("MATCH " ++ sc ++ "\nMATCH " ++ ec ++ "\nMATCH " ++ rc ++ "\nSET ",
        mapsCopy (mapsCopy sp ep) rp) := by
    simp [composeFor, hq2, mustBuild]
  refine ⟨?_, executeWrite_head _ _ _ _ _⟩
  rw [applyChange_of_compose run sink record event id "u" _ _ he hi ho hc]
  simp [hne]

/-- The relationship update with unchanged properties is a well-formed
relationship update event with an empty diff, and the amended C4 holds of it. -/
theorem buildUpdateQuery_rel_unchanged_witness :
    wfRelChange relUnchangedEvent = true ∧
    ∃ state, mapGet relUnchangedEvent "state" = some (Value.map state) ∧
      diffEmpty state = true ∧
      ∃ sc ec rc params,
        buildUpdateQuery relUnchangedEvent = some
          ⟨"MATCH " ++ sc ++ "\nMATCH " ++ ec ++ "\nMATCH " ++ rc ++ "\nSET ", params, none⟩ := by
  refine ⟨by decide, _, rfl, by decide, ?_⟩
  obtain ⟨_, _, sc, sp, ec, ep, rc, rp, _, _, _, _, _, _, hq, _⟩ :=
    buildUpdateQuery_rel_unchanged relUnchangedEvent _ (by decide) rfl (by decide)
  exact ⟨sc, ec, rc, _, hq⟩


/-- C5, the claim as stated fails: on an event of type `x` each of the three
composers returns the empty query with a nil error, and on a record whose
operation is `x` `applyChange` returns a nil error without touching the sink. -/
theorem stray_event_no_error :
    buildCreateQuery strayTypeEvent = some ⟨"", [], none⟩ ∧
    buildUpdateQuery strayTypeEvent = some ⟨"", [], none⟩ ∧
    buildDeleteQuery strayTypeEvent = some ⟨"", [], none⟩ ∧
    applyChange countingSink 0 (recordOf "x9" strayOperationEvent) = some ⟨0, [], none⟩ ∧
    applyChange countingSink 0 (recordOf "x8" strayTypeEvent) = some ⟨0, [], none⟩ := by
  exact ⟨by rfl, by rfl, by rfl, by rfl, by rfl⟩

/-- C5, amended: on every event whose `eventType` is neither `n` nor `r` each of
`buildCreateQuery`, `buildUpdateQuery` and `buildDeleteQuery` returns the empty
query, a nil parameter map and a nil error; and on every record with a string id
whose event carries a string operation, `applyChange` returns a nil error and
runs no sink statement when the operation is none of `c`, `u`, `d`, and also
when the `eventType` is neither `n` nor `r`. -/
theorem stray_event_is_skipped :
    (∀ event : GoMap, anyEqStr (mapGet event "eventType") "n" = false →
      anyEqStr (mapGet event "eventType") "r" = false →
      buildCreateQuery event = some ⟨"", [], none⟩ ∧
      buildUpdateQuery event = some ⟨"", [], none⟩ ∧
      buildDeleteQuery event = some ⟨"", [], none⟩) ∧
    (∀ (σ : Type) (run : σ → Stmt → σ × Option String) (sink : σ) (record event : GoMap)
      (id operation : String),
      mapGet record "event" = some (Value.map event) →
      mapGet record "id" = some (Value.str id) →
      mapGet event "operation" = some (Value.str operation) →
      (operation ≠ "c" ∧ operation ≠ "u" ∧ operation ≠ "d") ∨
        (anyEqStr (mapGet event "eventType") "n" = false ∧
          anyEqStr (mapGet event "eventType") "r" = false) →
      applyChange run sink record = some ⟨sink, [], none⟩) := by
  have hb : ∀ event : GoMap, anyEqStr (mapGet event "eventType") "n" = false →
      anyEqStr (mapGet event "eventType") "r" = false →
      buildCreateQuery event = some ⟨"", [], none⟩ ∧
      buildUpdateQuery event = some ⟨"", [], none⟩ ∧
      buildDeleteQuery event = some ⟨"", [], none⟩ := by
    intro event hn hr
    refine ⟨?_, ?_, ?_⟩
    · simp [buildCreateQuery, hn, hr]
    · simp [buildUpdateQuery, hn, hr]
    · simp [buildDeleteQuery, hn, hr]
  refine ⟨hb, ?_⟩
  intro σ run sink record event id operation he hi ho hcase
  have hc : composeFor operation event = some ("", []) := by
    rcases hcase with ⟨h1, h2, h3⟩ | ⟨hn, hr⟩
    · simp [composeFor, h1, h2, h3]
    · obtain ⟨h1, h2, h3⟩ := hb event hn hr
      unfold composeFor
      split
      · simp [h1, mustBuild]
      · split
        · simp [h2, mustBuild]
        · split
          · simp [h3, mustBuild]
          · rfl
  rw [applyChange_of_compose run sink record event id operation "" [] he hi ho hc]
  simp

/-- The amended C5 at the events of type `x` and of operation `x`. -/
theorem stray_event_is_skipped_witness :
    (anyEqStr (mapGet strayTypeEvent "eventType") "n" = false ∧
      anyEqStr (mapGet strayTypeEvent "eventType") "r" = false ∧
      buildCreateQuery strayTypeEvent = some ⟨"", [], none⟩ ∧
      buildUpdateQuery strayTypeEvent = some ⟨"", [], none⟩ ∧
      buildDeleteQuery strayTypeEvent = some ⟨"", [], none⟩) ∧
    applyChange refusingSink 7 (recordOf "x9" strayOperationEvent) = some ⟨7, [], none⟩ :=
  ⟨⟨by decide, by decide, stray_event_is_skipped.1 strayTypeEvent (by decide) (by decide)⟩,
    stray_event_is_skipped.2 Nat refusingSink 7 (recordOf "x9" strayOperationEvent)
      strayOperationEvent "x9" "x" rfl rfl rfl
      (Or.inl ⟨by decide, by decide, by decide⟩)⟩

set_option maxRecDepth 100000 in
/-- C6, the claim as stated fails: the query that `buildCreateQuery` returns on
the node create event of scenario S1 writes the node with a `CREATE` line, and
the text `MERGE` does not occur in it. -/
theorem buildCreateQuery_s1_uses_create :
    (buildCreateQuery s1Event).map (fun r => linesOf r.cypher) = some
      ["", "CREATE (n:Car \x7bid: $n_merge_value_0\x7d)", "SET n:Car:Unique",
        "SET n.color=$n_value_0", ""] ∧
    ¬ ("MERGE".toList <:+:
      "\nCREATE (n:Car \x7bid: $n_merge_value_0\x7d)\nSET n:Car:Unique\nSET n.color=$n_value_0\n".toList) := by
  exact ⟨by rfl, by decide⟩

/-- C6, amended: on every well-formed node create event the query of
`buildCreateQuery` writes the node with the clause `CREATE ` + node pattern,
followed by the two `SET` lines; on every well-formed relationship create event
it matches the two endpoints with `MATCH` and writes the relationship pattern
with the clause `MERGE `, followed by the `SET` line. -/
theorem buildCreateQuery_clauses :
    (∀ event : GoMap, wfNodeChange event = true →
      ∃ np mp tail, nodePattern event "n" = some (np, mp) ∧
        (buildCreateQuery event).map (fun r => r.cypher) =
          some ("\nCREATE " ++ np ++ "\nSET n" ++ tail)) ∧
    (∀ event : GoMap, wfRelChange event = true →
      ∃ startBlock endBlock sc sp ec ep rc rp tail,
        mapGet event "start" = some (Value.map startBlock) ∧
        mapGet event "end" = some (Value.map endBlock) ∧
        nodePattern startBlock "start" = some (sc, sp) ∧
        nodePattern endBlock "end" = some (ec, ep) ∧
        relPattern event "start" "rel" "end" = some (rc, rp) ∧
        (buildCreateQuery event).map (fun r => r.cypher) =
          some ("\nMATCH " ++ sc ++ " \nMATCH " ++ ec ++ "\nMERGE " ++ rc ++ "\nSET " ++ tail)) := by
  constructor
  · intro event h
    obtain ⟨state, after, np, mp, lp, ap, app, _, _, hnp, _, _, _, _, hq⟩ :=
      buildCreateQuery_node_eq event h
    refine ⟨np, mp, lp ++ "\nSET " ++ ap ++ "\n", hnp, ?_⟩
    simp [hq, String.append_assoc]
  · intro event h
    obtain ⟨startBlock, endBlock, state, sc, sp, ec, ep, rc, rp, ac, ap, hsb, heb, _, hsp,
      hep, _, hrp, _, _, _, hq⟩ := buildCreateQuery_rel_eq event h
    refine ⟨startBlock, endBlock, sc, sp, ec, ep, rc, rp, ac ++ "\n", hsb, heb, hsp, hep, hrp, ?_⟩
    simp [hq, String.append_assoc]

/-- The amended C6 at the node create of scenario S1 and at a relationship create. -/
theorem buildCreateQuery_clauses_witness :
    (wfNodeChange s1Event = true ∧
      ∃ np mp tail, nodePattern s1Event "n" = some (np, mp) ∧
        (buildCreateQuery s1Event).map (fun r => r.cypher) =
          some ("\nCREATE " ++ np ++ "\nSET n" ++ tail)) ∧
    (wfRelChange relCreateEvent = true ∧
      ∃ sc ec rc tail,
        (buildCreateQuery relCreateEvent).map (fun r => r.cypher) =
          some ("\nMATCH " ++ sc ++ " \nMATCH " ++ ec ++ "\nMERGE " ++ rc ++ "\nSET " ++ tail)) := by
  refine ⟨⟨by decide, buildCreateQuery_clauses.1 s1Event (by decide)⟩, by decide, ?_⟩
  obtain ⟨_, _, sc, _, ec, _, rc, _, tail, _, _, _, _, _, hq⟩ :=
    buildCreateQuery_clauses.2 relCreateEvent (by decide)
  exact ⟨sc, ec, rc, tail, hq⟩

/-! ## The poll cycle -/

theorem applyChange_ok_id {σ : Type} (run : σ → Stmt → σ × Option String) (sink : σ)
    (record : GoMap) (out : ApplyOutcome σ) (h : applyChange run sink record = some out)
    (he : out.err = none) : ∃ id, mapGet record "id" = some (Value.str id) := by
  unfold applyChange at h
  cases hev : asMap (mapGet record "event") with
  | none => simp [hev] at h
  | some event =>
    cases hid : mapGet record "id" with
    | none =>
      simp [hev, hid, asString] at h
      rw [← h] at he
      simp at he
    | some v =>
      cases v with
      | str id => exact ⟨id, rfl⟩
      | _ =>
        simp [hev, hid, asString] at h
        rw [← h] at he
        simp at he

theorem processRecords_spec {σ : Type} (run : σ → Stmt → σ × Option String)
    (records : List GoMap) (sink : σ) (cursor : String) (acc : List (GoMap × Option String))
    (out : CycleOutcome σ) (h : processRecords run records sink cursor acc = some out) :
    ∃ (done : List GoMap) (mid : σ),
      applyAll run done sink = some mid ∧
      ((done = [] ∧ out.cursor = cursor) ∨
        (∃ init last, done = init ++ [last] ∧
          mapGet last "id" = some (Value.str out.cursor))) ∧
      ((out.err = none ∧ records = done ∧ out.sink = mid ∧
          out.applied = acc ++ done.map (fun r => (r, none))) ∨
        (∃ failed rest o e, applyChange run mid failed = some o ∧ o.err = some e ∧
          out.err = some ("error processing record: " ++ e) ∧ out.sink = o.sink ∧
          records = done ++ failed :: rest ∧
          out.applied = acc ++ done.map (fun r => (r, none)) ++ [(failed, some e)])) := by
  induction records generalizing sink cursor acc with
  | nil =>
    simp only [processRecords, Option.some.injEq] at h
    subst h
    exact ⟨[], sink, rfl, Or.inl ⟨rfl, rfl⟩, Or.inl ⟨rfl, rfl, rfl, by simp⟩⟩
  | cons record rest ih =>
    simp only [processRecords] at h
    cases ha : applyChange run sink record with
    | none => simp [ha] at h
    | some o =>
      cases hoe : o.err with
      | some e =>
        simp only [ha, hoe, Option.some.injEq] at h
        subst h
        exact ⟨[], sink, rfl, Or.inl ⟨rfl, rfl⟩,
          Or.inr ⟨record, rest, o, e, ha, hoe, rfl, rfl, rfl, by simp⟩⟩
      | none =>
        obtain ⟨id, hid⟩ := applyChange_ok_id run sink record o ha hoe
        simp only [ha, hoe, hid, asString] at h
        obtain ⟨done, mid, hall, hcur, hres⟩ := ih o.sink id (acc ++ [(record, none)]) h
        refine ⟨record :: done, mid, ?_, Or.inr ?_, ?_⟩
        · simp only [applyAll, ha, hoe]
          exact hall
        · rcases hcur with ⟨hd, hc⟩ | ⟨init, last, hd, hl⟩
          · exact ⟨[], record, by simp [hd], by rw [hc]; exact hid⟩
          · exact ⟨record :: init, last, by simp [hd], hl⟩
        · rcases hres with ⟨h1, h2, h3, h4⟩ | ⟨failed, rest2, o2, e, h0, h00, h1, h5, h2, h3⟩
          · exact Or.inl ⟨h1, by rw [h2], h3, by simp [h4]⟩
          · exact Or.inr ⟨failed, rest2, o2, e, h0, h00, h1, h5, by simp [h2], by simp [h3]⟩

/-- C7: in one poll cycle over the records returned by the source there is a
prefix `done` of the list such that `applyChange`, called on the records of
`done` in list order, each on the sink left by the one before, returned a nil
error on every one of them and left the sink `mid`; the cursor after the cycle is
the id of the last record of `done`, or the starting cursor when `done` is empty;
and either `done` is the whole list, the cycle returns a nil error and the sink is
`mid`, or `applyChange` on the next record, at the sink `mid`, returned an error,
the cycle returns that error, the records after it were not handed to
`applyChange`, and the cursor was not set to the id of the failed record. -/
theorem queryChanges_cursor {σ : Type} (run : σ → Stmt → σ × Option String)
    (query : String → Except String (List GoMap)) (sink : σ) (cursor : String)
    (records : List GoMap) (out : CycleOutcome σ)
    (hq : query cursor = Except.ok records)
    (h : queryChanges run query sink cursor = some out) :
    ∃ (done : List GoMap) (mid : σ),
      applyAll run done sink = some mid ∧
      ((done = [] ∧ out.cursor = cursor) ∨
        (∃ init last, done = init ++ [last] ∧
          mapGet last "id" = some (Value.str out.cursor))) ∧
      ((out.err = none ∧ records = done ∧ out.sink = mid ∧
          out.applied = done.map (fun r => (r, none))) ∨
        (∃ failed rest o e, applyChange run mid failed = some o ∧ o.err = some e ∧
          out.err = some ("unable to query/process changes: " ++
            ("error processing record: " ++ e)) ∧
          out.err ≠ none ∧ out.sink = o.sink ∧
          records = done ++ failed :: rest ∧
          out.applied = done.map (fun r => (r, none)) ++ [(failed, some e)])) := by
  unfold queryChanges at h
  simp only [hq] at h
  cases hp : processRecords run records sink cursor [] with
  | none => simp [hp] at h
  | some o =>
    obtain ⟨done, mid, hall, hcur, hres⟩ := processRecords_spec run records sink cursor [] o hp
    simp only [hp] at h
    cases hoe : o.err with
    | none =>
      simp only [hoe, Option.some.injEq] at h
      subst h
      rcases hres with ⟨h1, h2, h3, h4⟩ | ⟨failed, rest, o2, e, _, _, h1, _, _, _⟩
      · exact ⟨done, mid, hall, hcur, Or.inl ⟨h1, h2, h3, by simpa using h4⟩⟩
      · rw [hoe] at h1
        simp at h1
    | some e0 =>
      simp only [hoe, Option.some.injEq] at h
      subst h
      rcases hres with ⟨h1, _, _, _⟩ | ⟨failed, rest, o2, e, h5, h6, h1, h7, h2, h3⟩
      · rw [hoe] at h1
        simp at h1
      · rw [hoe] at h1
        simp only [Option.some.injEq] at h1
        subst h1
        exact ⟨done, mid, hall, hcur,
          Or.inr ⟨failed, rest, o2, e, h5, h6, rfl, by simp, h7, h2, by simpa using h3⟩⟩

/-- C7 on a cycle of two records against a sink that refuses the third
statement: the create of S1 commits, the delete of S4 fails, and the cursor
stays at the id of the first record. -/
theorem queryChanges_cursor_witness :
    queryChanges tiringSink
        (fun _ => Except.ok [recordOf "x1" s1Event, recordOf "x4" s4Event]) 0 "c0" =
      some ⟨2, "x1", [(recordOf "x1" s1Event, none), (recordOf "x4" s4Event, some "refused")],
        some "unable to query/process changes: error processing record: refused"⟩ ∧
    applyAll tiringSink [recordOf "x1" s1Event] 0 = some 2 ∧
    applyAll tiringSink [recordOf "x1" s1Event, recordOf "x4" s4Event] 0 = none ∧
    (applyChange tiringSink 2 (recordOf "x4" s4Event)).map (fun o => (o.sink, o.err)) =
      some (2, some "refused") ∧
    ∃ (done : List GoMap) (mid : Nat),
      applyAll tiringSink done 0 = some mid ∧
      ((done = [] ∧ "x1" = "c0") ∨
        (∃ init last, done = init ++ [last] ∧ mapGet last "id" = some (Value.str "x1"))) ∧
      (((some "unable to query/process changes: error processing record: refused" :
            Option String) = none ∧
          [recordOf "x1" s1Event, recordOf "x4" s4Event] = done ∧ 2 = mid ∧
          [(recordOf "x1" s1Event, (none : Option String)),
            (recordOf "x4" s4Event, some "refused")] = done.map (fun r => (r, none))) ∨
        (∃ failed rest o e, applyChange tiringSink mid failed = some o ∧ o.err = some e ∧
          (some "unable to query/process changes: error processing record: refused" :
            Option String) = some ("unable to query/process changes: " ++
              ("error processing record: " ++ e)) ∧
          (some "unable to query/process changes: error processing record: refused" :
            Option String) ≠ none ∧ 2 = o.sink ∧
          [recordOf "x1" s1Event, recordOf "x4" s4Event] = done ++ failed :: rest ∧
          [(recordOf "x1" s1Event, (none : Option String)),
            (recordOf "x4" s4Event, some "refused")] =
            done.map (fun r => (r, none)) ++ [(failed, some e)])) :=
  ⟨by rfl, by rfl, by rfl, by rfl,
    queryChanges_cursor tiringSink
      (fun _ => Except.ok [recordOf "x1" s1Event, recordOf "x4" s4Event]) 0 "c0"
      [recordOf "x1" s1Event, recordOf "x4" s4Event]
      ⟨2, "x1", [(recordOf "x1" s1Event, none), (recordOf "x4" s4Event, some "refused")],
        some "unable to query/process changes: error processing record: refused"⟩
      rfl (by rfl)⟩

/-- C8: on every node event with a well-formed keys block, with or without a
state block, `buildDeleteQuery` returns a nil error, the query `MATCH ` + node
pattern followed by the line `DETACH DELETE n`, and the parameter map of
`nodePattern`.  On the event of scenario S4 the query is
`MATCH (n:Car {id: $n_merge_value_0})` followed by `DETACH DELETE n`, with
`n_merge_value_0` bound to `A`. -/
theorem buildDeleteQuery_node :
    (∀ event : GoMap, anyEqStr (mapGet event "eventType") "n" = true →
      wfKeys event = true →
      ∃ np mp, nodePattern event "n" = some (np, mp) ∧
        buildDeleteQuery event = some ⟨"MATCH " ++ np ++ "\nDETACH DELETE n\n", mp, none⟩) ∧
    buildDeleteQuery s4Event = some
      ⟨"MATCH (n:Car \x7bid: $n_merge_value_0\x7d)\nDETACH DELETE n\n",
        [("n_merge_value_0", Value.str "A")], none⟩ ∧
    linesOf "MATCH (n:Car \x7bid: $n_merge_value_0\x7d)\nDETACH DELETE n\n" =
      ["MATCH (n:Car \x7bid: $n_merge_value_0\x7d)", "DETACH DELETE n", ""] ∧
    mapGet s4Event "state" = none ∧
    buildDeleteQuery s1Event = some
      ⟨"MATCH (n:Car \x7bid: $n_merge_value_0\x7d)\nDETACH DELETE n\n",
        [("n_merge_value_0", Value.str "A")], none⟩ :=
  ⟨fun event hn hk => buildDeleteQuery_node_eq event hn hk, by rfl, by decide, by rfl, by rfl⟩

/-- The event of scenario S4 is a node event with a well-formed keys block, and
the first part of C8 holds of it. -/
theorem buildDeleteQuery_node_witness :
    anyEqStr (mapGet s4Event "eventType") "n" = true ∧ wfKeys s4Event = true ∧
    ∃ np mp, nodePattern s4Event "n" = some (np, mp) ∧
      buildDeleteQuery s4Event = some ⟨"MATCH " ++ np ++ "\nDETACH DELETE n\n", mp, none⟩ :=
  ⟨by decide, by decide, buildDeleteQuery_node.1 s4Event (by decide) (by decide)⟩

/-- C9: on every well-formed relationship update event `buildUpdateQuery` returns
a nil error and the three `MATCH` lines of the start pattern, the end pattern and
the relationship pattern, in that order, followed by `SET ` + attribute pattern;
the parameter map is the start map with the end map, the relationship key map and
the attribute map copied into it, so that it binds every name of the four maps.
On the event of scenario S3 the last line is `SET rel.note=$rel_value_0` and
`rel_value_0` is bound to `y`. -/
theorem buildUpdateQuery_rel :
    (∀ event : GoMap, wfRelChange event = true →
      ∃ startBlock endBlock state sc sp ec ep rc rp ac ap,
        mapGet event "start" = some (Value.map startBlock) ∧
        mapGet event "end" = some (Value.map endBlock) ∧
        mapGet event "state" = some (Value.map state) ∧
        nodePattern startBlock "start" = some (sc, sp) ∧
        nodePattern endBlock "end" = some (ec, ep) ∧
        relPattern event "start" "rel" "end" = some (rc, rp) ∧
        attribPattern state "rel" = some (ac, ap) ∧
        buildUpdateQuery event = some
          ⟨"MATCH " ++ sc ++ "\nMATCH " ++ ec ++ "\nMATCH " ++ rc ++ "\nSET " ++ ac,
            mapsCopy (mapsCopy (mapsCopy sp ep) rp) ap, none⟩ ∧
        ∀ key, mapGet (mapsCopy (mapsCopy (mapsCopy sp ep) rp) ap) key =
          (mapGet ap key).orElse (fun _ => (mapGet rp key).orElse (fun _ =>
            (mapGet ep key).orElse (fun _ => mapGet sp key)))) ∧
    buildUpdateQuery s3Event = some
      ⟨"MATCH (start:Car \x7bid: $start_merge_value_0\x7d)\nMATCH (end:Person \x7bid: $end_merge_value_0\x7d)\nMATCH (start)-[rel:OWNS \x7bsince: rel_rel_attr_0\x7d]->(end)\nSET rel.note=$rel_value_0",
        [("start_merge_value_0", Value.str "A"), ("end_merge_value_0", Value.str "P"),
          ("rel_rel_attr_0", Value.int 2020), ("rel_value_0", Value.str "y")], none⟩ ∧
    linesOf "MATCH (start:Car \x7bid: $start_merge_value_0\x7d)\nMATCH (end:Person \x7bid: $end_merge_value_0\x7d)\nMATCH (start)-[rel:OWNS \x7bsince: rel_rel_attr_0\x7d]->(end)\nSET rel.note=$rel_value_0" =
      ["MATCH (start:Car \x7bid: $start_merge_value_0\x7d)",
        "MATCH (end:Person \x7bid: $end_merge_value_0\x7d)",
        "MATCH (start)-[rel:OWNS \x7bsince: rel_rel_attr_0\x7d]->(end)",
        "SET rel.note=$rel_value_0"] := by
  refine ⟨?_, by rfl, by decide⟩
  intro event h
  obtain ⟨startBlock, endBlock, state, sc, sp, ec, ep, rc, rp, ac, ap, hsb, heb, hs, hsp,
    hep, hepn, hrp, hrpn, hap, hapn, hq⟩ := buildUpdateQuery_rel_eq event h
  refine ⟨startBlock, endBlock, state, sc, sp, ec, ep, rc, rp, ac, ap, hsb, heb, hs, hsp,
    hep, hrp, hap, hq, ?_⟩
  intro key
  rw [mapGet_mapsCopy ap hapn, mapGet_mapsCopy rp hrpn, mapGet_mapsCopy ep hepn]

/-- The event of scenario S3 is a well-formed relationship update event, and the
first part of C9 holds of it. -/
theorem buildUpdateQuery_rel_witness :
    wfRelChange s3Event = true ∧
    ∃ sc ec rc ac params,
      buildUpdateQuery s3Event = some
        ⟨"MATCH " ++ sc ++ "\nMATCH " ++ ec ++ "\nMATCH " ++ rc ++ "\nSET " ++ ac, params, none⟩ := by
  refine ⟨by decide, ?_⟩
  obtain ⟨_, _, _, sc, _, ec, _, rc, _, ac, _, _, _, _, _, _, _, _, hq, _⟩ :=
    buildUpdateQuery_rel.1 s3Event (by decide)
  exact ⟨sc, ec, rc, ac, _, hq⟩

set_option maxRecDepth 100000 in
/-- C10, the claim as stated fails: on a node create without properties
`attribPattern` returns the empty string and the query of `buildCreateQuery`
still has the line `SET ` with an empty assignment list; so has the query of a
relationship create without properties, and the query of a relationship update
with an empty diff ends in that line. -/
theorem empty_diff_keeps_set_line :
    attribPattern
      [("after", Value.map
        [("labels", Value.list [Value.str "Car"]), ("properties", Value.map [])])] "n" =
      some ("", []) ∧
    (buildCreateQuery bareCreateEvent).map (fun r => (linesOf r.cypher, r.err)) = some
      (["", "CREATE (n:Car \x7bid: $n_merge_value_0\x7d)", "SET n:Car", "SET ", ""], none) ∧
    (buildCreateQuery relCreateEvent).map (fun r => (linesOf r.cypher, r.err)) = some
      (["", "MATCH (start:Car \x7bid: $start_merge_value_0\x7d) ",
        "MATCH (end:Person \x7bid: $end_merge_value_0\x7d)",
        "MERGE (start)-[rel:OWNS ]->(end)", "SET ", ""], none) ∧
    (buildUpdateQuery relUnchangedEvent).map (fun r => (linesOf r.cypher, r.err)) = some
      (["MATCH (start:Car \x7bid: $start_merge_value_0\x7d)",
        "MATCH (end:Person \x7bid: $end_merge_value_0\x7d)",
        "MATCH (start)-[rel:OWNS \x7bsince: rel_rel_attr_0\x7d]->(end)", "SET "], none) := by
  exact ⟨by rfl, by rfl, by rfl, by rfl⟩

/-- C10, amended: on every well-formed node create, relationship create and
relationship update event whose attribute diff is empty, `attribPattern` returns
the empty string with an empty parameter map, and the composed query keeps the
attribute `SET` clause: its last line is `SET ` followed by an empty assignment
list. -/
theorem empty_diff_set_clause :
    (∀ event state : GoMap, wfNodeChange event = true →
      mapGet event "state" = some (Value.map state) → diffEmpty state = true →
      attribPattern state "n" = some ("", []) ∧
      ∃ head, (buildCreateQuery event).map (fun r => r.cypher) =
        some ("\nCREATE " ++ head ++ "\nSET \n")) ∧
    (∀ event state : GoMap, wfRelChange event = true →
      mapGet event "state" = some (Value.map state) → diffEmpty state = true →
      attribPattern state "rel" = some ("", []) ∧
      (∃ head, (buildCreateQuery event).map (fun r => r.cypher) =
        some ("\nMATCH " ++ head ++ "\nSET \n")) ∧
      ∃ head, (buildUpdateQuery event).map (fun r => r.cypher) =
        some ("MATCH " ++ head ++ "\nSET ")) := by
  constructor
  · intro event state h hs hd
    have hz := attribPattern_diffEmpty state "n" hd
    refine ⟨hz, ?_⟩
    obtain ⟨state2, after, np, mp, lp, ap, app, hs2, _, _, _, _, hap, _, hq⟩ :=
      buildCreateQuery_node_eq event h
    rw [hs] at hs2
    injection hs2 with h1
    injection h1 with h2
    subst h2
    rw [hz] at hap
    injection hap with h3
    injection h3 with hac _
    subst hac
    refine ⟨np ++ "\nSET n" ++ lp, ?_⟩
    simp [hq, String.append_assoc]
  · intro event state h hs hd
    have hz := attribPattern_diffEmpty state "rel" hd
    refine ⟨hz, ?_, ?_⟩
    · obtain ⟨_, _, state2, sc, sp, ec, ep, rc, rp, ac, ap, _, _, hs2, _, _, _, _, _, hap, _,
        hq⟩ := buildCreateQuery_rel_eq event h
      rw [hs] at hs2
      injection hs2 with h1
      injection h1 with h2
      subst h2
      rw [hz] at hap
      injection hap with h3
      injection h3 with hac _
      subst hac
      refine ⟨sc ++ " \nMATCH " ++ ec ++ "\nMERGE " ++ rc, ?_⟩
      simp [hq, String.append_assoc]
    · obtain ⟨_, _, state2, sc, sp, ec, ep, rc, rp, ac, ap, _, _, hs2, _, _, _, _, _, hap, _,
        hq⟩ := buildUpdateQuery_rel_eq event h
      rw [hs] at hs2
      injection hs2 with h1
      injection h1 with h2
      subst h2
      rw [hz] at hap
      injection hap with h3
      injection h3 with hac _
      subst hac
      refine ⟨sc ++ "\nMATCH " ++ ec ++ "\nMATCH " ++ rc, ?_⟩
      simp [hq, String.append_assoc]

/-- The amended C10 at a node create, a relationship create and a relationship
update whose diffs are empty. -/
theorem empty_diff_set_clause_witness :
    (wfNodeChange bareCreateEvent = true ∧
      ∃ head, (buildCreateQuery bareCreateEvent).map (fun r => r.cypher) =
        some ("\nCREATE " ++ head ++ "\nSET \n")) ∧
    (wfRelChange relCreateEvent = true ∧
      ∃ head, (buildCreateQuery relCreateEvent).map (fun r => r.cypher) =
        some ("\nMATCH " ++ head ++ "\nSET \n")) ∧
    (wfRelChange relUnchangedEvent = true ∧
      ∃ head, (buildUpdateQuery relUnchangedEvent).map (fun r => r.cypher) =
        some ("MATCH " ++ head ++ "\nSET ")) :=
  ⟨⟨by decide, (empty_diff_set_clause.1 bareCreateEvent _ (by decide) rfl (by decide)).2⟩,
    ⟨by decide, (empty_diff_set_clause.2 relCreateEvent _ (by decide) rfl (by decide)).2.1⟩,
    ⟨by decide, (empty_diff_set_clause.2 relUnchangedEvent _ (by decide) rfl (by decide)).2.2⟩⟩

/-! ## The transaction of `applyChange` -/

/-- C13: on every record with a string id whose composed query is not empty,
`applyChange` runs one write transaction: first the composed query with its
parameter map, then the cursor mirror `MERGE (c:ChangeIdentifier)` /
`SET c.value = $identifier` with `identifier` bound to the id of the record.  If
the composed query fails, the mirror is not run and the error is returned; if the
mirror fails, its error is returned; in both cases the sink keeps its state.  On
a record whose composed query is empty no statement is run. -/
theorem applyChange_transaction {σ : Type} (run : σ → Stmt → σ × Option String) (sink : σ)
    (record event : GoMap) (id operation cypher : String) (params : GoMap)
    (he : mapGet record "event" = some (Value.map event))
    (hi : mapGet record "id" = some (Value.str id))
    (ho : mapGet event "operation" = some (Value.str operation))
    (hc : composeFor operation event = some (cypher, params)) :
    (cypher = "" → applyChange run sink record = some ⟨sink, [], none⟩) ∧
    (cypher ≠ "" →
      (∀ sink1 e, run sink ⟨cypher, params⟩ = (sink1, some e) →
        applyChange run sink record = some ⟨sink, [⟨cypher, params⟩], some e⟩) ∧
      (∀ sink1 sink2 e, run sink ⟨cypher, params⟩ = (sink1, none) →
        run sink1 (storeChangeIdentifierStmt id) = (sink2, some e) →
        applyChange run sink record =
          some ⟨sink, [⟨cypher, params⟩, storeChangeIdentifierStmt id], some e⟩) ∧
      (∀ sink1 sink2, run sink ⟨cypher, params⟩ = (sink1, none) →
        run sink1 (storeChangeIdentifierStmt id) = (sink2, none) →
        applyChange run sink record =
          some ⟨sink2, [⟨cypher, params⟩, storeChangeIdentifierStmt id], none⟩)) ∧
    storeChangeIdentifierStmt id =
      ⟨"\nMERGE (c:ChangeIdentifier)\nSET c.value = $identifier\n",
        [("identifier", Value.str id)]⟩ := by
  have hq := applyChange_of_compose run sink record event id operation cypher params he hi ho hc
  refine ⟨?_, ?_, rfl⟩
  · intro h0
    rw [hq]
    simp [h0]
  · intro h0
    rw [hq, if_pos h0]
    refine ⟨?_, ?_, ?_⟩
    · intro sink1 e h1
      simp [executeWrite, h1]
    · intro sink1 sink2 e h1 h2
      simp [executeWrite, h1, h2]
    · intro sink1 sink2 h1 h2
      simp [executeWrite, h1, h2]

/-- C13 on the record of the S1 create against a sink that accepts every
statement: both statements run and the sink has counted two. -/
theorem applyChange_transaction_witness :
    applyChange countingSink 0 s1Record = some
      ⟨2, [⟨"\nCREATE (n:Car \x7bid: $n_merge_value_0\x7d)\nSET n:Car:Unique\nSET n.color=$n_value_0\n",
            [("n_value_0", Value.str "red"), ("n_merge_value_0", Value.str "A")]⟩,
          storeChangeIdentifierStmt "x1"], none⟩ :=
  (applyChange_transaction countingSink 0 s1Record s1Event "x1" "c"
    "\nCREATE (n:Car \x7bid: $n_merge_value_0\x7d)\nSET n:Car:Unique\nSET n.color=$n_value_0\n"
    [("n_value_0", Value.str "red"), ("n_merge_value_0", Value.str "A")]
    rfl rfl rfl (by rfl)).2.1 (by decide) |>.2.2 1 2 rfl rfl

/-! ## A record without a change identifier -/

theorem processRecords_append {σ : Type} (run : σ → Stmt → σ × Option String)
    (pre rest : List GoMap) (sink : σ) (cursor : String) (acc : List (GoMap × Option String))
    (mid : CycleOutcome σ) (h : processRecords run pre sink cursor acc = some mid)
    (he : mid.err = none) :
    processRecords run (pre ++ rest) sink cursor acc =
      processRecords run rest mid.sink mid.cursor mid.applied := by
  induction pre generalizing sink cursor acc with
  | nil =>
    simp only [processRecords, Option.some.injEq] at h
    subst h
    rfl
  | cons record pre ih =>
    simp only [processRecords] at h
    simp only [List.cons_append, processRecords]
    cases ha : applyChange run sink record with
    | none => simp [ha] at h
    | some o =>
      simp only [ha] at h
      cases hoe : o.err with
      | some e =>
        simp only [hoe, Option.some.injEq] at h
        subst h
        simp at he
      | none =>
        simp only [hoe] at h
        cases hid : asString (mapGet record "id") with
        | none =>
          simp only [hid, Option.some.injEq] at h
          subst h
          simp at he
        | some id =>
          simp only [hid] at h
          simp only [hoe]
          exact ih o.sink id _ h

/-- C14: on every record that carries an event and whose `id` is missing or is
not a string, `applyChange` returns an error and runs no sink statement; the poll
cycle that reaches the record returns an error, the records after it are not
applied, and the cursor and the sink keep the values they had before the record.
-/
theorem applyChange_missing_id {σ : Type} (run : σ → Stmt → σ × Option String)
    (record event : GoMap)
    (he : mapGet record "event" = some (Value.map event))
    (hi : asString (mapGet record "id") = none) :
    (∀ sink, applyChange run sink record =
      some ⟨sink, [], some "No change identifier in change event."⟩) ∧
    (∀ (query : String → Except String (List GoMap)) (sink : σ) (cursor : String)
      (pre rest : List GoMap) (mid : CycleOutcome σ),
      query cursor = Except.ok (pre ++ record :: rest) →
      processRecords run pre sink cursor [] = some mid → mid.err = none →
      queryChanges run query sink cursor = some
        ⟨mid.sink, mid.cursor,
          mid.applied ++ [(record, some "No change identifier in change event.")],
          some "unable to query/process changes: error processing record: No change identifier in change event."⟩) := by
  have h1 : ∀ sink, applyChange run sink record =
      some ⟨sink, [], some "No change identifier in change event."⟩ := by
    intro sink
    simp [applyChange, he, asMap, hi]
  refine ⟨h1, ?_⟩
  intro query sink cursor pre rest mid hq hp hm
  simp only [queryChanges, hq,
    processRecords_append run pre (record :: rest) sink cursor [] mid hp hm, processRecords, h1]
  rfl

/-- C14 on a cycle of three records whose second has a numeric id: the first
record commits and moves the cursor to `x1`, the second stops the cycle, the
third is not applied. -/
theorem applyChange_missing_id_witness :
    asString (mapGet numericIdRecord "id") = none ∧
    applyChange countingSink 0 idlessRecord =
      some ⟨0, [], some "No change identifier in change event."⟩ ∧
    queryChanges countingSink
        (fun _ => Except.ok ([s1Record] ++ numericIdRecord :: [recordOf "x4" s4Event])) 0 "c0" =
      some ⟨2, "x1",
        [(s1Record, none), (numericIdRecord, some "No change identifier in change event.")],
        some "unable to query/process changes: error processing record: No change identifier in change event."⟩ :=
  ⟨by rfl,
    (applyChange_missing_id countingSink idlessRecord s1Event rfl (by rfl)).1 0,
    (applyChange_missing_id countingSink numericIdRecord s1Event rfl (by rfl)).2
      (fun _ => Except.ok ([s1Record] ++ numericIdRecord :: [recordOf "x4" s4Event])) 0 "c0"
      [s1Record] [recordOf "x4" s4Event] ⟨2, "x1", [(s1Record, none)], none⟩ rfl (by rfl) rfl⟩

/-! ## Bootstrap -/

/-- C16: when the start cursor is empty and the source answers `current()` with
one record whose id is `c`, the cursor is `c` when `Start` returns, the goroutine
is started and its first poll is the change query with `from = c`; when the start
cursor is not empty, `Start` keeps it and its result does not depend on what
`current()` would answer; when `current()` fails, `Start` returns the error and
no goroutine, hence no poll cycle, is started.  In scenario S5 the cursor is
`c0`. -/
theorem Start_bootstrap :
    (∀ (c : String), Start (Except.ok [[("id", Value.str c)]]) "" = ⟨c, none, true⟩) ∧
    (∀ (current : Except String (List GoMap)) (c : String),
      queryChangeID current = Except.ok c →
      Start current "" = ⟨c, none, true⟩ ∧
      ∀ (σ : Type) (run : σ → Stmt → σ × Option String)
        (query : String → Except String (List GoMap)) (sink : σ),
        firstPoll run query sink (Start current "") = some (queryChanges run query sink c) ∧
        queryChanges run query sink c = queryChanges run (fun _ => query c) sink c) ∧
    (∀ (current other : Except String (List GoMap)) (cursor : String), cursor ≠ "" →
      Start current cursor = ⟨cursor, none, true⟩ ∧ Start other cursor = Start current cursor) ∧
    (∀ (current : Except String (List GoMap)) (e : String),
      queryChangeID current = Except.error e →
      Start current "" = ⟨"", some e, false⟩ ∧
      ∀ (σ : Type) (run : σ → Stmt → σ × Option String)
        (query : String → Except String (List GoMap)) (sink : σ),
        firstPoll run query sink (Start current "") = none) ∧
    (∀ e : String, queryChangeID (Except.error e) =
      Except.error ("unable to query change identifier: " ++ e)) ∧
    Start (Except.ok [[("id", Value.str "c0")]]) "" = ⟨"c0", none, true⟩ := by
  refine ⟨?_, ?_, ?_, ?_, ?_, by rfl⟩
  · intro c
    simp [Start, queryChangeID, mapGet]
  · intro current c h
    have hs : Start current "" = ⟨c, none, true⟩ := by simp [Start, h]
    refine ⟨hs, ?_⟩
    intro σ run query sink
    rw [hs]
    exact ⟨by simp [firstPoll], by simp [queryChanges]⟩
  · intro current other cursor h
    simp [Start, h]
  · intro current e h
    have hs : Start current "" = ⟨"", some e, false⟩ := by simp [Start, h]
    refine ⟨hs, ?_⟩
    intro σ run query sink
    rw [hs]
    simp [firstPoll]
  · intro e
    rfl

/-- C16 at an empty start cursor with a source whose current id is `c0`, at the
start cursor `x7`, and at a source that cannot be reached. -/
theorem Start_bootstrap_witness :
    (queryChangeID (Except.ok [[("id", Value.str "c0")]]) = Except.ok "c0" ∧
      firstPoll countingSink (fun _ => Except.ok []) 0
        (Start (Except.ok [[("id", Value.str "c0")]]) "") =
      some (queryChanges countingSink (fun _ => Except.ok []) 0 "c0")) ∧
    ("x7" ≠ "" ∧ Start (Except.error "down") "x7" = ⟨"x7", none, true⟩) ∧
    (queryChangeID (Except.error "down") =
        Except.error "unable to query change identifier: down" ∧
      Start (Except.error "down") "" =
        ⟨"", some "unable to query change identifier: down", false⟩) :=
  ⟨⟨by rfl, ((Start_bootstrap.2.1 (Except.ok [[("id", Value.str "c0")]]) "c0" (by rfl)).2
      Nat countingSink (fun _ => Except.ok []) 0).1⟩,
    ⟨by decide, (Start_bootstrap.2.2.1 (Except.error "down") (Except.error "down") "x7"
      (by decide)).1⟩,
    ⟨by rfl, (Start_bootstrap.2.2.2.1 (Except.error "down")
      "unable to query change identifier: down" (by rfl)).1⟩⟩

/-! ## Totality of the pattern builders -/

/-- C15: `nodePattern`, `labelPattern` and `relPattern` return on every input of
the shapes of the data model, whatever the property values, and `attribPattern`
returns on every state block in which no property holds a container of one kind
on both sides.  On a node update that leaves the list property `tags` as it was,
the comparison `oldVal == newVal` of two slices panics: `attribPattern` does not
return, and neither does `buildUpdateQuery`. -/
theorem pattern_builders_total :
    (∀ (block : GoMap) (v : String), wfKeys block = true →
      ∃ r, nodePattern block v = some r) ∧
    (∀ (side : GoMap) (v : String), wfLabels side = true →
      ∃ r, labelPattern side v = some r) ∧
    (∀ (event : GoMap) (s r e : String),
      isMapV ((mapGet event "key").getD Value.null) = true →
      isStrV ((mapGet event "type").getD Value.null) = true →
      ∃ res, relPattern event s r e = some res) ∧
    (∀ (state : GoMap) (v : String), wfState state = true →
      ∃ r, attribPattern state v = some r) ∧
    goEq (Value.list [Value.str "a"]) (Value.list [Value.str "a"]) = none ∧
    attribPattern listPropertyState "n" = none ∧
    buildUpdateQuery listPropertyEvent = none := by
  refine ⟨?_, ?_, ?_, ?_, by rfl, by rfl, by rfl⟩
  · intro block v h
    obtain ⟨c, p, hp, _⟩ := nodePattern_total block v h
    exact ⟨_, hp⟩
  · intro side v h
    exact labelPattern_total side v h
  · intro event s r e hk ht
    obtain ⟨c, p, hp, _⟩ := relPattern_total event s r e hk ht
    exact ⟨_, hp⟩
  · intro state v h
    obtain ⟨c, p, hp, _⟩ := attribPattern_total state v h
    exact ⟨_, hp⟩

/-- The total part of C15 at the blocks of scenarios S1 and S3. -/
theorem pattern_builders_total_witness :
    (wfKeys s1Event = true ∧ ∃ r, nodePattern s1Event "n" = some r) ∧
    (wfLabels [("labels", Value.list [Value.str "Car", Value.str "Unique"])] = true ∧
      ∃ r, labelPattern [("labels", Value.list [Value.str "Car", Value.str "Unique"])] "n" =
        some r) ∧
    (∃ res, relPattern s3Event "start" "rel" "end" = some res) ∧
    (wfState [("after", Value.map [("properties", Value.map
        [("tags", Value.list [Value.str "a"])])])] = true ∧
      ∃ r, attribPattern [("after", Value.map [("properties", Value.map
        [("tags", Value.list [Value.str "a"])])])] "n" = some r) :=
  ⟨⟨by decide, pattern_builders_total.1 s1Event "n" (by decide)⟩,
    ⟨by decide, pattern_builders_total.2.1 _ "n" (by decide)⟩,
    pattern_builders_total.2.2.1 s3Event "start" "rel" "end" (by decide) (by decide),
    ⟨by decide, pattern_builders_total.2.2.2.1 _ "n" (by decide)⟩⟩

/-! ## Parameter names -/

theorem digitChar_value : ∀ m, m < 10 → (Nat.digitChar m).toNat - 48 = m := by decide

theorem toDigitsCore_value (fuel : Nat) : ∀ (n : Nat) (ds : List Char), n < fuel →
    (Nat.toDigitsCore 10 fuel n ds).foldl (fun a c => a * 10 + (c.toNat - 48)) 0 =
      ds.foldl (fun a c => a * 10 + (c.toNat - 48)) n := by
  induction fuel with
  | zero => intro n ds h; omega
  | succ fuel ih =>
    intro n ds h
    simp only [Nat.toDigitsCore]
    have hd := digitChar_value (n % 10) (Nat.mod_lt _ (by omega))
    by_cases h0 : n / 10 = 0
    · simp only [h0, if_true, List.foldl_cons, hd]
      have : n % 10 = n := by omega
      simp [this]
    · simp only [h0, if_false]
      rw [ih (n / 10) _ (by omega)]
      simp only [List.foldl_cons, hd]
      have : n / 10 * 10 + n % 10 = n := by omega
      rw [this]

theorem itoa_injective (a b : Nat) (h : itoa a = itoa b) : a = b := by
  have ha := toDigitsCore_value (a + 1) a [] (by omega)
  have hb := toDigitsCore_value (b + 1) b [] (by omega)
  have hd : Nat.toDigitsCore 10 (a + 1) a [] = Nat.toDigitsCore 10 (b + 1) b [] := by
    have := congrArg String.data h
    simpa [itoa, Nat.repr, Nat.toDigits, List.asString] using this
  rw [hd, hb] at ha
  simpa using ha.symm

theorem append_left_cancel (s a b : String) (h : s ++ a = s ++ b) : a = b := by
  have := congrArg String.data h
  simp only [String.data_append, List.append_cancel_left_eq] at this
  exact String.ext this

theorem mapSet_fresh (m : GoMap) (k : String) (v : Value) (h : k ∉ keysOf m) :
    mapSet m k v = m ++ [(k, v)] := by
  induction m with
  | nil => rfl
  | cons p rest ih =>
    obtain ⟨k0, v0⟩ := p
    simp only [keysOf, List.map_cons, List.mem_cons, not_or] at h
    have h1 : ¬ k0 = k := fun e => h.1 e.symm
    simp only [mapSet, h1, if_false, List.cons_append]
    rw [ih h.2]

theorem mapsCopy_disjoint (src : GoMap) (hn : (keysOf src).Nodup) (dst : GoMap)
    (hd : ∀ k, k ∈ keysOf src → k ∉ keysOf dst) : mapsCopy dst src = dst ++ src := by
  induction src generalizing dst with
  | nil => simp [mapsCopy]
  | cons p rest ih =>
    obtain ⟨k0, v0⟩ := p
    simp only [keysOf, List.map_cons, List.nodup_cons] at hn
    have h0 : k0 ∉ keysOf dst := hd k0 (by simp [keysOf])
    rw [mapsCopy, mapSet_fresh dst k0 v0 h0, ih hn.2]
    · simp
    · intro k hk
      simp only [keysOf, List.map_append, List.map_cons, List.map_nil, List.mem_append,
        List.mem_singleton, not_or]
      refine ⟨hd k (by simp only [keysOf, List.map_cons, List.mem_cons]; exact Or.inr hk), ?_⟩
      intro e
      subst e
      exact hn.1 hk

theorem mergePairs_keys (tmpl : String) (attributes : GoMap) (pairs : List String)
    (params : GoMap) (cnt : Nat) (k : String)
    (h : k ∈ keysOf (mergePairs tmpl attributes pairs params cnt).2) :
    k ∈ keysOf params ∨ ∃ i, k = tmpl ++ itoa i := by
  induction attributes generalizing pairs params cnt with
  | nil => exact Or.inl (by simpa [mergePairs] using h)
  | cons p rest ih =>
    obtain ⟨k0, v0⟩ := p
    simp only [mergePairs] at h
    rcases ih _ _ _ h with h1 | h1
    · rw [keysOf_mapSet] at h1
      by_cases hm : tmpl ++ itoa cnt ∈ keysOf params
      · simp only [hm, if_true] at h1
        exact Or.inl h1
      · simp only [hm, if_false, List.mem_append, List.mem_singleton] at h1
        rcases h1 with h2 | h2
        · exact Or.inl h2
        · exact Or.inr ⟨cnt, h2⟩
    · exact Or.inr h1

theorem relLoop_keys (tmpl : String) (key : GoMap) (attrs : String)
    (params : GoMap) (cnt : Nat) (k : String)
    (h : k ∈ keysOf (relLoop tmpl key attrs params cnt).2) :
    k ∈ keysOf params ∨ ∃ i, k = tmpl ++ itoa i := by
  induction key generalizing attrs params cnt with
  | nil => exact Or.inl (by simpa [relLoop] using h)
  | cons p rest ih =>
    obtain ⟨k0, v0⟩ := p
    simp only [relLoop] at h
    rcases ih _ _ _ h with h1 | h1
    · rw [keysOf_mapSet] at h1
      by_cases hm : tmpl ++ itoa cnt ∈ keysOf params
      · simp only [hm, if_true] at h1
        exact Or.inl h1
      · simp only [hm, if_false, List.mem_append, List.mem_singleton] at h1
        rcases h1 with h2 | h2
        · exact Or.inl h2
        · exact Or.inr ⟨cnt, h2⟩
    · exact Or.inr h1

theorem attribLoop_keys (varName tmpl : String) (existing props : GoMap)
    (strs : List String) (params : GoMap) (cnt : Nat) (out : List String × GoMap)
    (h : attribLoop varName tmpl existing props strs params cnt = some out) (k : String)
    (hk : k ∈ keysOf out.2) : k ∈ keysOf params ∨ ∃ i, k = tmpl ++ itoa i := by
  induction props generalizing strs params cnt with
  | nil =>
    simp only [attribLoop, Option.some.injEq] at h
    subst h
    exact Or.inl hk
  | cons p rest ih =>
    obtain ⟨k0, newVal⟩ := p
    have step : ∀ s c, attribLoop varName tmpl existing rest s
        (mapSet params (tmpl ++ itoa cnt) newVal) c = some out →
        k ∈ keysOf params ∨ ∃ i, k = tmpl ++ itoa i := by
      intro s c h2
      rcases ih _ _ _ h2 with h1 | h1
      · rw [keysOf_mapSet] at h1
        by_cases hm : tmpl ++ itoa cnt ∈ keysOf params
        · simp only [hm, if_true] at h1
          exact Or.inl h1
        · simp only [hm, if_false, List.mem_append, List.mem_singleton] at h1
          rcases h1 with h2 | h2
          · exact Or.inl h2
          · exact Or.inr ⟨cnt, h2⟩
      · exact Or.inr h1
    simp only [attribLoop] at h
    cases hg : mapGet existing k0 with
    | none =>
      simp only [hg] at h
      exact step _ _ h
    | some oldVal =>
      simp only [hg] at h
      cases hq : goEq oldVal newVal with
      | none => simp [hq] at h
      | some b =>
        cases b
        · simp only [hq] at h
          exact step _ _ h
        · simp only [hq] at h
          exact ih _ _ _ h

theorem nodePattern_keys (block : GoMap) (v cypher : String) (params : GoMap)
    (h : nodePattern block v = some (cypher, params)) (k : String) (hk : k ∈ keysOf params) :
    ∃ i, k = v ++ "_merge_value_" ++ itoa i := by
  unfold nodePattern at h
  cases hm : asMap (mapGet block "keys") with
  | none => simp [hm] at h
  | some keys =>
    cases hg : gatherKeys keys [] "" with
    | none => simp [hm, hg] at h
    | some r =>
      obtain ⟨attributes, labelString⟩ := r
      cases hp : mergePairs (v ++ "_merge_value_") attributes [] [] 0 with
      | mk pairs ps =>
        simp only [hm, hg, hp, Option.some.injEq, Prod.mk.injEq] at h
        obtain ⟨_, h2⟩ := h
        subst h2
        have := mergePairs_keys (v ++ "_merge_value_") attributes [] [] 0 k (by rw [hp]; exact hk)
        rcases this with h3 | h3
        · simp [keysOf] at h3
        · exact h3

theorem relPattern_keys (event : GoMap) (s r e cypher : String) (params : GoMap)
    (h : relPattern event s r e = some (cypher, params)) (k : String) (hk : k ∈ keysOf params) :
    ∃ i, k = r ++ "_rel_attr_" ++ itoa i := by
  unfold relPattern at h
  cases hm : asMap (mapGet event "key") with
  | none => simp [hm] at h
  | some key =>
    cases hp : relLoop (r ++ "_rel_attr_") key "" [] 0 with
    | mk attrs ps =>
      cases ht : asString (mapGet event "type") with
      | none => simp [hm, hp, ht] at h
      | some ty =>
        simp only [hm, hp, ht, Option.some.injEq, Prod.mk.injEq] at h
        obtain ⟨_, h2⟩ := h
        subst h2
        have := relLoop_keys (r ++ "_rel_attr_") key "" [] 0 k (by rw [hp]; exact hk)
        rcases this with h3 | h3
        · simp [keysOf] at h3
        · exact h3

theorem attribPattern_keys (state : GoMap) (v attrs : String) (params : GoMap)
    (h : attribPattern state v = some (attrs, params)) (k : String) (hk : k ∈ keysOf params) :
    ∃ i, k = v ++ "_value_" ++ itoa i := by
  unfold attribPattern at h
  cases ha : asMap (mapGet state "after") with
  | none => simp [ha] at h
  | some after =>
    cases hex : existingOf state with
    | none => simp [ha, hex] at h
    | some existing =>
      cases hp : asMap (mapGet after "properties") with
      | none => simp [ha, hex, hp] at h
      | some props =>
        cases hl : attribLoop v (v ++ "_value_") existing props [] [] 0 with
        | none => simp [ha, hex, hp, hl] at h
        | some out =>
          simp only [ha, hex, hp, hl, Option.some.injEq, Prod.mk.injEq] at h
          obtain ⟨_, h2⟩ := h
          have := attribLoop_keys v (v ++ "_value_") existing props [] [] 0 out hl k
            (by rw [h2]; exact hk)
          rcases this with h3 | h3
          · simp [keysOf] at h3
          · exact h3

theorem mapGet_append (a b : GoMap) (k : String) :
    mapGet (a ++ b) k = (mapGet a k).orElse (fun _ => mapGet b k) := by
  induction a with
  | nil => simp [mapGet]
  | cons p rest ih =>
    obtain ⟨k0, v0⟩ := p
    by_cases h : k0 = k <;> simp [mapGet, h, ih]

theorem disjoint_of_forms (a b : GoMap) (ta tb : String)
    (ha : ∀ k, k ∈ keysOf a → ∃ i, k = ta ++ itoa i)
    (hb : ∀ k, k ∈ keysOf b → ∃ i, k = tb ++ itoa i)
    (hne : ∀ x y : String, ta ++ x ≠ tb ++ y) : ∀ k, k ∈ keysOf a → k ∉ keysOf b := by
  intro k h1 h2
  obtain ⟨i, hi⟩ := ha k h1
  obtain ⟨j, hj⟩ := hb k h2
  exact hne (itoa i) (itoa j) (hi.symm.trans hj)

theorem names_start_end (x y : String) :
    "start" ++ "_merge_value_" ++ x ≠ "end" ++ "_merge_value_" ++ y := by
  intro h
  have := congrArg String.data h
  simp [String.data_append] at this

theorem names_start_rel (x y : String) :
    "start" ++ "_merge_value_" ++ x ≠ "rel" ++ "_rel_attr_" ++ y := by
  intro h
  have := congrArg String.data h
  simp [String.data_append] at this

theorem names_start_value (x y : String) :
    "start" ++ "_merge_value_" ++ x ≠ "rel" ++ "_value_" ++ y := by
  intro h
  have := congrArg String.data h
  simp [String.data_append] at this

theorem names_end_rel (x y : String) :
    "end" ++ "_merge_value_" ++ x ≠ "rel" ++ "_rel_attr_" ++ y := by
  intro h
  have := congrArg String.data h
  simp [String.data_append] at this

theorem names_end_value (x y : String) :
    "end" ++ "_merge_value_" ++ x ≠ "rel" ++ "_value_" ++ y := by
  intro h
  have := congrArg String.data h
  simp [String.data_append] at this

theorem names_rel_value (x y : String) :
    "rel" ++ "_rel_attr_" ++ x ≠ "rel" ++ "_value_" ++ y := by
  intro h
  have := congrArg String.data h
  simp [String.data_append] at this

theorem names_node_value (x y : String) :
    "n" ++ "_merge_value_" ++ x ≠ "n" ++ "_value_" ++ y := by
  intro h
  have := congrArg String.data h
  simp [String.data_append] at this

/-- C17: on every well-formed relationship event the parameter maps of the start
pattern, the end pattern, the relationship pattern and the attribute pattern
have pairwise disjoint key sets; the map returned by `buildCreateQuery` and by
`buildUpdateQuery` is the four maps one after the other, so its size is the sum
of their sizes and it binds every name as its fragment does.  On every
well-formed node event the maps of the node pattern and of the attribute pattern
are disjoint, and `buildCreateQuery` returns the one after the other. -/
theorem fragments_disjoint :
    (∀ event : GoMap, wfRelChange event = true →
      ∃ startBlock endBlock state sc sp ec ep rc rp ac ap,
        mapGet event "start" = some (Value.map startBlock) ∧
        mapGet event "end" = some (Value.map endBlock) ∧
        mapGet event "state" = some (Value.map state) ∧
        nodePattern startBlock "start" = some (sc, sp) ∧
        nodePattern endBlock "end" = some (ec, ep) ∧
        relPattern event "start" "rel" "end" = some (rc, rp) ∧
        attribPattern state "rel" = some (ac, ap) ∧
        (∀ k, k ∈ keysOf sp → k ∉ keysOf ep ∧ k ∉ keysOf rp ∧ k ∉ keysOf ap) ∧
        (∀ k, k ∈ keysOf ep → k ∉ keysOf sp ∧ k ∉ keysOf rp ∧ k ∉ keysOf ap) ∧
        (∀ k, k ∈ keysOf rp → k ∉ keysOf sp ∧ k ∉ keysOf ep ∧ k ∉ keysOf ap) ∧
        (∀ k, k ∈ keysOf ap → k ∉ keysOf sp ∧ k ∉ keysOf ep ∧ k ∉ keysOf rp) ∧
        (buildCreateQuery event).map (fun q => q.params) = some (sp ++ ep ++ rp ++ ap) ∧
        (buildUpdateQuery event).map (fun q => q.params) = some (sp ++ ep ++ rp ++ ap) ∧
        (sp ++ ep ++ rp ++ ap).length = sp.length + ep.length + rp.length + ap.length ∧
        ∀ k, (k ∈ keysOf sp → mapGet (sp ++ ep ++ rp ++ ap) k = mapGet sp k) ∧
          (k ∈ keysOf ep → mapGet (sp ++ ep ++ rp ++ ap) k = mapGet ep k) ∧
          (k ∈ keysOf rp → mapGet (sp ++ ep ++ rp ++ ap) k = mapGet rp k) ∧
          (k ∈ keysOf ap → mapGet (sp ++ ep ++ rp ++ ap) k = mapGet ap k)) ∧
    (∀ event : GoMap, wfNodeChange event = true →
      ∃ state np mp ap app,
        mapGet event "state" = some (Value.map state) ∧
        nodePattern event "n" = some (np, mp) ∧
        attribPattern state "n" = some (ap, app) ∧
        (∀ k, k ∈ keysOf mp → k ∉ keysOf app) ∧
        (∀ k, k ∈ keysOf app → k ∉ keysOf mp) ∧
        (buildCreateQuery event).map (fun q => q.params) = some (app ++ mp) ∧
        (app ++ mp).length = app.length + mp.length) := by
  constructor
  · intro event h
    obtain ⟨startBlock, endBlock, state, sc, sp, ec, ep, rc, rp, ac, ap, hsb, heb, hs, hsp,
      hep, hepn, hrp, hrpn, hap, hapn, hq⟩ := buildUpdateQuery_rel_eq event h
    obtain ⟨_, _, state2, sc2, sp2, ec2, ep2, rc2, rp2, ac2, ap2, hsb2, heb2, hs2, hsp2,
      hep2, _, hrp2, _, hap2, _, hq2⟩ := buildCreateQuery_rel_eq event h
    have fs := nodePattern_keys startBlock "start" sc sp hsp
    have fe := nodePattern_keys endBlock "end" ec ep hep
    have fr := relPattern_keys event "start" "rel" "end" rc rp hrp
    have fa := attribPattern_keys state "rel" ac ap hap
    have dse := disjoint_of_forms sp ep _ _ fs fe names_start_end
    have dsr := disjoint_of_forms sp rp _ _ fs fr names_start_rel
    have dsa := disjoint_of_forms sp ap _ _ fs fa names_start_value
    have der := disjoint_of_forms ep rp _ _ fe fr names_end_rel
    have dea := disjoint_of_forms ep ap _ _ fe fa names_end_value
    have dra := disjoint_of_forms rp ap _ _ fr fa names_rel_value
    have des : ∀ k, k ∈ keysOf ep → k ∉ keysOf sp := fun k h1 h2 => dse k h2 h1
    have drs : ∀ k, k ∈ keysOf rp → k ∉ keysOf sp := fun k h1 h2 => dsr k h2 h1
    have dre : ∀ k, k ∈ keysOf rp → k ∉ keysOf ep := fun k h1 h2 => der k h2 h1
    have das : ∀ k, k ∈ keysOf ap → k ∉ keysOf sp := fun k h1 h2 => dsa k h2 h1
    have dae : ∀ k, k ∈ keysOf ap → k ∉ keysOf ep := fun k h1 h2 => dea k h2 h1
    have dar : ∀ k, k ∈ keysOf ap → k ∉ keysOf rp := fun k h1 h2 => dra k h2 h1
    have e1 : mapsCopy sp ep = sp ++ ep := mapsCopy_disjoint ep hepn sp des
    have e2 : mapsCopy (sp ++ ep) rp = sp ++ ep ++ rp := by
      apply mapsCopy_disjoint rp hrpn
      intro k hk
      simp only [keysOf, List.map_append, List.mem_append, not_or]
      exact ⟨drs k hk, dre k hk⟩
    have e3 : mapsCopy (sp ++ ep ++ rp) ap = sp ++ ep ++ rp ++ ap := by
      apply mapsCopy_disjoint ap hapn
      intro k hk
      simp only [keysOf, List.map_append, List.mem_append, not_or]
      exact ⟨⟨das k hk, dae k hk⟩, dar k hk⟩
    have hst : state2 = state := by
      rw [hs] at hs2
      injection hs2 with h1
      injection h1 with h2
      exact h2.symm
    have hsbe : sp2 = sp ∧ ep2 = ep ∧ rp2 = rp ∧ ap2 = ap := by
      subst hst
      rw [hsb] at hsb2
      rw [heb] at heb2
      injection hsb2 with h1
      injection h1 with h1
      injection heb2 with h2
      injection h2 with h2
      subst h1
      subst h2
      rw [hsp] at hsp2
      rw [hep] at hep2
      rw [hrp] at hrp2
      rw [hap] at hap2
      injection hsp2 with h3
      injection hep2 with h4
      injection hrp2 with h5
      injection hap2 with h6
      injection h3 with _ h3
      injection h4 with _ h4
      injection h5 with _ h5
      injection h6 with _ h6
      exact ⟨h3.symm, h4.symm, h5.symm, h6.symm⟩
    obtain ⟨x1, x2, x3, x4⟩ := hsbe
    subst x1
    subst x2
    subst x3
    subst x4
    refine ⟨startBlock, endBlock, state, sc, sp2, ec, ep2, rc, rp2, ac, ap2, hsb, heb, hs, hsp,
      hep, hrp, hap, fun k hk => ⟨dse k hk, dsr k hk, dsa k hk⟩,
      fun k hk => ⟨des k hk, der k hk, dea k hk⟩,
      fun k hk => ⟨drs k hk, dre k hk, dra k hk⟩,
      fun k hk => ⟨das k hk, dae k hk, dar k hk⟩, ?_, ?_, ?_, ?_⟩
    · rw [hq2]
      simp only [Option.map_some', e1, e2, e3]
    · rw [hq]
      simp only [Option.map_some', e1, e2, e3]
    · simp only [List.length_append]
    · intro k
      refine ⟨?_, ?_, ?_, ?_⟩
      · intro hk
        simp [mapGet_append, mapGet_none_of_not_mem ep2 k (dse k hk),
          mapGet_none_of_not_mem rp2 k (dsr k hk), mapGet_none_of_not_mem ap2 k (dsa k hk)]
      · intro hk
        simp [mapGet_append, mapGet_none_of_not_mem sp2 k (des k hk),
          mapGet_none_of_not_mem rp2 k (der k hk), mapGet_none_of_not_mem ap2 k (dea k hk)]
      · intro hk
        simp [mapGet_append, mapGet_none_of_not_mem sp2 k (drs k hk),
          mapGet_none_of_not_mem ep2 k (dre k hk), mapGet_none_of_not_mem ap2 k (dra k hk)]
      · intro hk
        simp [mapGet_append, mapGet_none_of_not_mem sp2 k (das k hk),
          mapGet_none_of_not_mem ep2 k (dae k hk), mapGet_none_of_not_mem rp2 k (dar k hk)]
  · intro event h
    obtain ⟨state, after, np, mp, lp, ap, app, hs, _, hnp, hmpn, _, hap, _, hq⟩ :=
      buildCreateQuery_node_eq event h
    have fm := nodePattern_keys event "n" np mp hnp
    have fa := attribPattern_keys state "n" ap app hap
    have dma := disjoint_of_forms mp app _ _ fm fa names_node_value
    have dam : ∀ k, k ∈ keysOf app → k ∉ keysOf mp := fun k h1 h2 => dma k h2 h1
    refine ⟨state, np, mp, ap, app, hs, hnp, hap, dma, dam, ?_, by simp⟩
    rw [hq]
    simp [mapsCopy_disjoint mp hmpn app dma]

/-- C17 at the relationship update of scenario S3 and at the node create of
scenario S1. -/
theorem fragments_disjoint_witness :
    (wfRelChange s3Event = true ∧
      ∃ sp ep rp ap,
        (buildUpdateQuery s3Event).map (fun q => q.params) = some (sp ++ ep ++ rp ++ ap) ∧
        (∀ k, k ∈ keysOf sp → k ∉ keysOf ep ∧ k ∉ keysOf rp ∧ k ∉ keysOf ap)) ∧
    (wfNodeChange s1Event = true ∧
      ∃ mp app,
        (buildCreateQuery s1Event).map (fun q => q.params) = some (app ++ mp) ∧
        (∀ k, k ∈ keysOf mp → k ∉ keysOf app)) := by
  refine ⟨⟨by decide, ?_⟩, by decide, ?_⟩
  · obtain ⟨_, _, _, _, sp, _, ep, _, rp, _, ap, _, _, _, _, _, _, _, d, _, _, _, _, hq, _⟩ :=
      fragments_disjoint.1 s3Event (by decide)
    exact ⟨sp, ep, rp, ap, hq, d⟩
  · obtain ⟨_, _, mp, _, app, _, _, _, d, _, hq, _⟩ := fragments_disjoint.2 s1Event (by decide)
    exact ⟨mp, app, hq, d⟩

/-! ## The exact text of the patterns -/

theorem gatherKeys_empty_buckets (keys : GoMap) (h : ∀ p, p ∈ keys → p.2 = Value.map [])
    (attributes : GoMap) (labelString : String) :
    gatherKeys keys attributes labelString =
      some (attributes, (keysOf keys).foldl (fun text label => text ++ ":" ++ label)
        labelString) := by
  induction keys generalizing attributes labelString with
  | nil => rfl
  | cons p rest ih =>
    obtain ⟨label, attribs⟩ := p
    have h1 : attribs = Value.map [] := h (label, attribs) (by simp)
    subst h1
    simp only [gatherKeys, mapsCopy, keysOf, List.map_cons, List.foldl_cons]
    exact ih (fun q hq => h q (by simp [hq])) _ _

/-- C19, the claim as stated fails: on a keys block with the label buckets `Car`
and `Unique` and no key property `nodePattern` returns `(n:Car:Unique )`, with a
blank before the closing parenthesis, and not `(n:Car:Unique)`. -/
theorem nodePattern_no_properties_blank :
    nodePattern [("keys", Value.map [("Car", Value.map []), ("Unique", Value.map [])])] "n" =
      some ("(n:Car:Unique )", []) ∧
    "(n:Car:Unique )" ≠ "(n:Car:Unique)" := by
  exact ⟨by rfl, by decide⟩

/-- C19, amended: on every keys block whose label buckets hold no key property,
for every variable name `v` and every iteration order, `nodePattern` returns
`(` + `v` + `:L1:L2…` + ` )`, the labels in iteration order, no property block
and one blank before the closing parenthesis, together with an empty parameter
map. -/
theorem nodePattern_no_properties (order : GoMap → GoMap)
    (hp : ∀ m, (order m).Perm m) (block keys : GoMap) (v : String)
    (hk : mapGet block "keys" = some (Value.map keys))
    (he : ∀ p, p ∈ keys → p.2 = Value.map []) :
    nodePatternWith order block v =
      some ("(" ++ v ++ labelText (keysOf (order keys)) ++ " )", []) ∧
    nodePattern block v = some ("(" ++ v ++ labelText (keysOf keys) ++ " )", []) := by
  have ho : order [] = [] := List.Perm.eq_nil (hp [])
  have he2 : ∀ p, p ∈ order keys → p.2 = Value.map [] :=
    fun p h => he p ((hp keys).mem_iff.mp h)
  constructor
  · have hg := gatherKeys_empty_buckets (order keys) he2 [] ""
    simp only [nodePatternWith, hk, asMap, hg, ho, mergePairs, labelText]
    simp [String.append_assoc]
  · have hg := gatherKeys_empty_buckets keys he [] ""
    simp only [nodePattern, hk, asMap, hg, mergePairs, labelText]
    simp [String.append_assoc]

/-- The amended C19 at a keys block with two empty label buckets, visited in
reverse order. -/
theorem nodePattern_no_properties_witness :
    nodePatternWith List.reverse
        [("keys", Value.map [("Car", Value.map []), ("Unique", Value.map [])])] "n" =
      some ("(" ++ "n" ++ labelText ["Unique", "Car"] ++ " )", []) ∧
    nodePattern [("keys", Value.map [("Car", Value.map []), ("Unique", Value.map [])])] "n" =
      some ("(" ++ "n" ++ labelText ["Car", "Unique"] ++ " )", []) :=
  nodePattern_no_properties List.reverse (fun m => List.reverse_perm m)
    [("keys", Value.map [("Car", Value.map []), ("Unique", Value.map [])])]
    [("Car", Value.map []), ("Unique", Value.map [])] "n" rfl
    (by
      intro p h
      simp only [List.mem_cons, List.mem_singleton, List.not_mem_nil, or_false] at h
      rcases h with h | h <;> rw [h])

/-! ## Numbered parameters -/

theorem fresh_name (tmpl : String) (params : GoMap) (cnt : Nat)
    (h : ∀ k, k ∈ keysOf params → ∃ j, j < cnt ∧ k = tmpl ++ itoa j) :
    tmpl ++ itoa cnt ∉ keysOf params := by
  intro hm
  obtain ⟨j, hj, he⟩ := h _ hm
  have := itoa_injective cnt j (append_left_cancel tmpl _ _ he)
  omega

theorem numbered_step (tmpl : String) (params : GoMap) (cnt : Nat) (v : Value)
    (h : ∀ k, k ∈ keysOf params → ∃ j, j < cnt ∧ k = tmpl ++ itoa j) :
    mapSet params (tmpl ++ itoa cnt) v = params ++ [(tmpl ++ itoa cnt, v)] ∧
    ∀ k, k ∈ keysOf (params ++ [(tmpl ++ itoa cnt, v)]) →
      ∃ j, j < cnt + 1 ∧ k = tmpl ++ itoa j := by
  refine ⟨mapSet_fresh params _ v (fresh_name tmpl params cnt h), ?_⟩
  intro k hk
  simp only [keysOf, List.map_append, List.map_cons, List.map_nil, List.mem_append,
    List.mem_singleton] at hk
  rcases hk with hk | hk
  · obtain ⟨j, hj, he⟩ := h k hk
    exact ⟨j, by omega, he⟩
  · exact ⟨cnt, by omega, hk⟩

theorem relLoop_params (tmpl : String) (key : GoMap) (attrs : String) (params : GoMap)
    (cnt : Nat) (h : ∀ k, k ∈ keysOf params → ∃ j, j < cnt ∧ k = tmpl ++ itoa j) :
    (relLoop tmpl key attrs params cnt).2 = params ++ bindingsFrom tmpl cnt key := by
  induction key generalizing attrs params cnt with
  | nil => simp [relLoop, bindingsFrom]
  | cons p rest ih =>
    obtain ⟨k0, v0⟩ := p
    obtain ⟨h1, h2⟩ := numbered_step tmpl params cnt v0 h
    simp only [relLoop, bindingsFrom, h1]
    rw [ih _ _ _ h2]
    simp

theorem relLoop_attrs_length (tmpl : String) (key : GoMap) (attrs : String) (params : GoMap)
    (cnt : Nat) : attrs.length ≤ (relLoop tmpl key attrs params cnt).1.length := by
  induction key generalizing attrs params cnt with
  | nil => simp [relLoop]
  | cons p rest ih =>
    obtain ⟨k0, v0⟩ := p
    simp only [relLoop]
    refine Nat.le_trans ?_ (ih _ _ _)
    simp [String.length_append]

theorem relLoop_attrs_ne (tmpl : String) (key : GoMap) (params : GoMap) (cnt : Nat)
    (h : key ≠ []) : (relLoop tmpl key "" params cnt).1 ≠ "" := by
  cases key with
  | nil => exact absurd rfl h
  | cons p rest =>
    obtain ⟨k0, v0⟩ := p
    intro he
    have h1 := relLoop_attrs_length tmpl rest ("" ++ (k0 ++ ": " ++ (tmpl ++ itoa cnt)))
      (mapSet params (tmpl ++ itoa cnt) v0) (cnt + 1)
    simp only [relLoop] at he
    rw [he] at h1
    simp only [String.length_append] at h1
    have h2 : ": ".length = 2 := by decide
    have h3 : "".length = 0 := by decide
    omega

theorem mapGet_bindingsFrom (tmpl : String) (l : GoMap) (start i : Nat) (k : String)
    (v : Value) (h : l[i]? = some (k, v)) :
    mapGet (bindingsFrom tmpl start l) (tmpl ++ itoa (start + i)) = some v := by
  induction l generalizing start i with
  | nil => simp at h
  | cons p rest ih =>
    obtain ⟨k0, v0⟩ := p
    cases i with
    | zero =>
      simp only [List.getElem?_cons_zero, Option.some.injEq, Prod.mk.injEq] at h
      simp [bindingsFrom, mapGet, h.2]
    | succ i =>
      simp only [List.getElem?_cons_succ] at h
      have hne : ¬ tmpl ++ itoa start = tmpl ++ itoa (start + (i + 1)) := by
        intro he
        have := itoa_injective _ _ (append_left_cancel tmpl _ _ he)
        omega
      simp only [bindingsFrom, mapGet, hne, if_false]
      have := ih (start + 1) i h
      rw [show start + 1 + i = start + (i + 1) by omega] at this
      exact this

theorem length_bindingsFrom (tmpl : String) (l : GoMap) (start : Nat) :
    (bindingsFrom tmpl start l).length = l.length := by
  induction l generalizing start with
  | nil => rfl
  | cons p rest ih =>
    obtain ⟨k0, v0⟩ := p
    simp [bindingsFrom, ih]

/-- C18, the claim as stated fails: on the relationship of scenario S3 the
pattern is `(start)-[rel:OWNS {since: rel_rel_attr_0}]->(end)`, the parameter
name without `$`; with two key properties the pairs follow each other without a
separator; with an empty key the pattern is `(start)-[rel:OWNS ]->(end)`, with a
blank after the type. -/
theorem relPattern_text_differs :
    relPattern s3Event "start" "rel" "end" =
      some ("(start)-[rel:OWNS \x7bsince: rel_rel_attr_0\x7d]->(end)",
        [("rel_rel_attr_0", Value.int 2020)]) ∧
    "(start)-[rel:OWNS \x7bsince: rel_rel_attr_0\x7d]->(end)" ≠
      "(start)-[rel:OWNS \x7bsince: $rel_rel_attr_0\x7d]->(end)" ∧
    relPattern [("type", Value.str "OWNS"),
        ("key", Value.map [("since", Value.int 2020), ("via", Value.str "web")])]
        "start" "rel" "end" =
      some ("(start)-[rel:OWNS \x7bsince: rel_rel_attr_0via: rel_rel_attr_1\x7d]->(end)",
        [("rel_rel_attr_0", Value.int 2020), ("rel_rel_attr_1", Value.str "web")]) ∧
    relPattern relCreateEvent "start" "rel" "end" =
      some ("(start)-[rel:OWNS ]->(end)", []) ∧
    "(start)-[rel:OWNS ]->(end)" ≠ "(start)-[rel:OWNS]->(end)" := by
  exact ⟨by rfl, by decide, by rfl, by rfl, by decide⟩

/-- C18, amended: for every relationship event with type `T` and key map `K` and
every three variable names, `relPattern` returns `(s)-[r:T ]->(e)`, with a blank
after the type, and an empty parameter map when `K` is empty; when `K` is not
empty it returns `(s)-[r:T ` + a block in braces that is not empty + `]->(e)`,
and the parameter map binds `r_rel_attr_i` to the value of the `i`-th key of `K`
and nothing else. -/
theorem relPattern_text (event key : GoMap) (ty s r e : String)
    (hk : mapGet event "key" = some (Value.map key))
    (ht : mapGet event "type" = some (Value.str ty)) :
    (key = [] → relPattern event s r e =
      some ("(" ++ s ++ ")-[" ++ r ++ ":" ++ ty ++ " ]->(" ++ e ++ ")", [])) ∧
    (key ≠ [] → ∃ block, block ≠ "" ∧ relPattern event s r e =
      some ("(" ++ s ++ ")-[" ++ r ++ ":" ++ ty ++ " " ++ ("\x7b" ++ block ++ "\x7d") ++
        "]->(" ++ e ++ ")", bindingsFrom (r ++ "_rel_attr_") 0 key)) ∧
    (bindingsFrom (r ++ "_rel_attr_") 0 key).length = key.length ∧
    (∀ i k v, key[i]? = some (k, v) →
      mapGet (bindingsFrom (r ++ "_rel_attr_") 0 key) (r ++ "_rel_attr_" ++ itoa i) = some v) := by
  refine ⟨?_, ?_, length_bindingsFrom _ _ _, ?_⟩
  · intro h0
    subst h0
    have e1 : ∀ x : String, " " ++ ("" ++ ("]->(" ++ x)) = " ]->(" ++ x := fun x => by
      rw [empty_append, ← String.append_assoc]
      rfl
    simp [relPattern, hk, ht, asMap, asString, relLoop, String.append_assoc, e1]
  · intro h0
    have hp := relLoop_params (r ++ "_rel_attr_") key "" [] 0 (by simp [keysOf])
    have hn := relLoop_attrs_ne (r ++ "_rel_attr_") key [] 0 h0
    cases hl : relLoop (r ++ "_rel_attr_") key "" [] 0 with
    | mk attrs params =>
      rw [hl] at hp hn
      simp only [List.nil_append] at hp
      subst hp
      refine ⟨attrs, hn, ?_⟩
      simp only [relPattern, hk, ht, asMap, asString, hl]
      simp [hn]
  · intro i k v h
    have := mapGet_bindingsFrom (r ++ "_rel_attr_") key 0 i k v h
    simpa using this

/-- The amended C18 at the relationship of scenario S3. -/
theorem relPattern_text_witness :
    ∃ block, block ≠ "" ∧ relPattern s3Event "start" "rel" "end" =
      some ("(" ++ "start" ++ ")-[" ++ "rel" ++ ":" ++ "OWNS" ++ " " ++
        ("\x7b" ++ block ++ "\x7d") ++ "]->(" ++ "end" ++ ")",
        bindingsFrom ("rel" ++ "_rel_attr_") 0 [("since", Value.int 2020)]) :=
  (relPattern_text s3Event [("since", Value.int 2020)] "OWNS" "start" "rel" "end" rfl rfl).2.1
    (by simp)

/-! ## The attribute diff -/

theorem goEq_scalar (oldVal newVal : Value) (h : isScalar newVal = true) :
    (goEq oldVal newVal = some true ∨ goEq oldVal newVal = some false) ∧
    (goEq oldVal newVal = some true ↔ oldVal = newVal) := by
  cases newVal <;> cases oldVal <;> simp [isScalar, goEq] at h ⊢ <;> exact Classical.em _

theorem comparable_of_scalar (existing props : GoMap)
    (h : ∀ p, p ∈ props → isScalar p.2 = true) : props.all (comparable existing) = true := by
  rw [List.all_eq_true]
  intro p hp
  unfold comparable
  cases hg : mapGet existing p.1 with
  | none => rfl
  | some oldVal =>
    rcases (goEq_scalar oldVal p.2 (h p hp)).1 with h1 | h1 <;> simp [h1]

theorem attribLoop_spec (v : String) (existing props : GoMap)
    (hc : props.all (comparable existing) = true) (strs : List String) (params : GoMap)
    (cnt : Nat)
    (hn : ∀ k, k ∈ keysOf params → ∃ j, j < cnt ∧ k = v ++ "_value_" ++ itoa j) :
    attribLoop v (v ++ "_value_") existing props strs params cnt =
      some (strs ++ assignmentsFrom v cnt (props.filter (changed existing)),
        params ++ bindingsFrom (v ++ "_value_") cnt (props.filter (changed existing))) := by
  induction props generalizing strs params cnt with
  | nil => simp [attribLoop, assignmentsFrom, bindingsFrom]
  | cons p rest ih =>
    obtain ⟨k, newVal⟩ := p
    simp only [List.all_cons, Bool.and_eq_true] at hc
    obtain ⟨hc1, hc2⟩ := hc
    obtain ⟨h1, h2⟩ := numbered_step (v ++ "_value_") params cnt newVal hn
    have emit : changed existing (k, newVal) = true →
        attribLoop v (v ++ "_value_") existing rest
          (strs ++ [v ++ "." ++ k ++ "=$" ++ (v ++ "_value_" ++ itoa cnt)])
          (mapSet params (v ++ "_value_" ++ itoa cnt) newVal) (cnt + 1) =
        some (strs ++ assignmentsFrom v cnt (List.filter (changed existing) ((k, newVal) :: rest)),
          params ++ bindingsFrom (v ++ "_value_") cnt
            (List.filter (changed existing) ((k, newVal) :: rest))) := by
      intro hch
      rw [h1, ih hc2 _ _ _ h2]
      simp [List.filter_cons, hch, assignmentsFrom, bindingsFrom]
    simp only [attribLoop]
    cases hg : mapGet existing k with
    | none =>
      simp only []
      exact emit (by simp [changed, hg])
    | some oldVal =>
      simp only [comparable, hg] at hc1
      cases he : goEq oldVal newVal with
      | none => simp [he] at hc1
      | some b =>
        cases b
        · simp only [he]
          exact emit (by simp [changed, hg, he])
        · simp only [he]
          rw [ih hc2 _ _ _ hn]
          have hch : changed existing (k, newVal) = false := by simp [changed, hg, he]
          simp [List.filter_cons, hch]

theorem getElem?_assignmentsFrom (v : String) (l : GoMap) (start i : Nat) (k : String)
    (val : Value) (h : l[i]? = some (k, val)) :
    (assignmentsFrom v start l)[i]? =
      some (v ++ "." ++ k ++ "=$" ++ (v ++ "_value_" ++ itoa (start + i))) := by
  induction l generalizing start i with
  | nil => simp at h
  | cons p rest ih =>
    obtain ⟨k0, v0⟩ := p
    cases i with
    | zero =>
      simp only [List.getElem?_cons_zero, Option.some.injEq, Prod.mk.injEq] at h
      simp [assignmentsFrom, h.1]
    | succ i =>
      simp only [List.getElem?_cons_succ] at h
      simp only [assignmentsFrom, List.getElem?_cons_succ]
      rw [ih (start + 1) i h, show start + 1 + i = start + (i + 1) by omega]

theorem length_assignmentsFrom (v : String) (l : GoMap) (start : Nat) :
    (assignmentsFrom v start l).length = l.length := by
  induction l generalizing start with
  | nil => rfl
  | cons p rest ih =>
    obtain ⟨k0, v0⟩ := p
    simp [assignmentsFrom, ih]

/-- C11: for every state block whose `after` properties are scalars and every
variable name `v`, the entries that `attribPattern` assigns are, in iteration
order, the entries `(k, val)` of `after.properties` such that `k` is absent from
`before.properties` or its value there is not `val`; when `before` is absent or
null these are all the entries of `after.properties`; the `i`-th of them is
written `v.k=$v_value_i` and `v_value_i` is bound to `val`; the assignments are
joined by `, `; the parameter map has one entry for each of them and no other. -/
theorem attribPattern_diff (state after props existing : GoMap) (v : String)
    (ha : mapGet state "after" = some (Value.map after))
    (hp : mapGet after "properties" = some (Value.map props))
    (hex : existingOf state = some existing)
    (hs : ∀ p, p ∈ props → isScalar p.2 = true) :
    attribPattern state v = some
      (stringsJoin (assignmentsFrom v 0 (props.filter (changed existing))) ", ",
        bindingsFrom (v ++ "_value_") 0 (props.filter (changed existing))) ∧
    (∀ k val, (k, val) ∈ props.filter (changed existing) ↔
      (k, val) ∈ props ∧
        (mapGet existing k = none ∨ ∃ oldVal, mapGet existing k = some oldVal ∧ oldVal ≠ val)) ∧
    (mapGet state "before" = none ∨ mapGet state "before" = some Value.null →
      props.filter (changed existing) = props) ∧
    (assignmentsFrom v 0 (props.filter (changed existing))).length =
      (props.filter (changed existing)).length ∧
    (bindingsFrom (v ++ "_value_") 0 (props.filter (changed existing))).length =
      (props.filter (changed existing)).length ∧
    (∀ i k val, (props.filter (changed existing))[i]? = some (k, val) →
      (assignmentsFrom v 0 (props.filter (changed existing)))[i]? =
        some (v ++ "." ++ k ++ "=$" ++ (v ++ "_value_" ++ itoa i)) ∧
      mapGet (bindingsFrom (v ++ "_value_") 0 (props.filter (changed existing)))
        (v ++ "_value_" ++ itoa i) = some val) := by
  have hiff : ∀ k val, (k, val) ∈ props.filter (changed existing) ↔
      (k, val) ∈ props ∧
        (mapGet existing k = none ∨
          ∃ oldVal, mapGet existing k = some oldVal ∧ oldVal ≠ val) := by
    intro k val
    rw [List.mem_filter]
    constructor
    · rintro ⟨hm, hch⟩
      refine ⟨hm, ?_⟩
      unfold changed at hch
      cases hg : mapGet existing k with
      | none => exact Or.inl rfl
      | some oldVal =>
        refine Or.inr ⟨oldVal, rfl, ?_⟩
        intro heq
        simp only [hg] at hch
        have := (goEq_scalar oldVal val (hs (k, val) hm)).2.mpr heq
        simp [this] at hch
    · rintro ⟨hm, hch⟩
      refine ⟨hm, ?_⟩
      unfold changed
      rcases hch with hg | ⟨oldVal, hg, hne⟩
      · simp [hg]
      · simp only [hg]
        rcases (goEq_scalar oldVal val (hs (k, val) hm)).1 with h1 | h1
        · exact absurd ((goEq_scalar oldVal val (hs (k, val) hm)).2.mp h1) hne
        · simp [h1]
  refine ⟨?_, hiff, ?_, length_assignmentsFrom _ _ _, length_bindingsFrom _ _ _, ?_⟩
  · have hl := attribLoop_spec v existing props (comparable_of_scalar existing props hs) [] [] 0
      (by simp [keysOf])
    simp only [attribPattern, ha, asMap, hex, hp, hl, List.nil_append]
  · intro hb
    have he : existing = [] := by
      unfold existingOf at hex
      rcases hb with hb | hb <;> simp [hb] at hex <;> exact hex
    subst he
    rw [List.filter_eq_self]
    intro p _
    simp [changed, mapGet]
  · intro i k val h
    refine ⟨?_, ?_⟩
    · have := getElem?_assignmentsFrom v _ 0 i k val h
      simpa using this
    · have := mapGet_bindingsFrom (v ++ "_value_") _ 0 i k val h
      simpa using this

/-- C11 at a state block that keeps `color`, changes `doors` and adds `year`, with
a property `owner` held by `before` only. -/
theorem attribPattern_diff_witness :
    attribPattern mixedDiffState "n" = some ("n.doors=$n_value_0, n.year=$n_value_1",
        [("n_value_0", Value.int 5), ("n_value_1", Value.int 1999)]) ∧
    attribPattern mixedDiffState "n" = some
      (stringsJoin (assignmentsFrom "n" 0
          ([("color", Value.str "red"), ("doors", Value.int 5), ("year", Value.int 1999)].filter
            (changed [("color", Value.str "red"), ("doors", Value.int 3),
              ("owner", Value.str "P")]))) ", ",
        bindingsFrom ("n" ++ "_value_") 0
          ([("color", Value.str "red"), ("doors", Value.int 5), ("year", Value.int 1999)].filter
            (changed [("color", Value.str "red"), ("doors", Value.int 3),
              ("owner", Value.str "P")]))) :=
  ⟨by rfl,
    (attribPattern_diff mixedDiffState
      [("properties", Value.map
        [("color", Value.str "red"), ("doors", Value.int 5), ("year", Value.int 1999)])]
      [("color", Value.str "red"), ("doors", Value.int 5), ("year", Value.int 1999)]
      [("color", Value.str "red"), ("doors", Value.int 3), ("owner", Value.str "P")]
      "n" rfl rfl rfl
      (by
        intro p h
        simp only [List.mem_cons, List.mem_singleton, List.not_mem_nil, or_false] at h
        rcases h with h | h | h <;> rw [h] <;> rfl)).1⟩

/-! ## The parameters of the node pattern -/

theorem mergePairs_spec (tmpl : String) (attributes : GoMap) (pairs : List String)
    (params : GoMap) (cnt : Nat)
    (hn : ∀ k, k ∈ keysOf params → ∃ j, j < cnt ∧ k = tmpl ++ itoa j) :
    mergePairs tmpl attributes pairs params cnt =
      (pairs ++ pairsFrom tmpl cnt attributes, params ++ bindingsFrom tmpl cnt attributes) := by
  induction attributes generalizing pairs params cnt with
  | nil => simp [mergePairs, pairsFrom, bindingsFrom]
  | cons p rest ih =>
    obtain ⟨k, val⟩ := p
    obtain ⟨h1, h2⟩ := numbered_step tmpl params cnt val hn
    simp only [mergePairs, h1]
    rw [ih _ _ _ h2]
    simp [pairsFrom, bindingsFrom]

theorem nodup_mapsCopy (src dst : GoMap) (h : (keysOf dst).Nodup) :
    (keysOf (mapsCopy dst src)).Nodup := by
  induction src generalizing dst with
  | nil => simpa [mapsCopy] using h
  | cons p rest ih =>
    obtain ⟨k, v⟩ := p
    simp only [mapsCopy]
    exact ih _ (nodup_mapSet dst k v h)

theorem mem_keysOf_iff (m : GoMap) (k : String) :
    k ∈ keysOf m ↔ ∃ v, mapGet m k = some v := by
  induction m with
  | nil => simp [keysOf, mapGet]
  | cons p rest ih =>
    obtain ⟨k0, v0⟩ := p
    by_cases h : k0 = k
    · subst h
      simp [keysOf, mapGet]
    · have h2 : ¬ k = k0 := fun e => h e.symm
      simp only [keysOf, List.map_cons, List.mem_cons, h2, false_or, mapGet, h, if_false]
      simpa [keysOf] using ih

theorem mapGet_of_mem (m : GoMap) (hn : (keysOf m).Nodup) (k : String) (v : Value)
    (h : (k, v) ∈ m) : mapGet m k = some v := by
  induction m with
  | nil => simp at h
  | cons p rest ih =>
    obtain ⟨k0, v0⟩ := p
    simp only [keysOf, List.map_cons, List.nodup_cons] at hn
    simp only [List.mem_cons, Prod.mk.injEq] at h
    rcases h with ⟨h1, h2⟩ | h
    · subst h1
      subst h2
      simp [mapGet]
    · have hk : k ∈ List.map Prod.fst rest := List.mem_map.mpr ⟨(k, v), h, rfl⟩
      have hne : ¬ k0 = k := by
        intro e
        subst e
        exact hn.1 hk
      simp only [mapGet, hne, if_false]
      exact ih hn.2 h

theorem lastBinding_some_iff (k : String) (keys : GoMap) :
    (∃ v, lastBinding k keys = some v) ↔
      ∃ label bucket, (label, Value.map bucket) ∈ keys ∧ k ∈ keysOf bucket := by
  induction keys with
  | nil => simp [lastBinding]
  | cons p rest ih =>
    obtain ⟨label, b⟩ := p
    constructor
    · rintro ⟨v, hv⟩
      simp only [lastBinding] at hv
      cases hr : lastBinding k rest with
      | some w =>
        obtain ⟨l2, b2, hm, hk⟩ := ih.mp ⟨w, hr⟩
        exact ⟨l2, b2, List.mem_cons_of_mem _ hm, hk⟩
      | none =>
        simp only [hr] at hv
        cases b with
        | map bucket =>
          simp only [] at hv
          exact ⟨label, bucket, List.mem_cons_self _ _, (mem_keysOf_iff bucket k).mpr ⟨v, hv⟩⟩
        | _ => simp at hv
    · rintro ⟨l2, b2, hm, hk⟩
      simp only [lastBinding]
      cases hr : lastBinding k rest with
      | some w => exact ⟨w, rfl⟩
      | none =>
        simp only []
        simp only [List.mem_cons, Prod.mk.injEq] at hm
        rcases hm with ⟨_, h2⟩ | hm
        · subst h2
          exact (mem_keysOf_iff b2 k).mp hk
        · have := ih.mpr ⟨l2, b2, hm, hk⟩
          rw [hr] at this
          simp at this

theorem gatherKeys_spec (keys : GoMap) (hd : distinctBuckets keys = true)
    (attrs : GoMap) (ls : String) (hn : (keysOf attrs).Nodup) :
    ∃ attributes, gatherKeys keys attrs ls =
        some (attributes, (keysOf keys).foldl (fun text label => text ++ ":" ++ label) ls) ∧
      (keysOf attributes).Nodup ∧
      ∀ k, mapGet attributes k = (lastBinding k keys).orElse (fun _ => mapGet attrs k) := by
  induction keys generalizing attrs ls with
  | nil => exact ⟨attrs, rfl, hn, fun k => by simp [lastBinding]⟩
  | cons p rest ih =>
    obtain ⟨label, b⟩ := p
    simp only [distinctBuckets, List.all_cons, Bool.and_eq_true] at hd
    obtain ⟨h1, h2⟩ := hd
    cases b with
    | map bucket =>
      simp only [decide_eq_true_eq] at h1
      obtain ⟨attributes, hg, hnd, hl⟩ := ih h2 (mapsCopy attrs bucket)
        (ls ++ ":" ++ label) (nodup_mapsCopy bucket attrs hn)
      refine ⟨attributes, ?_, hnd, ?_⟩
      · simp only [gatherKeys, keysOf, List.map_cons, List.foldl_cons]
        exact hg
      · intro k
        rw [hl k, mapGet_mapsCopy bucket h1 attrs k]
        simp only [lastBinding]
        cases lastBinding k rest <;> simp
    | _ => simp at h1

theorem getElem?_pairsFrom (tmpl : String) (l : GoMap) (start i : Nat) (k : String)
    (val : Value) (h : l[i]? = some (k, val)) :
    (pairsFrom tmpl start l)[i]? = some (k ++ ": $" ++ (tmpl ++ itoa (start + i))) := by
  induction l generalizing start i with
  | nil => simp at h
  | cons p rest ih =>
    obtain ⟨k0, v0⟩ := p
    cases i with
    | zero =>
      simp only [List.getElem?_cons_zero, Option.some.injEq, Prod.mk.injEq] at h
      simp [pairsFrom, h.1]
    | succ i =>
      simp only [List.getElem?_cons_succ] at h
      simp only [pairsFrom, List.getElem?_cons_succ]
      rw [ih (start + 1) i h, show start + 1 + i = start + (i + 1) by omega]

theorem length_pairsFrom (tmpl : String) (l : GoMap) (start : Nat) :
    (pairsFrom tmpl start l).length = l.length := by
  induction l generalizing start with
  | nil => rfl
  | cons p rest ih =>
    obtain ⟨k0, v0⟩ := p
    simp [pairsFrom, ih]

/-- C20: for every keys block whose buckets are maps, every variable name `v` and
every iteration order, the `attributes` map that `nodePattern` builds holds one
entry per distinct key-property name of the label buckets, bound to the value of
the bucket visited last among those that hold the name; the parameter map has
one entry per entry of `attributes`, named `v_merge_value_0`, `v_merge_value_1`,
… in the order in which `attributes` is visited; and the `i`-th pair of the
property block is `name: $v_merge_value_i`, whose parameter is bound to the value
of that property. -/
theorem nodePattern_parameters (order : GoMap → GoMap) (hp : ∀ m, (order m).Perm m)
    (block keys : GoMap) (v : String)
    (hk : mapGet block "keys" = some (Value.map keys))
    (hd : distinctBuckets keys = true) :
    ∃ attributes labelString,
      gatherKeys (order keys) [] "" = some (attributes, labelString) ∧
      (keysOf attributes).Nodup ∧
      (∀ k, mapGet attributes k = lastBinding k (order keys)) ∧
      (∀ k, k ∈ keysOf attributes ↔
        ∃ label bucket, (label, Value.map bucket) ∈ keys ∧ k ∈ keysOf bucket) ∧
      nodePatternWith order block v = some
        ("(" ++ v ++ labelString ++ " " ++
          (if (pairsFrom (v ++ "_merge_value_") 0 (order attributes)).length > 0 then
            "\x7b" ++ stringsJoin (pairsFrom (v ++ "_merge_value_") 0 (order attributes)) ", "
              ++ "\x7d"
          else "") ++ ")",
          bindingsFrom (v ++ "_merge_value_") 0 (order attributes)) ∧
      (bindingsFrom (v ++ "_merge_value_") 0 (order attributes)).length = attributes.length ∧
      (pairsFrom (v ++ "_merge_value_") 0 (order attributes)).length = attributes.length ∧
      ∀ i k val, (order attributes)[i]? = some (k, val) →
        (pairsFrom (v ++ "_merge_value_") 0 (order attributes))[i]? =
          some (k ++ ": $" ++ (v ++ "_merge_value_" ++ itoa i)) ∧
        mapGet (bindingsFrom (v ++ "_merge_value_") 0 (order attributes))
          (v ++ "_merge_value_" ++ itoa i) = some val ∧
        lastBinding k (order keys) = some val := by
  have hd2 : distinctBuckets (order keys) = true := by
    unfold distinctBuckets at hd ⊢
    rw [List.all_eq_true] at hd ⊢
    intro p hpm
    exact hd p ((hp keys).mem_iff.mp hpm)
  obtain ⟨attributes, hg, hnd, hl⟩ := gatherKeys_spec (order keys) hd2 [] "" (by simp [keysOf])
  have hl2 : ∀ k, mapGet attributes k = lastBinding k (order keys) := by
    intro k
    rw [hl k]
    cases lastBinding k (order keys) <;> simp [mapGet]
  refine ⟨attributes, _, hg, hnd, hl2, ?_, ?_, ?_, ?_, ?_⟩
  · intro k
    rw [mem_keysOf_iff, hl2 k, lastBinding_some_iff]
    constructor
    · rintro ⟨label, bucket, hm, hkb⟩
      exact ⟨label, bucket, (hp keys).mem_iff.mp hm, hkb⟩
    · rintro ⟨label, bucket, hm, hkb⟩
      exact ⟨label, bucket, (hp keys).mem_iff.mpr hm, hkb⟩
  · have hm := mergePairs_spec (v ++ "_merge_value_") (order attributes) [] [] 0
      (by simp [keysOf])
    simp only [List.nil_append] at hm
    simp only [nodePatternWith, hk, asMap, hg, hm]
  · rw [length_bindingsFrom, (hp attributes).length_eq]
  · rw [length_pairsFrom, (hp attributes).length_eq]
  · intro i k val h
    refine ⟨?_, ?_, ?_⟩
    · have := getElem?_pairsFrom (v ++ "_merge_value_") _ 0 i k val h
      simpa using this
    · have := mapGet_bindingsFrom (v ++ "_merge_value_") _ 0 i k val h
      simpa using this
    · rw [← hl2 k]
      apply mapGet_of_mem attributes hnd
      exact (hp attributes).mem_iff.mp (List.getElem?_mem h)

/-- C20 at a keys block whose buckets `Car` and `Unique` share the property `id`:
visited in list order the value of `Unique` is bound, visited in reverse order
the value of `Car`. -/
theorem nodePattern_parameters_witness :
    nodePatternWith id sharedKeyBlock "n" = some
      ("(n:Car:Unique \x7bid: $n_merge_value_0, vin: $n_merge_value_1\x7d)",
        [("n_merge_value_0", Value.str "B"), ("n_merge_value_1", Value.str "V")]) ∧
    nodePatternWith List.reverse sharedKeyBlock "n" = some
      ("(n:Unique:Car \x7bvin: $n_merge_value_0, id: $n_merge_value_1\x7d)",
        [("n_merge_value_0", Value.str "V"), ("n_merge_value_1", Value.str "A")]) ∧
    ∃ attributes labelString,
      gatherKeys (List.reverse
        [("Car", Value.map [("id", Value.str "A"), ("vin", Value.str "V")]),
         ("Unique", Value.map [("id", Value.str "B")])]) [] "" =
        some (attributes, labelString) ∧
      nodePatternWith List.reverse sharedKeyBlock "n" = some
        ("(" ++ "n" ++ labelString ++ " " ++
          (if (pairsFrom ("n" ++ "_merge_value_") 0 (List.reverse attributes)).length > 0 then
            "\x7b" ++ stringsJoin (pairsFrom ("n" ++ "_merge_value_") 0
              (List.reverse attributes)) ", " ++ "\x7d"
          else "") ++ ")",
          bindingsFrom ("n" ++ "_merge_value_") 0 (List.reverse attributes)) := by
  refine ⟨by rfl, by rfl, ?_⟩
  obtain ⟨attributes, labelString, hg, _, _, _, hq, _⟩ :=
    nodePattern_parameters List.reverse (fun m => List.reverse_perm m) sharedKeyBlock
      [("Car", Value.map [("id", Value.str "A"), ("vin", Value.str "V")]),
       ("Unique", Value.map [("id", Value.str "B")])] "n" rfl (by decide)
  exact ⟨attributes, labelString, hg, hq⟩

/-! ## Iteration order and determinism -/

theorem order_small (order : GoMap → GoMap) (hp : ∀ m, (order m).Perm m) (m : GoMap)
    (hm : m.length ≤ 1) : order m = m := by
  have h := hp m
  match m, hm with
  | [], _ => exact List.Perm.eq_nil h
  | [a], _ => exact List.perm_singleton.mp h

theorem nodePatternWith_id (block : GoMap) (v : String) :
    nodePatternWith id block v = nodePattern block v := rfl

theorem relPatternWith_id (event : GoMap) (s r e : String) :
    relPatternWith id event s r e = relPattern event s r e := rfl

theorem attribPatternWith_id (state : GoMap) (v : String) :
    attribPatternWith id state v = attribPattern state v := rfl

theorem gatherKeys_small (keys : GoMap) (h1 : keys.length ≤ 1)
    (h2 : keys.all (fun p =>
      match p.2 with
      | Value.map b => decide (b.length ≤ 1)
      | _ => true) = true)
    (attributes : GoMap) (ls : String) (hg : gatherKeys keys [] "" = some (attributes, ls)) :
    attributes.length ≤ 1 := by
  match keys, h1 with
  | [], _ =>
    simp only [gatherKeys, Option.some.injEq, Prod.mk.injEq] at hg
    rw [← hg.1]
    simp
  | [(label, b)], _ =>
    cases b with
    | map bucket =>
      simp only [List.all_cons, List.all_nil, Bool.and_true, decide_eq_true_eq] at h2
      simp only [gatherKeys, Option.some.injEq, Prod.mk.injEq] at hg
      rw [← hg.1]
      match bucket, h2 with
      | [], _ => simp [mapsCopy]
      | [(k, v)], _ => simp [mapsCopy, mapSet]
    | _ => simp [gatherKeys] at hg

theorem nodePatternWith_small (order : GoMap → GoMap) (hp : ∀ m, (order m).Perm m)
    (block : GoMap) (v : String) (h : smallKeys block = true) :
    nodePatternWith order block v = nodePattern block v := by
  unfold smallKeys at h
  unfold nodePatternWith nodePattern
  cases hk : asMap (mapGet block "keys") with
  | none => rfl
  | some keys =>
    simp only [hk, Bool.and_eq_true, decide_eq_true_eq] at h
    simp only [order_small order hp keys h.1]
    cases hg : gatherKeys keys [] "" with
    | none => rfl
    | some r =>
      obtain ⟨attributes, ls⟩ := r
      simp only [order_small order hp attributes (gatherKeys_small keys h.1 h.2 attributes ls hg)]

theorem relPatternWith_small (order : GoMap → GoMap) (hp : ∀ m, (order m).Perm m)
    (event : GoMap) (s r e : String) (h : smallRelKey event = true) :
    relPatternWith order event s r e = relPattern event s r e := by
  unfold smallRelKey at h
  unfold relPatternWith relPattern
  cases hk : asMap (mapGet event "key") with
  | none => rfl
  | some key =>
    simp only [hk, decide_eq_true_eq] at h
    simp only [order_small order hp key h]

theorem attribPatternWith_small (order : GoMap → GoMap) (hp : ∀ m, (order m).Perm m)
    (state : GoMap) (v : String) (h : smallState state = true) :
    attribPatternWith order state v = attribPattern state v := by
  unfold smallState at h
  unfold attribPatternWith attribPattern
  cases ha : asMap (mapGet state "after") with
  | none => rfl
  | some after =>
    simp only [ha] at h
    cases hex : existingOf state with
    | none => rfl
    | some existing =>
      cases hpr : asMap (mapGet after "properties") with
      | none => simp only [hpr]
      | some props =>
        simp only [hpr, decide_eq_true_eq] at h
        simp only [hpr, order_small order hp props h]

theorem smallEvent_elim (event : GoMap) (h : smallEvent event = true) :
    smallKeys event = true ∧ smallRelKey event = true ∧
    (∀ b, asMap (mapGet event "start") = some b → smallKeys b = true) ∧
    (∀ b, asMap (mapGet event "end") = some b → smallKeys b = true) ∧
    (∀ st, asMap (mapGet event "state") = some st → smallState st = true) := by
  unfold smallEvent at h
  simp only [Bool.and_eq_true] at h
  obtain ⟨⟨⟨⟨h1, h2⟩, h3⟩, h4⟩, h5⟩ := h
  refine ⟨h1, h4, ?_, ?_, ?_⟩
  · intro b hb
    simpa [smallBlock, hb] using h2
  · intro b hb
    simpa [smallBlock, hb] using h3
  · intro st hst
    simpa [hst] using h5

theorem buildDeleteQueryWith_small (order : GoMap → GoMap) (hp : ∀ m, (order m).Perm m)
    (event : GoMap) (h : smallEvent event = true) :
    buildDeleteQueryWith order event = buildDeleteQuery event := by
  obtain ⟨hk, hr, hs, he, _⟩ := smallEvent_elim event h
  have e0 := nodePatternWith_small order hp event "n" hk
  have e3 := relPatternWith_small order hp event "start" "rel" "end" hr
  unfold buildDeleteQueryWith buildDeleteQuery
  rw [e0, e3]
  cases hsb : asMap (mapGet event "start") with
  | none => simp
  | some sb =>
    have e1 := nodePatternWith_small order hp sb "start" (hs sb hsb)
    cases heb : asMap (mapGet event "end") with
    | none => simp
    | some eb =>
      have e2 := nodePatternWith_small order hp eb "end" (he eb heb)
      simp [e1, e2]

theorem buildUpdateQueryWith_small (order : GoMap → GoMap) (hp : ∀ m, (order m).Perm m)
    (event : GoMap) (h : smallEvent event = true) :
    buildUpdateQueryWith order event = buildUpdateQuery event := by
  obtain ⟨hk, hr, hs, he, hst⟩ := smallEvent_elim event h
  have e0 := nodePatternWith_small order hp event "n" hk
  have e3 := relPatternWith_small order hp event "start" "rel" "end" hr
  unfold buildUpdateQueryWith buildUpdateQuery
  rw [e0, e3]
  cases hstate : asMap (mapGet event "state") with
  | none => simp
  | some st =>
    have e4 := attribPatternWith_small order hp st "rel" (hst st hstate)
    have e5 := attribPatternWith_small order hp st "n" (hst st hstate)
    cases hsb : asMap (mapGet event "start") with
    | none => simp [e5]
    | some sb =>
      have e1 := nodePatternWith_small order hp sb "start" (hs sb hsb)
      cases heb : asMap (mapGet event "end") with
      | none => simp [e5]
      | some eb =>
        have e2 := nodePatternWith_small order hp eb "end" (he eb heb)
        simp [e1, e2, e4, e5]

theorem buildCreateQueryWith_small (order : GoMap → GoMap) (hp : ∀ m, (order m).Perm m)
    (event : GoMap) (h : smallEvent event = true) :
    buildCreateQueryWith order event = buildCreateQuery event := by
  obtain ⟨hk, hr, hs, he, hst⟩ := smallEvent_elim event h
  have e0 := nodePatternWith_small order hp event "n" hk
  have e3 := relPatternWith_small order hp event "start" "rel" "end" hr
  unfold buildCreateQueryWith buildCreateQuery
  rw [e0, e3]
  cases hstate : asMap (mapGet event "state") with
  | none => simp
  | some st =>
    have e4 := attribPatternWith_small order hp st "rel" (hst st hstate)
    have e5 := attribPatternWith_small order hp st "n" (hst st hstate)
    cases hsb : asMap (mapGet event "start") with
    | none => simp [e5]
    | some sb =>
      have e1 := nodePatternWith_small order hp sb "start" (hs sb hsb)
      cases heb : asMap (mapGet event "end") with
      | none => simp [e5]
      | some eb =>
        have e2 := nodePatternWith_small order hp eb "end" (he eb heb)
        simp [e1, e2, e4, e5]

/-- C12, the claim as stated fails: on a node delete whose label buckets `Car`
and `Unique` share the property `id`, the composer that visits the maps in list
order and the one that visits them in reverse order return different texts and
parameter maps that bind different values; both orders are permutations, which
the runtime may choose. -/
theorem compose_depends_on_order :
    buildDeleteQueryWith id sharedKeyDelete = some
      ⟨"MATCH (n:Car:Unique \x7bid: $n_merge_value_0, vin: $n_merge_value_1\x7d)\nDETACH DELETE n\n",
        [("n_merge_value_0", Value.str "B"), ("n_merge_value_1", Value.str "V")], none⟩ ∧
    buildDeleteQueryWith List.reverse sharedKeyDelete = some
      ⟨"MATCH (n:Unique:Car \x7bvin: $n_merge_value_0, id: $n_merge_value_1\x7d)\nDETACH DELETE n\n",
        [("n_merge_value_0", Value.str "V"), ("n_merge_value_1", Value.str "A")], none⟩ ∧
    "MATCH (n:Car:Unique \x7bid: $n_merge_value_0, vin: $n_merge_value_1\x7d)\nDETACH DELETE n\n" ≠
      "MATCH (n:Unique:Car \x7bvin: $n_merge_value_0, id: $n_merge_value_1\x7d)\nDETACH DELETE n\n" ∧
    (∀ m : GoMap, (id m).Perm m) ∧ (∀ m : GoMap, (List.reverse m).Perm m) ∧
    buildDeleteQuery sharedKeyDelete = buildDeleteQueryWith id sharedKeyDelete := by
  exact ⟨by rfl, by rfl, by decide, fun m => List.Perm.refl m, fun m => List.reverse_perm m,
    by rfl⟩

/-- C12, amended: on every event in which each map that the composers iterate
(the label buckets of a keys block, its key properties, the relationship key,
`after.properties`) holds at most one entry, `buildCreateQuery`,
`buildUpdateQuery` and `buildDeleteQuery` return the same query, the same
parameter map and the same error in every iteration order. -/
theorem compose_deterministic_small (order₁ order₂ : GoMap → GoMap)
    (h₁ : ∀ m, (order₁ m).Perm m) (h₂ : ∀ m, (order₂ m).Perm m)
    (event : GoMap) (h : smallEvent event = true) :
    buildCreateQueryWith order₁ event = buildCreateQueryWith order₂ event ∧
    buildUpdateQueryWith order₁ event = buildUpdateQueryWith order₂ event ∧
    buildDeleteQueryWith order₁ event = buildDeleteQueryWith order₂ event ∧
    buildCreateQueryWith order₁ event = buildCreateQuery event ∧
    buildUpdateQueryWith order₁ event = buildUpdateQuery event ∧
    buildDeleteQueryWith order₁ event = buildDeleteQuery event := by
  refine ⟨?_, ?_, ?_, buildCreateQueryWith_small order₁ h₁ event h,
    buildUpdateQueryWith_small order₁ h₁ event h, buildDeleteQueryWith_small order₁ h₁ event h⟩
  · rw [buildCreateQueryWith_small order₁ h₁ event h, buildCreateQueryWith_small order₂ h₂ event h]
  · rw [buildUpdateQueryWith_small order₁ h₁ event h, buildUpdateQueryWith_small order₂ h₂ event h]
  · rw [buildDeleteQueryWith_small order₁ h₁ event h, buildDeleteQueryWith_small order₂ h₂ event h]

/-- The amended C12 at the events of scenarios S1, S3 and S4, visited in list
order and in reverse order. -/
theorem compose_deterministic_small_witness :
    (smallEvent s1Event = true ∧
      buildCreateQueryWith id s1Event = buildCreateQueryWith List.reverse s1Event) ∧
    (smallEvent s3Event = true ∧
      buildUpdateQueryWith id s3Event = buildUpdateQueryWith List.reverse s3Event) ∧
    (smallEvent s4Event = true ∧
      buildDeleteQueryWith id s4Event = buildDeleteQueryWith List.reverse s4Event) :=
  ⟨⟨by decide, (compose_deterministic_small id List.reverse (fun m => List.Perm.refl m)
      (fun m => List.reverse_perm m) s1Event (by decide)).1⟩,
    ⟨by decide, (compose_deterministic_small id List.reverse (fun m => List.Perm.refl m)
      (fun m => List.reverse_perm m) s3Event (by decide)).2.1⟩,
    ⟨by decide, (compose_deterministic_small id List.reverse (fun m => List.Perm.refl m)
      (fun m => List.reverse_perm m) s4Event (by decide)).2.2.1⟩⟩

/-! ## Two iteration orders of one keys block -/

theorem mem_of_mapGet (m : GoMap) (k : String) (v : Value) (h : mapGet m k = some v) :
    (k, v) ∈ m := by
  induction m with
  | nil => simp [mapGet] at h
  | cons p rest ih =>
    obtain ⟨k0, v0⟩ := p
    by_cases hk : k0 = k
    · subst hk
      simp only [mapGet, if_true, Option.some.injEq] at h
      subst h
      exact List.mem_cons_self _ _
    · simp only [mapGet, hk, if_false] at h
      exact List.mem_cons_of_mem _ (ih h)

theorem mapGet_perm (b c : GoMap) (h : b.Perm c) (hn : (keysOf b).Nodup) (k : String) :
    mapGet b k = mapGet c k := by
  have hkc : (keysOf c).Nodup := (List.Perm.map Prod.fst h).nodup_iff.mp hn
  cases hb : mapGet b k with
  | some v =>
    exact (mapGet_of_mem c hkc k v (h.mem_iff.mp (mem_of_mapGet b k v hb))).symm
  | none =>
    cases hc : mapGet c k with
    | none => rfl
    | some w =>
      have := mapGet_of_mem b hn k w (h.mem_iff.mpr (mem_of_mapGet c k w hc))
      rw [hb] at this
      exact absurd this (by simp)

theorem lastBinding_source (k : String) (keys : GoMap) (v : Value)
    (h : lastBinding k keys = some v) :
    ∃ label bucket, (label, Value.map bucket) ∈ keys ∧ mapGet bucket k = some v := by
  induction keys with
  | nil => simp [lastBinding] at h
  | cons p rest ih =>
    obtain ⟨label, b⟩ := p
    simp only [lastBinding] at h
    cases hr : lastBinding k rest with
    | some w =>
      simp only [hr, Option.some.injEq] at h
      subst h
      obtain ⟨l2, b2, hm, hg⟩ := ih hr
      exact ⟨l2, b2, List.mem_cons_of_mem _ hm, hg⟩
    | none =>
      simp only [hr] at h
      cases b with
      | map bucket => exact ⟨label, bucket, List.mem_cons_self _ _, h⟩
      | _ => simp at h

theorem lastBinding_defined (k : String) (keys : GoMap) (label : String) (bucket : GoMap)
    (v : Value) (hm : (label, Value.map bucket) ∈ keys) (hg : mapGet bucket k = some v) :
    ∃ w, lastBinding k keys = some w :=
  (lastBinding_some_iff k keys).mpr
    ⟨label, bucket, hm, (mem_keysOf_iff bucket k).mpr ⟨v, hg⟩⟩

theorem lastBinding_eq_of (keys₁ keys₂ : GoMap)
    (h₁₂ : ∀ l b k v, (l, Value.map b) ∈ keys₁ → mapGet b k = some v →
      ∃ l' b', (l', Value.map b') ∈ keys₂ ∧ mapGet b' k = some v)
    (h₂₁ : ∀ l b k v, (l, Value.map b) ∈ keys₂ → mapGet b k = some v →
      ∃ l' b', (l', Value.map b') ∈ keys₁ ∧ mapGet b' k = some v)
    (hag : bucketsAgree keys₁) (k : String) :
    lastBinding k keys₁ = lastBinding k keys₂ := by
  cases hl : lastBinding k keys₁ with
  | some v =>
    obtain ⟨l, b, hm, hg⟩ := lastBinding_source k keys₁ v hl
    obtain ⟨l', b', hm', hg'⟩ := h₁₂ l b k v hm hg
    obtain ⟨w, hw⟩ := lastBinding_defined k keys₂ l' b' v hm' hg'
    obtain ⟨l₂, b₂, hm₂, hg₂⟩ := lastBinding_source k keys₂ w hw
    obtain ⟨l₃, b₃, hm₃, hg₃⟩ := h₂₁ l₂ b₂ k w hm₂ hg₂
    rw [hw, hag l b l₃ b₃ k v w hm hm₃ hg hg₃]
  | none =>
    cases hr : lastBinding k keys₂ with
    | none => rfl
    | some w =>
      obtain ⟨l₂, b₂, hm₂, hg₂⟩ := lastBinding_source k keys₂ w hr
      obtain ⟨l₃, b₃, hm₃, hg₃⟩ := h₂₁ l₂ b₂ k w hm₂ hg₂
      obtain ⟨u, hu⟩ := lastBinding_defined k keys₁ l₃ b₃ w hm₃ hg₃
      rw [hl] at hu
      exact absurd hu (by simp)

theorem sameBucket_left (keys₁ keys₂ : GoMap) (h : List.Forall₂ sameBucket keys₁ keys₂)
    (p : String × Value) (hp : p ∈ keys₁) : ∃ q, q ∈ keys₂ ∧ sameBucket p q := by
  induction h with
  | nil => simp at hp
  | cons hab _ ih =>
    rcases List.mem_cons.mp hp with hp | hp
    · subst hp
      exact ⟨_, List.mem_cons_self _ _, hab⟩
    · obtain ⟨q, hq, hs⟩ := ih hp
      exact ⟨q, List.mem_cons_of_mem _ hq, hs⟩

theorem sameBucket_right (keys₁ keys₂ : GoMap) (h : List.Forall₂ sameBucket keys₁ keys₂)
    (q : String × Value) (hq : q ∈ keys₂) : ∃ p, p ∈ keys₁ ∧ sameBucket p q := by
  induction h with
  | nil => simp at hq
  | cons hab _ ih =>
    rcases List.mem_cons.mp hq with hq | hq
    · subst hq
      exact ⟨_, List.mem_cons_self _ _, hab⟩
    · obtain ⟨p, hp, hs⟩ := ih hq
      exact ⟨p, List.mem_cons_of_mem _ hp, hs⟩

theorem sameBucket_labels (keys₁ keys₂ : GoMap) (h : List.Forall₂ sameBucket keys₁ keys₂) :
    keysOf keys₁ = keysOf keys₂ := by
  induction h with
  | nil => rfl
  | cons hab _ ih =>
    simp only [keysOf, List.map_cons, List.cons.injEq]
    exact ⟨hab.1, ih⟩

theorem distinct_bucket (keys : GoMap) (hd : distinctBuckets keys = true) (l : String)
    (b : GoMap) (hm : (l, Value.map b) ∈ keys) : (keysOf b).Nodup := by
  unfold distinctBuckets at hd
  rw [List.all_eq_true] at hd
  simpa using hd (l, Value.map b) hm

theorem distinctBuckets_perm (keys keys' : GoMap) (hp : keys'.Perm keys)
    (hd : distinctBuckets keys = true) : distinctBuckets keys' = true := by
  unfold distinctBuckets at hd ⊢
  rw [List.all_eq_true] at hd ⊢
  intro p hpm
  exact hd p (hp.mem_iff.mp hpm)

theorem distinctBuckets_relisted (keys₁ keys₂ : GoMap)
    (h : List.Forall₂ sameBucket keys₁ keys₂) (hd : distinctBuckets keys₁ = true) :
    distinctBuckets keys₂ = true := by
  unfold distinctBuckets
  rw [List.all_eq_true]
  intro q hq
  obtain ⟨p, hp, _, b, c, hb, hc, hbc⟩ := sameBucket_right keys₁ keys₂ h q hq
  have hn : (keysOf b).Nodup := distinct_bucket keys₁ hd p.1 b (by rw [← hb]; exact hp)
  rw [hc]
  simpa using (List.Perm.map Prod.fst hbc).nodup_iff.mp hn

theorem attributes_perm (attrs₁ attrs₂ : GoMap) (h₁ : (keysOf attrs₁).Nodup)
    (h₂ : (keysOf attrs₂).Nodup) (h : ∀ k, mapGet attrs₁ k = mapGet attrs₂ k) :
    attrs₁.Perm attrs₂ := by
  rw [List.perm_ext_iff_of_nodup (List.Nodup.of_map Prod.fst h₁) (List.Nodup.of_map Prod.fst h₂)]
  intro p
  obtain ⟨k, v⟩ := p
  constructor
  · intro hm
    apply mem_of_mapGet
    rw [← h k]
    exact mapGet_of_mem attrs₁ h₁ k v hm
  · intro hm
    apply mem_of_mapGet
    rw [h k]
    exact mapGet_of_mem attrs₂ h₂ k v hm

theorem nodePatternWith_rendered (order : GoMap → GoMap) (block keys : GoMap) (v : String)
    (hk : mapGet block "keys" = some (Value.map keys))
    (hd : distinctBuckets (order keys) = true) :
    ∃ attributes, (keysOf attributes).Nodup ∧
      (∀ k, mapGet attributes k = lastBinding k (order keys)) ∧
      nodePatternWith order block v = some
        ("(" ++ v ++ labelText (keysOf (order keys)) ++ " " ++
          propertyBlock (pairsFrom (v ++ "_merge_value_") 0 (order attributes)) ++ ")",
          bindingsFrom (v ++ "_merge_value_") 0 (order attributes)) := by
  obtain ⟨attributes, hg, hnd, hl⟩ := gatherKeys_spec (order keys) hd [] "" (by simp [keysOf])
  refine ⟨attributes, hnd, ?_, ?_⟩
  · intro k
    rw [hl k]
    cases lastBinding k (order keys) <;> simp [mapGet]
  · have hm := mergePairs_spec (v ++ "_merge_value_") (order attributes) [] [] 0
      (by simp [keysOf])
    simp only [List.nil_append] at hm
    simp only [nodePatternWith, hk, asMap, hg, hm, propertyBlock, labelText]

/-- C21, the claim as stated fails: on a keys block whose label buckets `Car` and
`Unique` both hold the property `id`, with the values `A` and `B`, the pattern
built in list order resolves `id` to `B` and the pattern built in reverse order
resolves `id` to `A`: the two results carry the same labels and different
(property name, bound value) pairs. -/
theorem nodePattern_orders_differ :
    nodePatternWith id sharedKeyBlock "n" = some
      ("(n:Car:Unique \x7bid: $n_merge_value_0, vin: $n_merge_value_1\x7d)",
        [("n_merge_value_0", Value.str "B"), ("n_merge_value_1", Value.str "V")]) ∧
    mapGet [("n_merge_value_0", Value.str "B"), ("n_merge_value_1", Value.str "V")]
      "n_merge_value_0" = some (Value.str "B") ∧
    nodePatternWith List.reverse sharedKeyBlock "n" = some
      ("(n:Unique:Car \x7bvin: $n_merge_value_0, id: $n_merge_value_1\x7d)",
        [("n_merge_value_0", Value.str "V"), ("n_merge_value_1", Value.str "A")]) ∧
    mapGet [("n_merge_value_0", Value.str "V"), ("n_merge_value_1", Value.str "A")]
      "n_merge_value_1" = some (Value.str "A") ∧
    Value.str "B" ≠ Value.str "A" ∧
    (∀ m : GoMap, (id m).Perm m) ∧ (∀ m : GoMap, (List.reverse m).Perm m) := by
  refine ⟨by rfl, by rfl, by rfl, by rfl, ?_, fun m => List.Perm.refl m,
    fun m => List.reverse_perm m⟩
  intro h
  injection h with h
  exact absurd h (by decide)

/-- C21, amended: for every keys block whose label buckets agree on each
property name that two of them hold, every variable name, and any two iteration
orders of the label buckets, of the properties of each bucket and of the
`attributes` map, both calls of `nodePattern` return; the two patterns carry the
same labels, each in its own order; and the two sequences of (property name,
bound value) pairs read off the patterns, the `i`-th pair `name: $v_merge_value_i`
resolved through the parameter map that comes with it, are permutations of each
other. -/
theorem nodePattern_order_equivalent (order₁ order₂ : GoMap → GoMap)
    (h₁ : ∀ m, (order₁ m).Perm m) (h₂ : ∀ m, (order₂ m).Perm m)
    (block₁ block₂ keys₁ keys₂ : GoMap) (v : String)
    (hk₁ : mapGet block₁ "keys" = some (Value.map keys₁))
    (hk₂ : mapGet block₂ "keys" = some (Value.map keys₂))
    (hsame : List.Forall₂ sameBucket keys₁ keys₂)
    (hd : distinctBuckets keys₁ = true)
    (hag : bucketsAgree keys₁) :
    ∃ pairs₁ pairs₂ : GoMap,
      nodePatternWith order₁ block₁ v = some
        ("(" ++ v ++ labelText (keysOf (order₁ keys₁)) ++ " " ++
          propertyBlock (pairsFrom (v ++ "_merge_value_") 0 pairs₁) ++ ")",
          bindingsFrom (v ++ "_merge_value_") 0 pairs₁) ∧
      nodePatternWith order₂ block₂ v = some
        ("(" ++ v ++ labelText (keysOf (order₂ keys₂)) ++ " " ++
          propertyBlock (pairsFrom (v ++ "_merge_value_") 0 pairs₂) ++ ")",
          bindingsFrom (v ++ "_merge_value_") 0 pairs₂) ∧
      (keysOf (order₁ keys₁)).Perm (keysOf (order₂ keys₂)) ∧
      pairs₁.Perm pairs₂ ∧
      (∀ i k val, pairs₁[i]? = some (k, val) →
        (pairsFrom (v ++ "_merge_value_") 0 pairs₁)[i]? =
          some (k ++ ": $" ++ (v ++ "_merge_value_" ++ itoa i)) ∧
        mapGet (bindingsFrom (v ++ "_merge_value_") 0 pairs₁)
          (v ++ "_merge_value_" ++ itoa i) = some val) ∧
      (∀ i k val, pairs₂[i]? = some (k, val) →
        (pairsFrom (v ++ "_merge_value_") 0 pairs₂)[i]? =
          some (k ++ ": $" ++ (v ++ "_merge_value_" ++ itoa i)) ∧
        mapGet (bindingsFrom (v ++ "_merge_value_") 0 pairs₂)
          (v ++ "_merge_value_" ++ itoa i) = some val) := by
  have hd₂ := distinctBuckets_relisted keys₁ keys₂ hsame hd
  obtain ⟨attrs₁, hn₁, hl₁, hq₁⟩ := nodePatternWith_rendered order₁ block₁ keys₁ v hk₁
    (distinctBuckets_perm keys₁ _ (h₁ keys₁) hd)
  obtain ⟨attrs₂, hn₂, hl₂, hq₂⟩ := nodePatternWith_rendered order₂ block₂ keys₂ v hk₂
    (distinctBuckets_perm keys₂ _ (h₂ keys₂) hd₂)
  have hag₁ : bucketsAgree (order₁ keys₁) := by
    intro l₁ b₁ l₂ b₂ k v₁ v₂ hm₁ hm₂ hg₁ hg₂
    exact hag l₁ b₁ l₂ b₂ k v₁ v₂ ((h₁ keys₁).mem_iff.mp hm₁) ((h₁ keys₁).mem_iff.mp hm₂)
      hg₁ hg₂
  have h₁₂ : ∀ l b k val, (l, Value.map b) ∈ order₁ keys₁ → mapGet b k = some val →
      ∃ l' b', (l', Value.map b') ∈ order₂ keys₂ ∧ mapGet b' k = some val := by
    intro l b k val hm hg
    have hm' := (h₁ keys₁).mem_iff.mp hm
    obtain ⟨q, hq, _, b0, c0, hb, hc, hbc⟩ := sameBucket_left keys₁ keys₂ hsame _ hm'
    simp only [Value.map.injEq] at hb
    subst hb
    refine ⟨q.1, c0, (h₂ keys₂).mem_iff.mpr (by rw [← hc]; exact hq), ?_⟩
    rw [← mapGet_perm b c0 hbc (distinct_bucket keys₁ hd l b hm') k]
    exact hg
  have h₂₁ : ∀ l b k val, (l, Value.map b) ∈ order₂ keys₂ → mapGet b k = some val →
      ∃ l' b', (l', Value.map b') ∈ order₁ keys₁ ∧ mapGet b' k = some val := by
    intro l c k val hm hg
    have hm' := (h₂ keys₂).mem_iff.mp hm
    obtain ⟨p, hp, _, b0, c0, hb, hc, hbc⟩ := sameBucket_right keys₁ keys₂ hsame _ hm'
    simp only [Value.map.injEq] at hc
    subst hc
    have hpm : (p.1, Value.map b0) ∈ keys₁ := by rw [← hb]; exact hp
    refine ⟨p.1, b0, (h₁ keys₁).mem_iff.mpr hpm, ?_⟩
    rw [mapGet_perm b0 c hbc (distinct_bucket keys₁ hd p.1 b0 hpm) k]
    exact hg
  have hlast := lastBinding_eq_of (order₁ keys₁) (order₂ keys₂) h₁₂ h₂₁ hag₁
  have hattrs : attrs₁.Perm attrs₂ :=
    attributes_perm attrs₁ attrs₂ hn₁ hn₂ (fun k => by rw [hl₁ k, hl₂ k, hlast k])
  refine ⟨order₁ attrs₁, order₂ attrs₂, hq₁, hq₂, ?_, ?_, ?_, ?_⟩
  · have e := sameBucket_labels keys₁ keys₂ hsame
    exact ((List.Perm.map Prod.fst (h₁ keys₁)).trans (by
      show (keysOf keys₁).Perm (keysOf keys₂)
      rw [e])).trans (List.Perm.map Prod.fst (h₂ keys₂)).symm
  · exact ((h₁ attrs₁).trans hattrs).trans (h₂ attrs₂).symm
  · intro i k val h
    refine ⟨?_, ?_⟩
    · have := getElem?_pairsFrom (v ++ "_merge_value_") _ 0 i k val h
      simpa using this
    · have := mapGet_bindingsFrom (v ++ "_merge_value_") _ 0 i k val h
      simpa using this
  · intro i k val h
    refine ⟨?_, ?_⟩
    · have := getElem?_pairsFrom (v ++ "_merge_value_") _ 0 i k val h
      simpa using this
    · have := mapGet_bindingsFrom (v ++ "_merge_value_") _ 0 i k val h
      simpa using this

/-- The amended C21 at a keys block whose buckets `Car` and `Unique` hold `id`
with the same value, listed and visited in two orders. -/
theorem nodePattern_order_equivalent_witness :
    nodePatternWith id [("keys", Value.map agreeingKeys)] "n" = some
      ("(n:Car:Unique \x7bid: $n_merge_value_0, vin: $n_merge_value_1\x7d)",
        [("n_merge_value_0", Value.str "A"), ("n_merge_value_1", Value.str "V")]) ∧
    nodePatternWith List.reverse [("keys", Value.map agreeingKeysRelisted)] "n" = some
      ("(n:Unique:Car \x7bvin: $n_merge_value_0, id: $n_merge_value_1\x7d)",
        [("n_merge_value_0", Value.str "V"), ("n_merge_value_1", Value.str "A")]) ∧
    ∃ pairs₁ pairs₂ : GoMap,
      nodePatternWith id [("keys", Value.map agreeingKeys)] "n" = some
        ("(" ++ "n" ++ labelText (keysOf (id agreeingKeys)) ++ " " ++
          propertyBlock (pairsFrom ("n" ++ "_merge_value_") 0 pairs₁) ++ ")",
          bindingsFrom ("n" ++ "_merge_value_") 0 pairs₁) ∧
      nodePatternWith List.reverse [("keys", Value.map agreeingKeysRelisted)] "n" = some
        ("(" ++ "n" ++ labelText (keysOf (List.reverse agreeingKeysRelisted)) ++ " " ++
          propertyBlock (pairsFrom ("n" ++ "_merge_value_") 0 pairs₂) ++ ")",
          bindingsFrom ("n" ++ "_merge_value_") 0 pairs₂) ∧
      (keysOf (id agreeingKeys)).Perm (keysOf (List.reverse agreeingKeysRelisted)) ∧
      pairs₁.Perm pairs₂ := by
  refine ⟨by rfl, by rfl, ?_⟩
  have hsame : List.Forall₂ sameBucket agreeingKeys agreeingKeysRelisted :=
    List.Forall₂.cons ⟨rfl, _, _, rfl, rfl, List.Perm.swap _ _ _⟩
      (List.Forall₂.cons ⟨rfl, _, _, rfl, rfl, List.Perm.refl _⟩ List.Forall₂.nil)
  have hag : bucketsAgree agreeingKeys := by
    intro l₁ b₁ l₂ b₂ k v₁ v₂ hm₁ hm₂ hg₁ hg₂
    simp only [agreeingKeys, List.mem_cons, Prod.mk.injEq, Value.map.injEq, List.mem_singleton,
      List.not_mem_nil, or_false] at hm₁ hm₂
    rcases hm₁ with ⟨_, hb₁⟩ | ⟨_, hb₁⟩ <;> rcases hm₂ with ⟨_, hb₂⟩ | ⟨_, hb₂⟩ <;>
      subst hb₁ <;> subst hb₂ <;> simp only [mapGet] at hg₁ hg₂ <;>
      split at hg₁ <;> split at hg₂ <;> simp_all
  obtain ⟨pairs₁, pairs₂, hq₁, hq₂, hl, hp, _⟩ :=
    nodePattern_order_equivalent id List.reverse (fun m => List.Perm.refl m)
      (fun m => List.reverse_perm m) [("keys", Value.map agreeingKeys)]
      [("keys", Value.map agreeingKeysRelisted)] agreeingKeys agreeingKeysRelisted "n"
      rfl rfl hsame (by decide) hag
  exact ⟨pairs₁, pairs₂, hq₁, hq₂, hl, hp⟩

end CdcSync
